import Mathlib

/-!
# Filter registry, properties codec and block-size planner (`filter_encoder.c`)
# and the stream codec adapter (`mz_strm_libcomp.c`)

A shallow embedding of the two source files and the properties proved about them.

Conventions of the embedding

* C integers are `Nat` (unsigned) or `Int` (signed); conversions between widths are
  written out with the helpers `toU64`, `toI32`, `toU32`, `toI16`.
* A `NULL` function pointer in a descriptor is `none`; a present one is `some f`.
* Reading through a `NULL` descriptor pointer, or running off the end of an array,
  has no defined result in C: the embedding returns `none` there.
* External functions (the per-filter callbacks, the native engine, the base stream)
  are parameters of the embedding.
-/

set_option autoImplicit false

namespace FilterEncoder

/-! ## Constants declared in headers that are not part of the sources -/

/-- Modelled from the spec: the reserved sentinel ID that ends a filter chain definition
(`LZMA_VLI_UNKNOWN`). Its header `lzma/vli.h` is not among the sources; liblzma's value is
`UINT64_MAX`. -/
def LZMA_VLI_UNKNOWN : Nat := 2 ^ 64 - 1

/-- Modelled from the spec: the maximum valid ID value (`LZMA_VLI_MAX`). Its header
`lzma/vli.h` is not among the sources; liblzma's value is `UINT64_MAX / 2`. -/
def LZMA_VLI_MAX : Nat := (2 ^ 64 - 1) / 2

/-- Modelled from the spec: the success result (`LZMA_OK` of `lzma/base.h`). -/
def LZMA_OK : Nat := 0

/-- Modelled from the spec: the unsupported-feature / invalid-options result
(`LZMA_OPTIONS_ERROR` of `lzma/base.h`). -/
def LZMA_OPTIONS_ERROR : Nat := 8

/-- Modelled from the spec: the internal-error result (`LZMA_PROG_ERROR` of `lzma/base.h`). -/
def LZMA_PROG_ERROR : Nat := 11

/-- Modelled from the spec: the filter IDs of the registry entries; their headers
(`lzma/lzma12.h`, `lzma/bcj.h`, `lzma/delta.h`) are not among the sources. -/
def LZMA_FILTER_LZMA1 : Nat := 0x4000000000000001

/-- Modelled from the spec: filter ID of LZMA2 (`lzma/lzma12.h`). -/
def LZMA_FILTER_LZMA2 : Nat := 0x21

/-- Modelled from the spec: filter ID of the x86 branch filter (`lzma/bcj.h`). -/
def LZMA_FILTER_X86 : Nat := 0x04

/-- Modelled from the spec: filter ID of the PowerPC branch filter (`lzma/bcj.h`). -/
def LZMA_FILTER_POWERPC : Nat := 0x05

/-- Modelled from the spec: filter ID of the IA-64 branch filter (`lzma/bcj.h`). -/
def LZMA_FILTER_IA64 : Nat := 0x06

/-- Modelled from the spec: filter ID of the ARM branch filter (`lzma/bcj.h`). -/
def LZMA_FILTER_ARM : Nat := 0x07

/-- Modelled from the spec: filter ID of the ARM-Thumb branch filter (`lzma/bcj.h`). -/
def LZMA_FILTER_ARMTHUMB : Nat := 0x08

/-- Modelled from the spec: filter ID of the SPARC branch filter (`lzma/bcj.h`). -/
def LZMA_FILTER_SPARC : Nat := 0x09

/-- Modelled from the spec: filter ID of the delta filter (`lzma/delta.h`). -/
def LZMA_FILTER_DELTA : Nat := 0x03

/-! ## Data model -/

/-- The descriptor `lzma_filter_encoder`. `Opt` stands for what `const void *options`
points to. The member `init` is never called or tested in this file and is left out.

* `memusage`, `block_size`: `uint64_t (*)(const void *options)`, `none` when `NULL`.
* `props_size_get`: `lzma_ret (*)(uint32_t *size, const void *options)`; it receives the
  value `*size` holds before the call and returns the result code with the value it
  holds afterwards.
* `props_encode`: `lzma_ret (*)(const void *options, uint8_t *out)`; it returns the result
  code with the bytes it stored at `out[0]`, `out[1]`, ... -/
structure lzma_filter_encoder (Opt : Type) where
  id : Nat
  memusage : Option (Opt → Nat)
  block_size : Option (Opt → Nat)
  props_size_get : Option (Nat → Opt → Nat × Nat)
  props_size_fixed : Nat
  props_encode : Option (Opt → Nat × List Nat)

/-- The caller's `lzma_filter`: an ID and the options reference. -/
structure lzma_filter (Opt : Type) where
  id : Nat
  options : Opt

/-- The per-filter functions the table refers to; they live in other source files. -/
structure Externals (Opt : Type) where
  lzma_lzma_encoder_memusage : Opt → Nat
  lzma_lzma2_encoder_memusage : Opt → Nat
  lzma_delta_coder_memusage : Opt → Nat
  lzma_lzma2_block_size : Opt → Nat
  lzma_simple_props_size : Nat → Opt → Nat × Nat
  lzma_lzma_props_encode : Opt → Nat × List Nat
  lzma_lzma2_props_encode : Opt → Nat × List Nat
  lzma_simple_props_encode : Opt → Nat × List Nat
  lzma_delta_props_encode : Opt → Nat × List Nat

/-- The `HAVE_ENCODER_*` build switches that select the entries of the table. -/
structure BuildConfig where
  HAVE_ENCODER_LZMA1 : Bool
  HAVE_ENCODER_LZMA2 : Bool
  HAVE_ENCODER_X86 : Bool
  HAVE_ENCODER_POWERPC : Bool
  HAVE_ENCODER_IA64 : Bool
  HAVE_ENCODER_ARM : Bool
  HAVE_ENCODER_ARMTHUMB : Bool
  HAVE_ENCODER_SPARC : Bool
  HAVE_ENCODER_DELTA : Bool

/-- One branch-filter entry of the table: no `memusage`, no `block_size`, size query
`lzma_simple_props_size`, `props_size_fixed` left zero by the initialiser. -/
def simple_entry {Opt : Type} (ext : Externals Opt) (id : Nat) : lzma_filter_encoder Opt :=
  { id := id
    memusage := none
    block_size := none
    props_size_get := some ext.lzma_simple_props_size
    props_size_fixed := 0
    props_encode := some ext.lzma_simple_props_encode }

/-- The static table `encoders[]`, in source order. -/
def encoders {Opt : Type} (cfg : BuildConfig) (ext : Externals Opt) :
    List (lzma_filter_encoder Opt) :=
  (if cfg.HAVE_ENCODER_LZMA1 then
    [{ id := LZMA_FILTER_LZMA1
       memusage := some ext.lzma_lzma_encoder_memusage
       block_size := none
       props_size_get := none
       props_size_fixed := 5
       props_encode := some ext.lzma_lzma_props_encode }] else []) ++
  (if cfg.HAVE_ENCODER_LZMA2 then
    [{ id := LZMA_FILTER_LZMA2
       memusage := some ext.lzma_lzma2_encoder_memusage
       block_size := some ext.lzma_lzma2_block_size
       props_size_get := none
       props_size_fixed := 1
       props_encode := some ext.lzma_lzma2_props_encode }] else []) ++
  (if cfg.HAVE_ENCODER_X86 then [simple_entry ext LZMA_FILTER_X86] else []) ++
  (if cfg.HAVE_ENCODER_POWERPC then [simple_entry ext LZMA_FILTER_POWERPC] else []) ++
  (if cfg.HAVE_ENCODER_IA64 then [simple_entry ext LZMA_FILTER_IA64] else []) ++
  (if cfg.HAVE_ENCODER_ARM then [simple_entry ext LZMA_FILTER_ARM] else []) ++
  (if cfg.HAVE_ENCODER_ARMTHUMB then [simple_entry ext LZMA_FILTER_ARMTHUMB] else []) ++
  (if cfg.HAVE_ENCODER_SPARC then [simple_entry ext LZMA_FILTER_SPARC] else []) ++
  (if cfg.HAVE_ENCODER_DELTA then
    [{ id := LZMA_FILTER_DELTA
       memusage := some ext.lzma_delta_coder_memusage
       block_size := none
       props_size_get := none
       props_size_fixed := 1
       props_encode := some ext.lzma_delta_props_encode }] else [])

/-! ## Operations -/

/-- The lookup `encoder_find`: the first entry of the table with the given ID, `none` for
the `NULL` result. -/
def encoder_find {Opt : Type} (table : List (lzma_filter_encoder Opt)) (id : Nat) :
    Option (lzma_filter_encoder Opt) :=
  match table with
  | [] => none
  | e :: rest => if e.id = id then some e else encoder_find rest id

/-- The query `lzma_filter_encoder_is_supported`. -/
def lzma_filter_encoder_is_supported {Opt : Type} (table : List (lzma_filter_encoder Opt))
    (id : Nat) : Bool :=
  (encoder_find table id).isSome

/-- The loop of `lzma_mt_block_size` from index `i` on, `filters` being the array from
`filters[i]` on and `mx` the local `max`. `none`: the C code has no defined result (it
reads `fe->block_size` through a `NULL` `fe`, or it runs past the end of an array that has
no sentinel). -/
def lzma_mt_block_size_loop {Opt : Type} (table : List (lzma_filter_encoder Opt)) :
    List (lzma_filter Opt) → Nat → Option Nat
  | [], _ => none
  | f :: rest, mx =>
    if f.id = LZMA_VLI_UNKNOWN then some mx
    else
      match encoder_find table f.id with
      | none => none
      | some fe =>
        match fe.block_size with
        | none => lzma_mt_block_size_loop table rest mx
        | some block_size =>
          let size := block_size f.options
          if size = 0 then some 0
          else lzma_mt_block_size_loop table rest (if size > mx then size else mx)

/-- The planner `lzma_mt_block_size`. -/
def lzma_mt_block_size {Opt : Type} (table : List (lzma_filter_encoder Opt))
    (filters : List (lzma_filter Opt)) : Option Nat :=
  lzma_mt_block_size_loop table filters 0

/-- The query `lzma_properties_size`; `size` is the value `*size` holds before the call,
the result is the return code with the value `*size` holds afterwards. -/
def lzma_properties_size {Opt : Type} (table : List (lzma_filter_encoder Opt))
    (size : Nat) (filter : lzma_filter Opt) : Nat × Nat :=
  match encoder_find table filter.id with
  | none =>
    (if filter.id ≤ LZMA_VLI_MAX then LZMA_OPTIONS_ERROR else LZMA_PROG_ERROR, size)
  | some fe =>
    match fe.props_size_get with
    | none => (LZMA_OK, fe.props_size_fixed)
    | some props_size_get => props_size_get size filter.options

/-- The operation `lzma_properties_encode`: the return code with the bytes stored into
`props` (none when the descriptor's function is not called). -/
def lzma_properties_encode {Opt : Type} (table : List (lzma_filter_encoder Opt))
    (filter : lzma_filter Opt) : Nat × List Nat :=
  match encoder_find table filter.id with
  | none => (LZMA_PROG_ERROR, [])
  | some fe =>
    match fe.props_encode with
    | none => (LZMA_OK, [])
    | some props_encode => props_encode filter.options

/-! ## Specification-side definitions -/

/-- The entries of a chain definition up to the first sentinel ID. -/
def chain_entries {Opt : Type} : List (lzma_filter Opt) → List (lzma_filter Opt)
  | [] => []
  | f :: rest => if f.id = LZMA_VLI_UNKNOWN then [] else f :: chain_entries rest

/-- Whether the array holds a sentinel entry. -/
def has_sentinel {Opt : Type} : List (lzma_filter Opt) → Bool
  | [] => false
  | f :: rest => if f.id = LZMA_VLI_UNKNOWN then true else has_sentinel rest

/-- The hints reported by the stages that expose a block-size-hint function, in order. -/
def stage_hints {Opt : Type} (table : List (lzma_filter_encoder Opt)) :
    List (lzma_filter Opt) → List Nat
  | [] => []
  | f :: rest =>
    match encoder_find table f.id with
    | none => stage_hints table rest
    | some fe =>
      match fe.block_size with
      | none => stage_hints table rest
      | some block_size => block_size f.options :: stage_hints table rest

/-- The hint of a chain as the spec words it: 0 when some stage reports 0, else the
maximum of the reported hints (0 when there is none). -/
def spec_block_size (hints : List Nat) : Nat :=
  if 0 ∈ hints then 0 else hints.foldr Nat.max 0

/-- A small instance of the external functions, options being a number: LZMA2 reports
its options as the block-size hint, branch filters have four property bytes when the
option is non-zero, the other filters encode their fixed number of bytes. -/
def sample_ext : Externals Nat :=
  { lzma_lzma_encoder_memusage := fun _ => 0
    lzma_lzma2_encoder_memusage := fun _ => 0
    lzma_delta_coder_memusage := fun _ => 0
    lzma_lzma2_block_size := fun o => o
    lzma_simple_props_size := fun _ o => (LZMA_OK, if o = 0 then 0 else 4)
    lzma_lzma_props_encode := fun o => (LZMA_OK, [o, 0, 0, 0, 0])
    lzma_lzma2_props_encode := fun o => (LZMA_OK, [o])
    lzma_simple_props_encode := fun o => (LZMA_OK, if o = 0 then [] else [o, 0, 0, 0])
    lzma_delta_props_encode := fun o => (LZMA_OK, [o]) }

/-- The build with every encoder compiled in. -/
def full_config : BuildConfig :=
  { HAVE_ENCODER_LZMA1 := true
    HAVE_ENCODER_LZMA2 := true
    HAVE_ENCODER_X86 := true
    HAVE_ENCODER_POWERPC := true
    HAVE_ENCODER_IA64 := true
    HAVE_ENCODER_ARM := true
    HAVE_ENCODER_ARMTHUMB := true
    HAVE_ENCODER_SPARC := true
    HAVE_ENCODER_DELTA := true }

/-- The table of the full build over the sample external functions. -/
def sample_table : List (lzma_filter_encoder Nat) := encoders full_config sample_ext

end FilterEncoder

namespace StrmLibcomp

/-! ## Constants declared in headers that are not part of the sources -/

/-- Modelled from the spec: the ok result (`MZ_OK` of `mz.h`, which is not among the
sources). -/
def MZ_OK : Int := 0

/-- Modelled from the spec: the stream-error result (`MZ_STREAM_ERROR` of `mz.h`). -/
def MZ_STREAM_ERROR : Int := -1

/-- Modelled from the spec: the parameter-error result (`MZ_PARAM_ERROR` of `mz.h`). -/
def MZ_PARAM_ERROR : Int := -102

/-- Modelled from the spec: the property-not-found result (`MZ_EXIST_ERROR` of `mz.h`). -/
def MZ_EXIST_ERROR : Int := -107

/-- Modelled from the spec: the DECODE open-mode bit (`MZ_OPEN_MODE_READ` of `mz.h`). -/
def MZ_OPEN_MODE_READ : Int := 0x01

/-- Modelled from the spec: the ENCODE open-mode bit (`MZ_OPEN_MODE_WRITE` of `mz.h`). -/
def MZ_OPEN_MODE_WRITE : Int := 0x02

/-- Modelled from the spec: property key TOTAL_IN (`mz_strm.h`, not among the sources). -/
def MZ_STREAM_PROP_TOTAL_IN : Int := 1

/-- Modelled from the spec: property key TOTAL_IN_MAX (`mz_strm.h`). -/
def MZ_STREAM_PROP_TOTAL_IN_MAX : Int := 2

/-- Modelled from the spec: property key TOTAL_OUT (`mz_strm.h`). -/
def MZ_STREAM_PROP_TOTAL_OUT : Int := 3

/-- Modelled from the spec: property key HEADER_SIZE (`mz_strm.h`). -/
def MZ_STREAM_PROP_HEADER_SIZE : Int := 5

/-- Modelled from the spec: property key ALGORITHM (`MZ_STREAM_PROP_COMPRESS_ALGORITHM` of
`mz_strm.h`). -/
def MZ_STREAM_PROP_COMPRESS_ALGORITHM : Int := 10

/-- Status "more to do" of the native engine (`compression.h`, an external library). -/
def COMPRESSION_STATUS_OK : Int := 0

/-- Status "failure" of the native engine (`compression.h`). -/
def COMPRESSION_STATUS_ERROR : Int := -1

/-- Status "end of stream" of the native engine (`compression.h`). -/
def COMPRESSION_STATUS_END : Int := 1

/-- Operation selector for encoding (`compression.h`). -/
def COMPRESSION_STREAM_ENCODE : Int := 0

/-- Operation selector for decoding (`compression.h`). -/
def COMPRESSION_STREAM_DECODE : Int := 1

/-- The finalize flag of a processing step (`compression.h`). -/
def COMPRESSION_STREAM_FINALIZE : Int := 1

/-- The zlib algorithm selector (`compression.h`). -/
def COMPRESSION_ZLIB : Int := 0x205

/-- The zlib ok code (`zlib.h`). -/
def Z_OK : Int := 0

/-- The capacity of the staging buffer: `sizeof(libcomp->buffer)` with
`uint8_t buffer[INT16_MAX]`. -/
def BUFFER_SIZE : Nat := 32767

/-! ## Integer conversions -/

/-- Conversion to `size_t` / `uint64_t`. -/
def toU64 (x : Int) : Nat := (x % 2 ^ 64).toNat

/-- Conversion to `uint32_t`. -/
def toU32 (x : Int) : Nat := (x % 2 ^ 32).toNat

/-- Conversion to `int32_t` (two's complement). -/
def toI32 (x : Int) : Int := (x + 2 ^ 31) % 2 ^ 32 - 2 ^ 31

/-- Conversion to `int16_t` (two's complement). -/
def toI16 (x : Int) : Int := (x + 2 ^ 15) % 2 ^ 16 - 2 ^ 15

/-! ## Memory -/

/-- Store `data` at offset `off` of a byte array (bytes are numbers, an array is a map
from index to byte). -/
def store (mem : Nat → Nat) (off : Nat) (data : List Nat) : Nat → Nat :=
  fun i => if off ≤ i ∧ i < off + data.length then data.getD (i - off) 0 else mem i

/-- The `len` bytes of a byte array from offset `off` on. -/
def load (mem : Nat → Nat) (off len : Nat) : List Nat :=
  (List.range len).map (fun i => mem (off + i))

/-- Where `cstream.dst_ptr` points. -/
inductive Ptr where
  | null : Ptr
  | buffer (off : Nat) : Ptr
  | buf (off : Nat) : Ptr

/-- Pointer arithmetic `p + n`. -/
def Ptr.advance : Ptr → Nat → Ptr
  | Ptr.null, _ => Ptr.null
  | Ptr.buffer off, n => Ptr.buffer (off + n)
  | Ptr.buf off, n => Ptr.buf (off + n)

/-! ## The collaborators: native engine and base stream -/

/-- The public part of `compression_stream` and its private `state`.

* `dst_ptr`: `Ptr.buffer off` is `libcomp->buffer + off`, `Ptr.buf off` is the caller's
  `buf + off`, `Ptr.null` the value after `memset`.
* `src`: the bytes that lie at `src_ptr` and after it, as they were when `src_ptr` was
  set; the engine's advance of `src_ptr` drops them from the front. -/
structure compression_stream (ε : Type) where
  dst_ptr : Ptr
  dst_size : Nat
  src : List Nat
  src_size : Nat
  state : ε

/-- What one call of `compression_stream_process` leaves behind: the status it returns,
the values of `src_size` and `dst_size` after the call, the bytes it stored from the old
`dst_ptr` on, and the private state. -/
structure process_result (ε : Type) where
  status : Int
  src_size : Nat
  dst_size : Nat
  out : List Nat
  state : ε

/-- The native engine (Apple's `compression.h`), an external library.

* `compression_stream_init operation algorithm` returns the status and the private state;
  the four public cursor fields are left as they are.
* `compression_stream_process state src src_size dst_size flags` is one processing step.
* `compression_stream_destroy` releases the private state.
* `zero` is the private state of a stream that was only cleared by `memset`. -/
structure Engine (ε : Type) where
  zero : ε
  compression_stream_init : Int → Int → Int × ε
  compression_stream_process : ε → List Nat → Nat → Nat → Int → process_result ε
  compression_stream_destroy : ε → ε

/-- The base stream behind `stream.base` (`mz_stream_read` / `mz_stream_write` of
`mz_strm.c`, which dispatch to the base stream's own functions), with state `β`.

* `mz_stream_read state size`: the return value, the bytes stored at `buf[0]`, `buf[1]`,
  ..., the new state.
* `mz_stream_write state bytes size`: `bytes` are the `size` bytes at `buf`; the return
  value and the new state. -/
structure Base (β : Type) where
  mz_stream_read : β → Int → Int × List Nat × β
  mz_stream_write : β → List Nat → Int → Int × β

/-- The session `mz_stream_libcomp`. `base` is the state of the stream that
`stream.base` points to. The counters `total_in`, `total_out`, `max_total_in` are
`int64_t`; additions on them are exact (a signed 64-bit overflow has no defined result
in C and needs 2^63 bytes of traffic). -/
structure mz_stream_libcomp (β ε : Type) where
  base : β
  cstream : compression_stream ε
  buffer : Nat → Nat
  buffer_len : Int
  total_in : Int
  total_out : Int
  max_total_in : Int
  initialized : Int
  mode : Int
  error : Int
  algorithm : Int

/-- The cursor fields after a processing step: the engine has advanced `src_ptr` by the
decrease of `src_size` and `dst_ptr` past the bytes it stored. -/
def compression_stream.after {ε : Type} (cs : compression_stream ε)
    (r : process_result ε) : compression_stream ε :=
  { dst_ptr := cs.dst_ptr.advance r.out.length
    dst_size := r.dst_size
    src := cs.src.drop (cs.src_size - r.src_size)
    src_size := r.src_size
    state := r.state }

/-! ## Operations -/

/-- The constructor `mz_stream_libcomp_create` (the `memset` to zero), followed by the
attachment of the base stream (`mz_stream_set_base`). -/
def mz_stream_libcomp_create {β ε : Type} (E : Engine ε) (base : β) :
    mz_stream_libcomp β ε :=
  { base := base
    cstream := { dst_ptr := Ptr.null, dst_size := 0, src := [], src_size := 0,
                 state := E.zero }
    buffer := fun _ => 0
    buffer_len := 0
    total_in := 0
    total_out := 0
    max_total_in := 0
    initialized := 0
    mode := 0
    error := 0
    algorithm := 0 }

/-- The constructor `mz_stream_zlib_create`. -/
def mz_stream_zlib_create {β ε : Type} (E : Engine ε) (base : β) : mz_stream_libcomp β ε :=
  { mz_stream_libcomp_create E base with algorithm := COMPRESSION_ZLIB }

/-- The local `operation` of `mz_stream_libcomp_open` once the mode has been looked at. -/
def open_operation (mode : Int) : Int :=
  if Int.land mode MZ_OPEN_MODE_WRITE ≠ 0 then COMPRESSION_STREAM_ENCODE
  else if Int.land mode MZ_OPEN_MODE_READ ≠ 0 then COMPRESSION_STREAM_DECODE
  else 0

/-- The operation `mz_stream_libcomp_open` (build with compression and decompression
compiled in): the return value and the session afterwards. -/
def mz_stream_libcomp_open {β ε : Type} (E : Engine ε) (libcomp : mz_stream_libcomp β ε)
    (mode : Int) : Int × mz_stream_libcomp β ε :=
  if libcomp.algorithm = 0 then (MZ_PARAM_ERROR, libcomp)
  else
    let libcomp := { libcomp with total_in := 0, total_out := 0 }
    let r := E.compression_stream_init (open_operation mode) libcomp.algorithm
    let libcomp := { libcomp with cstream := { libcomp.cstream with state := r.2 } }
    if r.1 = COMPRESSION_STATUS_ERROR then
      (MZ_STREAM_ERROR, { libcomp with error := r.1 })
    else
      (MZ_OK, { libcomp with initialized := 1, mode := mode })

/-- The query `mz_stream_libcomp_is_open`. -/
def mz_stream_libcomp_is_open {β ε : Type} (libcomp : mz_stream_libcomp β ε) : Int :=
  if libcomp.initialized ≠ 1 then MZ_STREAM_ERROR else MZ_OK

/-- The part of one iteration of the loop of `mz_stream_libcomp_read` from
`total_in_before = ...` to the end of the body. The result is whether the loop condition
is reached (`false`: a `break`), the session, the local `total_out`, and the bytes stored
in the caller's buffer so far. -/
def read_step {β ε : Type} (E : Engine ε) (libcomp : mz_stream_libcomp β ε)
    (total_out : Int) (out : List Nat) : Bool × mz_stream_libcomp β ε × Int × List Nat :=
  let total_in_before := libcomp.cstream.src_size
  let total_out_before := libcomp.cstream.dst_size
  let r := E.compression_stream_process libcomp.cstream.state libcomp.cstream.src
    libcomp.cstream.src_size libcomp.cstream.dst_size 0
  let libcomp := { libcomp with cstream := libcomp.cstream.after r }
  let out := out ++ r.out
  if r.status = COMPRESSION_STATUS_ERROR then
    (false, { libcomp with error := r.status }, total_out, out)
  else
    let total_in_after := libcomp.cstream.src_size
    let total_out_after := libcomp.cstream.dst_size
    let in_bytes := toI32 (toU64 ((total_in_before : Int) - (total_in_after : Int)))
    let out_bytes := toI32 (toU64 ((total_out_before : Int) - (total_out_after : Int)))
    let total_out := toI32 (total_out + out_bytes)
    let libcomp := { libcomp with total_in := libcomp.total_in + in_bytes
                                  total_out := libcomp.total_out + out_bytes }
    if r.status = COMPRESSION_STATUS_END then (false, libcomp, total_out, out)
    else if r.status ≠ COMPRESSION_STATUS_OK then
      (false, { libcomp with error := r.status }, total_out, out)
    else (true, libcomp, total_out, out)

/-- The number of bytes a refill asks the base stream for (`bytes_to_read`). -/
def read_request {β ε : Type} (libcomp : mz_stream_libcomp β ε) : Int :=
  if libcomp.max_total_in > 0 ∧
      libcomp.max_total_in - libcomp.total_in < (BUFFER_SIZE : Int) then
    toI32 (libcomp.max_total_in - libcomp.total_in)
  else (BUFFER_SIZE : Int)

/-- The session once `mz_stream_read` has answered `r` to a refill: the bytes it stored
lie at the start of the staging buffer. -/
def read_refill {β ε : Type} (libcomp : mz_stream_libcomp β ε) (r : Int × List Nat × β) :
    mz_stream_libcomp β ε :=
  { libcomp with base := r.2.2, buffer := store libcomp.buffer 0 r.2.1 }

/-- The session once a refill of `read > 0` bytes has been handed to the engine:
`src_ptr = libcomp->buffer`, `src_size = (size_t)read`. -/
def read_attach {β ε : Type} (libcomp : mz_stream_libcomp β ε) (read : Int) :
    mz_stream_libcomp β ε :=
  { libcomp with
    cstream := { libcomp.cstream with src := load libcomp.buffer 0 (toU64 read)
                                      src_size := toU64 read } }

/-- One iteration of the body of the loop of `mz_stream_libcomp_read`: the refill when
`src_size == 0`, then the processing step. -/
def read_body {β ε : Type} (B : Base β) (E : Engine ε) (libcomp : mz_stream_libcomp β ε)
    (total_out : Int) (out : List Nat) : Bool × mz_stream_libcomp β ε × Int × List Nat :=
  if libcomp.cstream.src_size = 0 then
    let bytes_to_read := read_request libcomp
    let r := B.mz_stream_read libcomp.base bytes_to_read
    let read := r.1
    let libcomp := read_refill libcomp r
    if read < 0 then (false, { libcomp with error := read }, total_out, out)
    else if read = 0 then (false, libcomp, total_out, out)
    else read_step E (read_attach libcomp read) total_out out
  else read_step E libcomp total_out out

/-- The `do ... while (dst_size > 0)` loop of `mz_stream_libcomp_read`, at most `fuel`
iterations; `none` when they do not suffice. -/
def read_loop {β ε : Type} (B : Base β) (E : Engine ε) :
    Nat → mz_stream_libcomp β ε → Int → List Nat →
      Option (mz_stream_libcomp β ε × Int × List Nat)
  | 0, _, _, _ => none
  | fuel + 1, libcomp, total_out, out =>
    let r := read_body B E libcomp total_out out
    if r.1 = true ∧ r.2.1.cstream.dst_size > 0 then read_loop B E fuel r.2.1 r.2.2.1 r.2.2.2
    else some r.2

/-- The operation `mz_stream_libcomp_read`: the return value, the bytes stored in the
caller's buffer from `buf[0]` on, and the session afterwards. -/
def mz_stream_libcomp_read {β ε : Type} (B : Base β) (E : Engine ε) (fuel : Nat)
    (libcomp : mz_stream_libcomp β ε) (size : Int) :
    Option (Int × List Nat × mz_stream_libcomp β ε) :=
  let libcomp :=
    { libcomp with cstream := { libcomp.cstream with dst_ptr := Ptr.buf 0
                                                     dst_size := toU64 size } }
  match read_loop B E fuel libcomp 0 [] with
  | none => none
  | some r =>
    if r.1.error ≠ 0 then some (r.1.error, r.2.2, r.1)
    else some (r.2.1, r.2.2, r.1)

/-- The helper `mz_stream_libcomp_flush`. -/
def mz_stream_libcomp_flush {β ε : Type} (B : Base β) (libcomp : mz_stream_libcomp β ε) :
    Int × mz_stream_libcomp β ε :=
  let r := B.mz_stream_write libcomp.base (load libcomp.buffer 0 libcomp.buffer_len.toNat)
    libcomp.buffer_len
  if r.1 ≠ libcomp.buffer_len then (MZ_STREAM_ERROR, { libcomp with base := r.2 })
  else (MZ_OK, { libcomp with base := r.2 })

/-- How one iteration of the loop of `mz_stream_libcomp_deflate` ends. -/
inductive deflate_exit (σ : Type) where
  | ret (code : Int) (libcomp : σ) : deflate_exit σ
  | brk (libcomp : σ) : deflate_exit σ
  | cond (err : Int) (libcomp : σ) : deflate_exit σ

/-- The bytes the engine stored through `dst_ptr`, as far as they land in the staging
buffer. -/
def store_dst (buffer : Nat → Nat) (dst_ptr : Ptr) (out : List Nat) : Nat → Nat :=
  match dst_ptr with
  | Ptr.buffer off => store buffer off out
  | _ => buffer

/-- The part of one iteration of the loop of `mz_stream_libcomp_deflate` from
`total_out_before = ...` to the end of the body. -/
def deflate_step {β ε : Type} (E : Engine ε) (libcomp : mz_stream_libcomp β ε)
    (flush : Int) : deflate_exit (mz_stream_libcomp β ε) :=
  let total_out_before := libcomp.cstream.dst_size
  let r := E.compression_stream_process libcomp.cstream.state libcomp.cstream.src
    libcomp.cstream.src_size libcomp.cstream.dst_size flush
  let err := r.status
  let libcomp :=
    { libcomp with cstream := libcomp.cstream.after r
                   buffer := store_dst libcomp.buffer libcomp.cstream.dst_ptr r.out }
  let total_out_after := libcomp.cstream.dst_size
  let out_bytes := toU32 (toU64 ((total_out_before : Int) - (total_out_after : Int)))
  let libcomp := { libcomp with buffer_len := toI32 (libcomp.buffer_len + out_bytes)
                                total_out := libcomp.total_out + out_bytes }
  if err = COMPRESSION_STATUS_END then deflate_exit.brk libcomp
  else if err ≠ COMPRESSION_STATUS_OK then
    deflate_exit.ret MZ_STREAM_ERROR { libcomp with error := err }
  else deflate_exit.cond err libcomp

/-- One iteration of the body of the loop of `mz_stream_libcomp_deflate`: the flush and
reset of the staging buffer when `dst_size == 0`, then the processing step. -/
def deflate_body {β ε : Type} (B : Base β) (E : Engine ε) (libcomp : mz_stream_libcomp β ε)
    (flush : Int) : deflate_exit (mz_stream_libcomp β ε) :=
  if libcomp.cstream.dst_size = 0 then
    let f := mz_stream_libcomp_flush B libcomp
    let err := f.1
    let libcomp := f.2
    if err ≠ MZ_OK then deflate_exit.ret MZ_STREAM_ERROR { libcomp with error := err }
    else
      deflate_step E
        { libcomp with
          cstream := { libcomp.cstream with dst_size := BUFFER_SIZE
                                            dst_ptr := Ptr.buffer 0 }
          buffer_len := 0 }
        flush
  else deflate_step E libcomp flush

/-- The loop of `mz_stream_libcomp_deflate`, at most `fuel` iterations. -/
def deflate_loop {β ε : Type} (B : Base β) (E : Engine ε) :
    Nat → mz_stream_libcomp β ε → Int → Option (Int × mz_stream_libcomp β ε)
  | 0, _, _ => none
  | fuel + 1, libcomp, flush =>
    match deflate_body B E libcomp flush with
    | deflate_exit.ret code libcomp => some (code, libcomp)
    | deflate_exit.brk libcomp => some (MZ_OK, libcomp)
    | deflate_exit.cond err libcomp =>
      if libcomp.cstream.src_size > 0 ∨
          (flush = COMPRESSION_STREAM_FINALIZE ∧ err = COMPRESSION_STATUS_OK) then
        deflate_loop B E fuel libcomp flush
      else some (MZ_OK, libcomp)

/-- The helper `mz_stream_libcomp_deflate`; `none` when `fuel` iterations do not
suffice. -/
def mz_stream_libcomp_deflate {β ε : Type} (B : Base β) (E : Engine ε) (fuel : Nat)
    (libcomp : mz_stream_libcomp β ε) (flush : Int) :
    Option (Int × mz_stream_libcomp β ε) :=
  deflate_loop B E fuel libcomp flush

/-- The operation `mz_stream_libcomp_write`; `buf` holds the bytes at the caller's
pointer. -/
def mz_stream_libcomp_write {β ε : Type} (B : Base β) (E : Engine ε) (fuel : Nat)
    (libcomp : mz_stream_libcomp β ε) (buf : List Nat) (size : Int) :
    Option (Int × mz_stream_libcomp β ε) :=
  let err := size
  let libcomp :=
    { libcomp with cstream := { libcomp.cstream with src := buf, src_size := toU64 size } }
  match mz_stream_libcomp_deflate B E fuel libcomp 0 with
  | none => none
  | some r => some (err, { r.2 with total_in := r.2.total_in + size })

/-- The operation `mz_stream_libcomp_tell`. -/
def mz_stream_libcomp_tell {β ε : Type} (_libcomp : mz_stream_libcomp β ε) : Int :=
  MZ_STREAM_ERROR

/-- The operation `mz_stream_libcomp_seek`. -/
def mz_stream_libcomp_seek {β ε : Type} (_libcomp : mz_stream_libcomp β ε)
    (_offset _origin : Int) : Int :=
  MZ_STREAM_ERROR

/-- The first part of `mz_stream_libcomp_close`: in ENCODE mode the finalize drive and
the flush of the residual staged bytes, both return values being dropped; `none` when
`fuel` iterations do not suffice for the drive. -/
def close_drain {β ε : Type} (B : Base β) (E : Engine ε) (fuel : Nat)
    (libcomp : mz_stream_libcomp β ε) : Option (mz_stream_libcomp β ε) :=
  if Int.land libcomp.mode MZ_OPEN_MODE_WRITE ≠ 0 then
    match mz_stream_libcomp_deflate B E fuel libcomp COMPRESSION_STREAM_FINALIZE with
    | none => none
    | some r => some (mz_stream_libcomp_flush B r.2).2
  else some libcomp

/-- The second part of `mz_stream_libcomp_close`: the release of the engine, the reset of
`initialized`, and the return value. -/
def close_finish {β ε : Type} (E : Engine ε) (libcomp : mz_stream_libcomp β ε) :
    Int × mz_stream_libcomp β ε :=
  let libcomp :=
    { libcomp with
      cstream := { libcomp.cstream with
                   state := E.compression_stream_destroy libcomp.cstream.state }
      initialized := 0 }
  if libcomp.error ≠ Z_OK then (MZ_STREAM_ERROR, libcomp) else (MZ_OK, libcomp)

/-- The operation `mz_stream_libcomp_close`. -/
def mz_stream_libcomp_close {β ε : Type} (B : Base β) (E : Engine ε) (fuel : Nat)
    (libcomp : mz_stream_libcomp β ε) : Option (Int × mz_stream_libcomp β ε) :=
  match close_drain B E fuel libcomp with
  | none => none
  | some libcomp => some (close_finish E libcomp)

/-- The accessor `mz_stream_libcomp_error`. -/
def mz_stream_libcomp_error {β ε : Type} (libcomp : mz_stream_libcomp β ε) : Int :=
  libcomp.error

/-- The accessor `mz_stream_libcomp_get_prop_int64`; `value` is what `*value` holds before
the call, the result is the return code with what it holds afterwards. -/
def mz_stream_libcomp_get_prop_int64 {β ε : Type} (libcomp : mz_stream_libcomp β ε)
    (prop : Int) (value : Int) : Int × Int :=
  if prop = MZ_STREAM_PROP_TOTAL_IN then (MZ_OK, libcomp.total_in)
  else if prop = MZ_STREAM_PROP_TOTAL_IN_MAX then (MZ_OK, libcomp.max_total_in)
  else if prop = MZ_STREAM_PROP_TOTAL_OUT then (MZ_OK, libcomp.total_out)
  else if prop = MZ_STREAM_PROP_HEADER_SIZE then (MZ_OK, 0)
  else (MZ_EXIST_ERROR, value)

/-- The accessor `mz_stream_libcomp_set_prop_int64`. -/
def mz_stream_libcomp_set_prop_int64 {β ε : Type} (libcomp : mz_stream_libcomp β ε)
    (prop : Int) (value : Int) : Int × mz_stream_libcomp β ε :=
  if prop = MZ_STREAM_PROP_COMPRESS_ALGORITHM then
    (MZ_OK, { libcomp with algorithm := toI16 value })
  else if prop = MZ_STREAM_PROP_TOTAL_IN_MAX then
    (MZ_OK, { libcomp with max_total_in := value })
  else (MZ_EXIST_ERROR, libcomp)

/-! ## Specification-side definitions and sample collaborators -/

/-- A sequence of `write` calls, each with its bytes and its `size` argument: the return
values in order and the session afterwards. -/
def write_all {β ε : Type} (B : Base β) (E : Engine ε) (fuel : Nat) :
    mz_stream_libcomp β ε → List (List Nat × Int) → Option (List Int × mz_stream_libcomp β ε)
  | libcomp, [] => some ([], libcomp)
  | libcomp, w :: rest =>
    match mz_stream_libcomp_write B E fuel libcomp w.1 w.2 with
    | none => none
    | some (r, libcomp) =>
      match write_all B E fuel libcomp rest with
      | none => none
      | some (rs, libcomp) => some (r :: rs, libcomp)

/-- A sequence of `read` calls with the given `size` arguments: the return value and the
bytes delivered by each call, and the session afterwards. -/
def read_all {β ε : Type} (B : Base β) (E : Engine ε) (fuel : Nat) :
    mz_stream_libcomp β ε → List Int → Option (List (Int × List Nat) × mz_stream_libcomp β ε)
  | libcomp, [] => some ([], libcomp)
  | libcomp, size :: rest =>
    match mz_stream_libcomp_read B E fuel libcomp size with
    | none => none
    | some (r, out, libcomp) =>
      match read_all B E fuel libcomp rest with
      | none => none
      | some (rs, libcomp) => some ((r, out) :: rs, libcomp)

/-- The session an iteration of the deflate loop ends with. -/
def deflate_exit.session {σ : Type} : deflate_exit σ → σ
  | deflate_exit.ret _ libcomp => libcomp
  | deflate_exit.brk libcomp => libcomp
  | deflate_exit.cond _ libcomp => libcomp

/-- The engine makes progress in the deflate drive, measured by `m` on its private state
and the input left: whenever it is offered output space and reports
`COMPRESSION_STATUS_OK` in a situation in which the drive goes on (input is left, or the
step was a finalize step), the measure has decreased. -/
def EngineProgress {ε : Type} (E : Engine ε) (m : ε → Nat → Nat) : Prop :=
  ∀ (st : ε) (src : List Nat) (n d : Nat) (fl : Int), 0 < d →
    (E.compression_stream_process st src n d fl).status = COMPRESSION_STATUS_OK →
    (0 < (E.compression_stream_process st src n d fl).src_size ∨
      fl = COMPRESSION_STREAM_FINALIZE) →
    m (E.compression_stream_process st src n d fl).state
        (E.compression_stream_process st src n d fl).src_size < m st n

/-- A base stream in memory: reads serve `input` from the front, as many bytes as asked
for while they last; writes are accepted in full and appended to `output`. -/
structure mem_stream where
  input : List Nat
  output : List Nat

/-- The functions of the memory stream. -/
def mem_base : Base mem_stream :=
  { mz_stream_read := fun st size =>
      ((min size.toNat st.input.length : Nat), st.input.take (min size.toNat st.input.length),
        { st with input := st.input.drop (min size.toNat st.input.length) })
    mz_stream_write := fun st bytes size => (size, { st with output := st.output ++ bytes }) }

/-- A base stream whose reads return the scripted values in turn, storing nothing, and
whose writes are all rejected. -/
def script_base : Base (List Int) :=
  { mz_stream_read := fun st _ =>
      match st with
      | [] => (0, [], [])
      | c :: rest => (c, [], rest)
    mz_stream_write := fun st _ _ => (MZ_STREAM_ERROR, st) }

/-- The copying engine: a step moves as many bytes as the input and the output space
allow; it reports the end when a finalize step has moved all the input. -/
def copy_engine : Engine Unit :=
  { zero := ()
    compression_stream_init := fun _ _ => (COMPRESSION_STATUS_OK, ())
    compression_stream_process := fun _ src src_size dst_size flags =>
      { status := if flags = COMPRESSION_STREAM_FINALIZE ∧ src_size ≤ dst_size then
                    COMPRESSION_STATUS_END else COMPRESSION_STATUS_OK
        src_size := src_size - min src_size dst_size
        dst_size := dst_size - min src_size dst_size
        out := src.take (min src_size dst_size)
        state := () }
    compression_stream_destroy := fun _ => () }

/-- An engine whose every processing step fails. -/
def fail_engine : Engine Unit :=
  { zero := ()
    compression_stream_init := fun _ _ => (COMPRESSION_STATUS_OK, ())
    compression_stream_process := fun _ _ src_size dst_size _ =>
      { status := COMPRESSION_STATUS_ERROR, src_size := src_size, dst_size := dst_size,
        out := [], state := () }
    compression_stream_destroy := fun _ => () }

/-- The failure a processing step of the read loop meets, if any: the engine's status
when it is neither `COMPRESSION_STATUS_OK` nor `COMPRESSION_STATUS_END`. -/
def read_step_failure {β ε : Type} (E : Engine ε) (libcomp : mz_stream_libcomp β ε) :
    Option Int :=
  let r := E.compression_stream_process libcomp.cstream.state libcomp.cstream.src
    libcomp.cstream.src_size libcomp.cstream.dst_size 0
  if r.status = COMPRESSION_STATUS_ERROR then some r.status
  else if r.status = COMPRESSION_STATUS_END then none
  else if r.status ≠ COMPRESSION_STATUS_OK then some r.status
  else none

/-- The failure an iteration of the read loop meets, if any: a negative return value of
the upstream read, or the failure of the processing step. -/
def read_body_failure {β ε : Type} (B : Base β) (E : Engine ε)
    (libcomp : mz_stream_libcomp β ε) : Option Int :=
  if libcomp.cstream.src_size = 0 then
    let r := B.mz_stream_read libcomp.base (read_request libcomp)
    if r.1 < 0 then some r.1
    else if r.1 = 0 then none
    else read_step_failure E (read_attach (read_refill libcomp r) r.1)
  else read_step_failure E libcomp

/-- The failure the read loop meets, if any; the recursion is that of `read_loop`. -/
def read_loop_failure {β ε : Type} (B : Base β) (E : Engine ε) :
    Nat → mz_stream_libcomp β ε → Int → List Nat → Option Int
  | 0, _, _, _ => none
  | fuel + 1, libcomp, total_out, out =>
    let r := read_body B E libcomp total_out out
    if r.1 = true ∧ r.2.1.cstream.dst_size > 0 then
      read_loop_failure B E fuel r.2.1 r.2.2.1 r.2.2.2
    else read_body_failure B E libcomp

/-- The failure a `read` call meets, if any. -/
def read_failure {β ε : Type} (B : Base β) (E : Engine ε) (fuel : Nat)
    (libcomp : mz_stream_libcomp β ε) (size : Int) : Option Int :=
  read_loop_failure B E fuel
    { libcomp with cstream := { libcomp.cstream with dst_ptr := Ptr.buf 0
                                                     dst_size := toU64 size } } 0 []

/-- The read loop makes progress, measured by `μ` on the session: an iteration after
which the loop goes on has decreased the measure. -/
def ReadProgress {β ε : Type} (B : Base β) (E : Engine ε)
    (μ : mz_stream_libcomp β ε → Nat) : Prop :=
  ∀ (libcomp : mz_stream_libcomp β ε) (total_out : Int) (out : List Nat),
    (read_body B E libcomp total_out out).1 = true →
    (read_body B E libcomp total_out out).2.1.cstream.dst_size > 0 →
    μ (read_body B E libcomp total_out out).2.1 < μ libcomp

/-- A fresh zlib session over the memory stream, opened in ENCODE mode over the engine
whose steps fail. -/
def failing_encoder : mz_stream_libcomp mem_stream Unit :=
  (mz_stream_libcomp_open fail_engine
    (mz_stream_zlib_create fail_engine { input := [], output := [] }) MZ_OPEN_MODE_WRITE).2

/-- A fresh zlib session over a base stream that rejects every write, opened in ENCODE
mode over the copying engine. -/
def rejecting_encoder : mz_stream_libcomp (List Int) Unit :=
  (mz_stream_libcomp_open copy_engine (mz_stream_zlib_create copy_engine [])
    MZ_OPEN_MODE_WRITE).2

/-- A fresh zlib session opened in DECODE mode over the copying engine, on a base stream
whose first two reads fail with the codes -5 and -7. -/
def failing_decoder : mz_stream_libcomp (List Int) Unit :=
  (mz_stream_libcomp_open copy_engine (mz_stream_zlib_create copy_engine [-5, -7])
    MZ_OPEN_MODE_READ).2

/-- A zlib session opened in DECODE mode over the copying engine on an exhausted memory
stream, with the code -5 latched by an earlier failure. -/
def latched_decoder : mz_stream_libcomp mem_stream Unit :=
  { (mz_stream_libcomp_open copy_engine
      (mz_stream_zlib_create copy_engine { input := [], output := [] })
      MZ_OPEN_MODE_READ).2 with error := -5 }

/-- An engine whose initialisation fails. -/
def init_fail_engine : Engine Unit :=
  { zero := ()
    compression_stream_init := fun _ _ => (COMPRESSION_STATUS_ERROR, ())
    compression_stream_process := fun _ _ src_size dst_size _ =>
      { status := COMPRESSION_STATUS_ERROR, src_size := src_size, dst_size := dst_size,
        out := [], state := () }
    compression_stream_destroy := fun _ => () }

/-- A base stream that has nothing to read and takes no byte of any write: every write
returns 0. -/
def short_base : Base Unit :=
  { mz_stream_read := fun _ _ => (0, [], ())
    mz_stream_write := fun _ _ _ => (0, ()) }

/-- A fresh zlib session over the base stream that takes no byte, opened in ENCODE mode
over the copying engine. -/
def short_encoder : mz_stream_libcomp Unit Unit :=
  (mz_stream_libcomp_open copy_engine (mz_stream_zlib_create copy_engine ())
    MZ_OPEN_MODE_WRITE).2

/-- The session `short_encoder` after a `write` of the three bytes 1 2 3, which stay in
the staging buffer. -/
def short_written : mz_stream_libcomp Unit Unit :=
  ((mz_stream_libcomp_write short_base copy_engine 1 short_encoder [1, 2, 3] 3).map
    Prod.snd).getD short_encoder

/-- The session `short_written` after the finalize drive of `close`. -/
def short_drained : mz_stream_libcomp Unit Unit :=
  ((mz_stream_libcomp_deflate short_base copy_engine 1 short_written
    COMPRESSION_STREAM_FINALIZE).map Prod.snd).getD short_written

/-- The engine never raises a cursor: a processing step leaves `src_size` and `dst_size`
at most what they were. -/
def CursorsLowered {ε : Type} (E : Engine ε) : Prop :=
  ∀ (st : ε) (src : List Nat) (n d : Nat) (fl : Int),
    (E.compression_stream_process st src n d fl).src_size ≤ n ∧
    (E.compression_stream_process st src n d fl).dst_size ≤ d

/-- The return values of the upstream read are in the range of their type `int32_t`,
the size asked for being in that range. -/
def ReadsInt32 {β : Type} (B : Base β) : Prop :=
  ∀ (st : β) (req : Int), req < 2 ^ 31 → (B.mz_stream_read st req).1 < 2 ^ 31

/-- A fresh zlib session opened in DECODE mode over the copying engine, on a memory
stream that feeds the bytes 1 to 5. -/
def copy_decoder : mz_stream_libcomp mem_stream Unit :=
  (mz_stream_libcomp_open copy_engine
    (mz_stream_zlib_create copy_engine { input := [1, 2, 3, 4, 5], output := [] })
    MZ_OPEN_MODE_READ).2

/-- The staging-buffer accounting of an ENCODE session over a sink with log `log` that
held `F0` bytes when the session was opened: the mode has the ENCODE bit, `buffer_len` is
between 0 and the capacity, `buffer_len` and the engine's remaining output capacity add up
to the capacity (or both are 0, before the first step), and the bytes forwarded since the
opening plus `buffer_len` are `total_out`. -/
def StagingInv {β ε : Type} (log : β → List Nat) (F0 : Nat)
    (libcomp : mz_stream_libcomp β ε) : Prop :=
  Int.land libcomp.mode MZ_OPEN_MODE_WRITE ≠ 0 ∧
  0 ≤ libcomp.buffer_len ∧ libcomp.buffer_len ≤ 32767 ∧
  (libcomp.buffer_len + libcomp.cstream.dst_size = 32767 ∨
    (libcomp.cstream.dst_size = 0 ∧ libcomp.buffer_len = 0)) ∧
  ((log libcomp.base).length : Int) + libcomp.buffer_len = F0 + libcomp.total_out

/-- The engine never produces more than the output capacity it is offered: a processing
step leaves `dst_size` at most what it was. -/
def OutputBounded {ε : Type} (E : Engine ε) : Prop :=
  ∀ (st : ε) (src : List Nat) (n d : Nat) (fl : Int),
    (E.compression_stream_process st src n d fl).dst_size ≤ d

/-- A base stream with a record of its upstream reads: every `mz_stream_read` call adds
the size asked for and the value returned to the record. -/
def logged {β : Type} (B : Base β) : Base (β × List (Int × Int)) :=
  { mz_stream_read := fun st req =>
      ((B.mz_stream_read st.1 req).1, (B.mz_stream_read st.1 req).2.1,
        ((B.mz_stream_read st.1 req).2.2, st.2 ++ [(req, (B.mz_stream_read st.1 req).1)]))
    mz_stream_write := fun st bytes size =>
      ((B.mz_stream_write st.1 bytes size).1, ((B.mz_stream_write st.1 bytes size).2, st.2)) }

/-- The number of bytes pulled from the upstream according to a record of reads: the sum
of the return values that are byte counts. -/
def pulled (record : List (Int × Int)) : Int :=
  (record.map (fun e => max e.2 0)).sum

/-- The upstream returns no more bytes than it is asked for. -/
def ReturnsAtMostAsked {β : Type} (B : Base β) : Prop :=
  ∀ (st : β) (req : Int), (B.mz_stream_read st req).1 ≤ max req 0

/-- The engine consumes no more input than it is given. -/
def InputBounded {ε : Type} (E : Engine ε) : Prop :=
  ∀ (st : ε) (src : List Nat) (n d : Nat) (fl : Int),
    (E.compression_stream_process st src n d fl).src_size ≤ n

/-- A processing step that reports `COMPRESSION_STATUS_ERROR` has consumed no input. -/
def FailedStepTakesNothing {ε : Type} (E : Engine ε) : Prop :=
  ∀ (st : ε) (src : List Nat) (n d : Nat) (fl : Int),
    (E.compression_stream_process st src n d fl).status = COMPRESSION_STATUS_ERROR →
    (E.compression_stream_process st src n d fl).src_size = n

/-- The input quota of a DECODE session with limit `K` over a base stream with a record
of reads: the bytes pulled are those counted in `total_in` and those pending at
`src_ptr`, they are at most `K`, `total_in` is at least `T0`, and the pending input fits
the staging buffer. -/
def PullInv {β ε : Type} (K T0 : Int)
    (libcomp : mz_stream_libcomp (β × List (Int × Int)) ε) : Prop :=
  libcomp.max_total_in = K ∧
  pulled libcomp.base.2 = libcomp.total_in + libcomp.cstream.src_size ∧
  pulled libcomp.base.2 ≤ K ∧ T0 ≤ libcomp.total_in ∧
  libcomp.cstream.src_size ≤ 32767

/-- An engine that takes all the input it is given and reports failure. -/
def eat_fail_engine : Engine Unit :=
  { zero := ()
    compression_stream_init := fun _ _ => (COMPRESSION_STATUS_OK, ())
    compression_stream_process := fun _ _ _ dst_size _ =>
      { status := COMPRESSION_STATUS_ERROR, src_size := 0, dst_size := dst_size,
        out := [], state := () }
    compression_stream_destroy := fun _ => () }

/-- A fresh session with algorithm zlib opened in DECODE mode, then given the input
limit `K`, over the memory stream with a record of reads that feeds ten bytes. -/
def limited_decoder {ε : Type} (E : Engine ε) (K : Int) :
    mz_stream_libcomp (mem_stream × List (Int × Int)) ε :=
  (mz_stream_libcomp_set_prop_int64
    (mz_stream_libcomp_open E
      (mz_stream_zlib_create E
        (({ input := [1, 2, 3, 4, 5, 6, 7, 8, 9, 10], output := [] } : mem_stream),
          ([] : List (Int × Int))))
      MZ_OPEN_MODE_READ).2
    MZ_STREAM_PROP_TOTAL_IN_MAX K).2

/-- A fresh zlib session over the empty memory stream, opened in ENCODE mode over the
copying engine. -/
def sample_encoder : mz_stream_libcomp mem_stream Unit :=
  (mz_stream_libcomp_open copy_engine
    (mz_stream_zlib_create copy_engine { input := [], output := [] }) MZ_OPEN_MODE_WRITE).2

/-! ## The round trip: contracts of the collaborators and invariants of the session -/

/-- The private state of the hoarding engine. -/
structure hoard_state where
  decode : Bool
  pending : List Nat

/-- The hoarding engine. Encoding copies like the copying engine. A decoding step takes
all the input it is given into its private state and stores as many of the bytes it holds
as the output space allows, keeping the others for later steps. -/
def hoard_engine : Engine hoard_state :=
  { zero := { decode := false, pending := [] }
    compression_stream_init := fun operation _ =>
      (COMPRESSION_STATUS_OK,
        { decode := decide (operation = COMPRESSION_STREAM_DECODE), pending := [] })
    compression_stream_process := fun st src src_size dst_size flags =>
      if st.decode = true then
        { status := COMPRESSION_STATUS_OK
          src_size := 0
          dst_size := dst_size - min (st.pending ++ src.take src_size).length dst_size
          out := (st.pending ++ src.take src_size).take dst_size
          state := { st with pending := (st.pending ++ src.take src_size).drop dst_size } }
      else
        { status := if flags = COMPRESSION_STREAM_FINALIZE ∧ src_size ≤ dst_size then
                      COMPRESSION_STATUS_END else COMPRESSION_STATUS_OK
          src_size := src_size - min src_size dst_size
          dst_size := dst_size - min src_size dst_size
          out := src.take (min src_size dst_size)
          state := st }
    compression_stream_destroy := fun st => st }

/-- A freshly created session with the algorithm selector set through the property
accessor. -/
def fresh_session {β ε : Type} (E : Engine ε) (base : β) (algorithm : Int) :
    mz_stream_libcomp β ε :=
  (mz_stream_libcomp_set_prop_int64 (mz_stream_libcomp_create E base)
    MZ_STREAM_PROP_COMPRESS_ALGORITHM algorithm).2

/-- A downstream sink that accepts every write in full; `log` is the sequence of bytes
forwarded to it so far. -/
def AcceptsWrites {β : Type} (B : Base β) (log : β → List Nat) : Prop :=
  ∀ (st : β) (bytes : List Nat) (size : Int),
    (B.mz_stream_write st bytes size).1 = size ∧
    log (B.mz_stream_write st bytes size).2 = log st ++ bytes

/-- An upstream source that feeds the bytes `left`: a read of `req > 0` bytes returns 0
when none is left, and otherwise delivers between 1 and `req` of the bytes left, from the
front. -/
def Feeds {β : Type} (B : Base β) (left : β → List Nat) : Prop :=
  ∀ (st : β) (req : Int), 0 < req →
    (left st = [] →
      (B.mz_stream_read st req).1 = 0 ∧ left (B.mz_stream_read st req).2.2 = []) ∧
    (left st ≠ [] →
      0 < (B.mz_stream_read st req).1 ∧ (B.mz_stream_read st req).1 ≤ req ∧
      (B.mz_stream_read st req).1.toNat ≤ (left st).length ∧
      (B.mz_stream_read st req).2.1 = (left st).take (B.mz_stream_read st req).1.toNat ∧
      left (B.mz_stream_read st req).2.2
        = (left st).drop (B.mz_stream_read st req).1.toNat)

/-- The contract of an engine whose decode inverts its encode, for one algorithm.

`Enc st X Y`: the encoder state `st` has taken the input `X` and emitted `Y`.
`Dec st Y X`: the decoder state `st` has taken the input `Y` and emitted `X`.
`code X Y`: `Y` is a complete encoding of `X`, as emitted by an encoder run that has
signalled the end. `m` measures the encoder's progress.

* The encoder never fails, stays within the input and output space it is offered, signals
  the end only on a finalize step that has taken all the input, and makes progress.
* The decoder, while it is fed a complete encoding, never fails, stays within the space it
  is offered, takes input or emits output on every step that reports ok, emits only bytes
  of the encoded sequence, and signals the end only when all of it is emitted.
* `dec_complete`: once the decoder has taken the whole encoding it has emitted the whole
  encoded sequence: it holds no decoded byte back. -/
structure Codec {ε : Type} (E : Engine ε) (algorithm : Int)
    (Enc Dec : ε → List Nat → List Nat → Prop) (code : List Nat → List Nat → Prop)
    (m : ε → Nat → Nat) : Prop where
  enc_init :
    (E.compression_stream_init COMPRESSION_STREAM_ENCODE algorithm).1
      ≠ COMPRESSION_STATUS_ERROR ∧
    Enc (E.compression_stream_init COMPRESSION_STREAM_ENCODE algorithm).2 [] []
  enc_step : ∀ (st : ε) (X Y src : List Nat) (d : Nat) (fl : Int) (r : process_result ε),
    Enc st X Y → 0 < d → (fl = 0 ∨ fl = COMPRESSION_STREAM_FINALIZE) →
    r = E.compression_stream_process st src src.length d fl →
    (r.status = COMPRESSION_STATUS_OK ∨
      (r.status = COMPRESSION_STATUS_END ∧ fl = COMPRESSION_STREAM_FINALIZE ∧
        r.src_size = 0 ∧ code (X ++ src) (Y ++ r.out))) ∧
    r.src_size ≤ src.length ∧ r.dst_size ≤ d ∧ r.out.length = d - r.dst_size ∧
    Enc r.state (X ++ src.take (src.length - r.src_size)) (Y ++ r.out) ∧
    (r.status = COMPRESSION_STATUS_OK →
      (0 < r.src_size ∨ fl = COMPRESSION_STREAM_FINALIZE) →
      m r.state r.src_size < m st src.length)
  dec_init :
    (E.compression_stream_init COMPRESSION_STREAM_DECODE algorithm).1
      ≠ COMPRESSION_STATUS_ERROR ∧
    Dec (E.compression_stream_init COMPRESSION_STREAM_DECODE algorithm).2 [] []
  dec_step : ∀ (st : ε) (Yc Xe src X Y : List Nat) (d : Nat) (r : process_result ε),
    Dec st Yc Xe → code X Y → (∃ t, Yc ++ src ++ t = Y) → 0 < d → src ≠ [] →
    r = E.compression_stream_process st src src.length d 0 →
    (r.status = COMPRESSION_STATUS_OK ∨
      (r.status = COMPRESSION_STATUS_END ∧ Xe ++ r.out = X)) ∧
    r.src_size ≤ src.length ∧ r.dst_size ≤ d ∧ r.out.length = d - r.dst_size ∧
    Dec r.state (Yc ++ src.take (src.length - r.src_size)) (Xe ++ r.out) ∧
    (r.status = COMPRESSION_STATUS_OK → r.src_size < src.length ∨ r.dst_size < d)
  dec_sound : ∀ (st : ε) (Yc Xe X Y : List Nat),
    Dec st Yc Xe → code X Y → (∃ t, Yc ++ t = Y) → ∃ u, Xe ++ u = X
  dec_complete : ∀ (st : ε) (Xe X Y : List Nat), Dec st Y Xe → code X Y → Xe = X

/-- The session a processing step of the deflate drive leaves, before the status is
looked at. -/
def deflate_account {β ε : Type} (E : Engine ε) (libcomp : mz_stream_libcomp β ε)
    (flush : Int) : mz_stream_libcomp β ε :=
  { libcomp with
    cstream := libcomp.cstream.after
      (E.compression_stream_process libcomp.cstream.state libcomp.cstream.src
        libcomp.cstream.src_size libcomp.cstream.dst_size flush)
    buffer := store_dst libcomp.buffer libcomp.cstream.dst_ptr
      (E.compression_stream_process libcomp.cstream.state libcomp.cstream.src
        libcomp.cstream.src_size libcomp.cstream.dst_size flush).out
    buffer_len := toI32 (libcomp.buffer_len +
      toU32 (toU64 ((libcomp.cstream.dst_size : Int) -
        ((E.compression_stream_process libcomp.cstream.state libcomp.cstream.src
          libcomp.cstream.src_size libcomp.cstream.dst_size flush).dst_size : Int))))
    total_out := libcomp.total_out +
      toU32 (toU64 ((libcomp.cstream.dst_size : Int) -
        ((E.compression_stream_process libcomp.cstream.state libcomp.cstream.src
          libcomp.cstream.src_size libcomp.cstream.dst_size flush).dst_size : Int))) }

/-- The session a processing step of the read loop leaves when the engine reports
neither `COMPRESSION_STATUS_ERROR` nor another failure. -/
def read_account {β ε : Type} (E : Engine ε) (libcomp : mz_stream_libcomp β ε) :
    mz_stream_libcomp β ε :=
  { libcomp with
    cstream := libcomp.cstream.after
      (E.compression_stream_process libcomp.cstream.state libcomp.cstream.src
        libcomp.cstream.src_size libcomp.cstream.dst_size 0)
    total_in := libcomp.total_in +
      toI32 (toU64 ((libcomp.cstream.src_size : Int) -
        ((E.compression_stream_process libcomp.cstream.state libcomp.cstream.src
          libcomp.cstream.src_size libcomp.cstream.dst_size 0).src_size : Int)))
    total_out := libcomp.total_out +
      toI32 (toU64 ((libcomp.cstream.dst_size : Int) -
        ((E.compression_stream_process libcomp.cstream.state libcomp.cstream.src
          libcomp.cstream.src_size libcomp.cstream.dst_size 0).dst_size : Int))) }

/-- The invariant of an ENCODE session over a sink with log `log` that held `L0` when the
session was opened: the engine has taken `X` and emitted `Y`, `W` is `X` followed by the
input still at `src_ptr`, and the bytes emitted are the bytes forwarded since the opening
followed by the `buffer_len` bytes staged. -/
def EncInv {β ε : Type} (log : β → List Nat) (Enc : ε → List Nat → List Nat → Prop)
    (L0 : List Nat) (libcomp : mz_stream_libcomp β ε) (W Y : List Nat) : Prop :=
  (∃ X, Enc libcomp.cstream.state X Y ∧ X ++ libcomp.cstream.src = W) ∧
  libcomp.cstream.src.length = libcomp.cstream.src_size ∧
  0 ≤ libcomp.buffer_len ∧ libcomp.buffer_len ≤ 32767 ∧
  (libcomp.cstream.dst_size = 0 ∨
    (libcomp.cstream.dst_ptr = Ptr.buffer libcomp.buffer_len.toNat ∧
      libcomp.buffer_len + libcomp.cstream.dst_size = 32767)) ∧
  L0 ++ Y = log libcomp.base ++ load libcomp.buffer 0 libcomp.buffer_len.toNat ∧
  libcomp.error = 0

/-- The invariant of a DECODE session over a source with bytes `left`, fed the encoding
`Y`: the engine has taken a first part of `Y` and emitted `Xe`, and what follows that
part in `Y` is the input at `src_ptr` followed by the bytes left upstream. -/
def DecInv {β ε : Type} (left : β → List Nat) (Dec : ε → List Nat → List Nat → Prop)
    (libcomp : mz_stream_libcomp β ε) (Y Xe : List Nat) : Prop :=
  (∃ Yc, Dec libcomp.cstream.state Yc Xe ∧
    Yc ++ libcomp.cstream.src ++ left libcomp.base = Y) ∧
  libcomp.cstream.src.length = libcomp.cstream.src_size ∧
  libcomp.error = 0 ∧ libcomp.max_total_in = 0

/-- A fresh session over the hoarding engine and the empty memory stream, algorithm
zlib, opened in ENCODE mode. -/
def hoard_encoder : mz_stream_libcomp mem_stream hoard_state :=
  (mz_stream_libcomp_open hoard_engine
    (fresh_session hoard_engine { input := [], output := [] } COMPRESSION_ZLIB)
    MZ_OPEN_MODE_WRITE).2

/-- A fresh session over the hoarding engine, algorithm zlib, opened in DECODE mode on a
memory stream that feeds the bytes 1 to 5. -/
def hoard_decoder : mz_stream_libcomp mem_stream hoard_state :=
  (mz_stream_libcomp_open hoard_engine
    (fresh_session hoard_engine { input := [1, 2, 3, 4, 5], output := [] } COMPRESSION_ZLIB)
    MZ_OPEN_MODE_READ).2

end StrmLibcomp

/-! # Theorems: filter registry, properties codec, block-size planner -/

namespace FilterEncoder

/-- The loop of the planner, started with a running maximum `mx` on an array that holds a
sentinel and whose entries before it all resolve: 0 when a reported hint is 0, else the
larger of `mx` and the largest reported hint. -/
theorem lzma_mt_block_size_loop_eq {Opt : Type} (table : List (lzma_filter_encoder Opt))
    (filters : List (lzma_filter Opt)) (mx : Nat)
    (hs : has_sentinel filters = true)
    (hr : ∀ f ∈ chain_entries filters, (encoder_find table f.id).isSome = true) :
    lzma_mt_block_size_loop table filters mx =
      some (if 0 ∈ stage_hints table (chain_entries filters) then 0
            else Nat.max mx ((stage_hints table (chain_entries filters)).foldr Nat.max 0)) := by
  induction filters generalizing mx with
  | nil => simp [has_sentinel] at hs
  | cons f rest ih =>
    by_cases hid : f.id = LZMA_VLI_UNKNOWN
    · simp [lzma_mt_block_size_loop, chain_entries, stage_hints, hid]
    · have hs2 : has_sentinel rest = true := by simpa [has_sentinel, hid] using hs
      have hr2 : ∀ g ∈ chain_entries rest, (encoder_find table g.id).isSome = true := by
        intro g hg
        apply hr
        simp [chain_entries, hid, hg]
      have hf : (encoder_find table f.id).isSome = true := by
        apply hr
        simp [chain_entries, hid]
      cases hfe : encoder_find table f.id with
      | none => simp [hfe] at hf
      | some fe =>
        cases hbs : fe.block_size with
        | none =>
          simp only [lzma_mt_block_size_loop, chain_entries, stage_hints, hid, hfe, hbs,
            if_false]
          exact ih mx hs2 hr2
        | some bs =>
          simp only [lzma_mt_block_size_loop, chain_entries, stage_hints, hid, hfe, hbs,
            if_false]
          by_cases hz : bs f.options = 0
          · simp [hz]
          · rw [if_neg hz, ih _ hs2 hr2]
            have hz2 : ¬ (0 = bs f.options) := fun h => hz h.symm
            by_cases hm : 0 ∈ stage_hints table (chain_entries rest)
            · simp [hm]
            · simp only [List.mem_cons, hz2, hm, or_self, if_false, List.foldr_cons]
              congr 1
              by_cases hgt : bs f.options > mx
              · rw [if_pos hgt]
                simp only [Nat.max_def]
                split_ifs <;> omega
              · rw [if_neg hgt]
                simp only [Nat.max_def]
                split_ifs <;> omega

/-- C1: for a chain definition that holds a sentinel and whose IDs before the sentinel all
resolve in the registry, `lzma_mt_block_size` returns 0 if a stage exposing a hint function
reports 0, and otherwise the maximum of the hints of the stages that expose the function
(0 when none does); stages without the function do not contribute. -/
theorem lzma_mt_block_size_is_max_of_hints {Opt : Type}
    (table : List (lzma_filter_encoder Opt)) (filters : List (lzma_filter Opt))
    (hs : has_sentinel filters = true)
    (hr : ∀ f ∈ chain_entries filters, (encoder_find table f.id).isSome = true) :
    lzma_mt_block_size table filters =
      some (spec_block_size (stage_hints table (chain_entries filters))) := by
  unfold lzma_mt_block_size spec_block_size
  rw [lzma_mt_block_size_loop_eq table filters 0 hs hr]
  simp [Nat.max_def]

/-- C1 at a concrete chain: two hint-capable stages reporting 4096 and 8192, with a stage
without the function between them, give 8192 (not 12288). -/
theorem lzma_mt_block_size_4096_8192 :
    lzma_mt_block_size sample_table
      [⟨LZMA_FILTER_LZMA2, 4096⟩, ⟨LZMA_FILTER_DELTA, 7⟩, ⟨LZMA_FILTER_LZMA2, 8192⟩,
       ⟨LZMA_VLI_UNKNOWN, 0⟩] = some 8192 := by
  have h := lzma_mt_block_size_is_max_of_hints sample_table
    [⟨LZMA_FILTER_LZMA2, 4096⟩, ⟨LZMA_FILTER_DELTA, 7⟩, ⟨LZMA_FILTER_LZMA2, 8192⟩,
     ⟨LZMA_VLI_UNKNOWN, 0⟩] (by decide) (by decide)
  rw [h]
  decide

/-- C2: for an ID that is absent from the registry, `lzma_properties_size` returns
`LZMA_OPTIONS_ERROR` when the ID is at most `LZMA_VLI_MAX` and `LZMA_PROG_ERROR` when it is
above, and in both cases `*size` keeps the value it had. -/
theorem lzma_properties_size_unknown_id {Opt : Type}
    (table : List (lzma_filter_encoder Opt)) (size : Nat) (filter : lzma_filter Opt)
    (h : encoder_find table filter.id = none) :
    (filter.id ≤ LZMA_VLI_MAX →
      lzma_properties_size table size filter = (LZMA_OPTIONS_ERROR, size)) ∧
    (LZMA_VLI_MAX < filter.id →
      lzma_properties_size table size filter = (LZMA_PROG_ERROR, size)) := by
  constructor
  · intro hle
    simp [lzma_properties_size, h, hle]
  · intro hgt
    have : ¬ filter.id ≤ LZMA_VLI_MAX := by omega
    simp [lzma_properties_size, h, this]

/-- C2 at concrete IDs: 0x1234 is absent from the full table and in range, the sentinel
value is absent and out of range; the size output keeps its value 77. -/
theorem lzma_properties_size_unknown_id_witness :
    lzma_properties_size sample_table 77 ⟨0x1234, 0⟩ = (LZMA_OPTIONS_ERROR, 77) ∧
    lzma_properties_size sample_table 77 ⟨LZMA_VLI_UNKNOWN, 0⟩ = (LZMA_PROG_ERROR, 77) :=
  ⟨(lzma_properties_size_unknown_id sample_table 77 ⟨0x1234, 0⟩ rfl).1 (by decide),
   (lzma_properties_size_unknown_id sample_table 77 ⟨LZMA_VLI_UNKNOWN, 0⟩ rfl).2 (by decide)⟩

/-- C3 as stated fails: the ID 0x1234 is absent from the full table and within the valid
range, `lzma_properties_size` classifies it as `LZMA_OPTIONS_ERROR`, but
`lzma_properties_encode` returns `LZMA_PROG_ERROR`. -/
theorem lzma_properties_encode_in_range_not_options_error :
    (encoder_find sample_table 0x1234).isNone = true ∧
    (0x1234 : Nat) ≤ LZMA_VLI_MAX ∧
    (lzma_properties_size sample_table 0 ⟨0x1234, 0⟩).1 = LZMA_OPTIONS_ERROR ∧
    (lzma_properties_encode sample_table ⟨0x1234, 0⟩).1 = LZMA_PROG_ERROR ∧
    (lzma_properties_encode sample_table ⟨0x1234, 0⟩).1 ≠ LZMA_OPTIONS_ERROR := by
  refine ⟨rfl, by decide, rfl, rfl, by decide⟩

/-- C3 amended: for every ID that is absent from the registry, whatever its range,
`lzma_properties_encode` returns `LZMA_PROG_ERROR` and stores no byte. -/
theorem lzma_properties_encode_unknown_id {Opt : Type}
    (table : List (lzma_filter_encoder Opt)) (filter : lzma_filter Opt)
    (h : encoder_find table filter.id = none) :
    lzma_properties_encode table filter = (LZMA_PROG_ERROR, []) := by
  simp [lzma_properties_encode, h]

/-- C3 amended, at the in-range ID 0x99 of the full table. -/
theorem lzma_properties_encode_unknown_id_witness :
    (0x99 : Nat) ≤ LZMA_VLI_MAX ∧
    lzma_properties_encode sample_table ⟨0x99, 0⟩ = (LZMA_PROG_ERROR, []) :=
  ⟨by decide, lzma_properties_encode_unknown_id sample_table ⟨0x99, 0⟩ rfl⟩

/-- C5, the code at a chain with an unresolved ID: 0x1234 is absent from the full table,
`lzma_properties_size` classifies it, and `lzma_mt_block_size` on the chain
`[0x1234, sentinel]` has no defined result (it reads `fe->block_size` with `fe == NULL`). -/
theorem lzma_mt_block_size_unresolved_id :
    (encoder_find sample_table 0x1234).isNone = true ∧
    (lzma_properties_size sample_table 0 ⟨0x1234, 0⟩).1 = LZMA_OPTIONS_ERROR ∧
    lzma_mt_block_size sample_table [⟨0x1234, 0⟩, ⟨LZMA_VLI_UNKNOWN, 0⟩] = none := by
  refine ⟨rfl, rfl, rfl⟩

/-- Lookup in two tables put end to end: a miss in the first leaves the second. -/
theorem encoder_find_append_none {Opt : Type} (a b : List (lzma_filter_encoder Opt))
    (id : Nat) (h : encoder_find a id = none) :
    encoder_find (a ++ b) id = encoder_find b id := by
  induction a with
  | nil => rfl
  | cons e rest ih =>
    by_cases he : e.id = id
    · simp [encoder_find, he] at h
    · simp only [encoder_find, he, if_false] at h
      simp only [List.cons_append, encoder_find, he, if_false]
      exact ih h

/-- Lookup in an entry that a build switch may leave out, for another ID: a miss. -/
theorem encoder_find_switch_ne {Opt : Type} (c : Bool) (e : lzma_filter_encoder Opt)
    (id : Nat) (h : e.id ≠ id) : encoder_find (if c = true then [e] else []) id = none := by
  cases c <;> simp [encoder_find, h]

/-- C6: for a filter whose ID resolves to the descriptor `fe`, `lzma_properties_size`
returns `LZMA_OK` with the fixed size constant, whatever the options, when the descriptor
has no size-query function, and exactly the result and size of the size-query function on
the options when it has one; in every build that has them, LZMA1 gives 5, LZMA2 gives 1
and Delta gives 1. -/
theorem lzma_properties_size_resolved {Opt : Type}
    (table : List (lzma_filter_encoder Opt)) (size : Nat) (filter : lzma_filter Opt)
    (fe : lzma_filter_encoder Opt) (cfg : BuildConfig) (ext : Externals Opt)
    (hf : encoder_find table filter.id = some fe) :
    (fe.props_size_get = none →
      lzma_properties_size table size filter = (LZMA_OK, fe.props_size_fixed)) ∧
    (∀ g, fe.props_size_get = some g →
      lzma_properties_size table size filter = g size filter.options) ∧
    (cfg.HAVE_ENCODER_LZMA1 = true → ∀ o : Opt,
      lzma_properties_size (encoders cfg ext) size ⟨LZMA_FILTER_LZMA1, o⟩ = (LZMA_OK, 5)) ∧
    (cfg.HAVE_ENCODER_LZMA2 = true → ∀ o : Opt,
      lzma_properties_size (encoders cfg ext) size ⟨LZMA_FILTER_LZMA2, o⟩ = (LZMA_OK, 1)) ∧
    (cfg.HAVE_ENCODER_DELTA = true → ∀ o : Opt,
      lzma_properties_size (encoders cfg ext) size ⟨LZMA_FILTER_DELTA, o⟩ = (LZMA_OK, 1)) := by
  refine ⟨?_, ?_, ?_, ?_, ?_⟩
  · intro hn
    simp [lzma_properties_size, hf, hn]
  · intro g hg
    simp [lzma_properties_size, hf, hg]
  · intro h1 o
    simp [lzma_properties_size, encoders, h1, encoder_find]
  · intro h2 o
    unfold lzma_properties_size encoders
    simp only [List.append_assoc]
    rw [encoder_find_append_none _ _ _ (encoder_find_switch_ne _ _ _ (by simp [simple_entry, LZMA_FILTER_LZMA1, LZMA_FILTER_LZMA2, LZMA_FILTER_X86,
        LZMA_FILTER_POWERPC, LZMA_FILTER_IA64, LZMA_FILTER_ARM, LZMA_FILTER_ARMTHUMB,
        LZMA_FILTER_SPARC, LZMA_FILTER_DELTA]))]
    simp [h2, encoder_find]
  · intro h9 o
    unfold lzma_properties_size encoders
    simp only [List.append_assoc]
    rw [encoder_find_append_none _ _ _ (encoder_find_switch_ne _ _ _ (by simp [simple_entry, LZMA_FILTER_LZMA1, LZMA_FILTER_LZMA2, LZMA_FILTER_X86,
        LZMA_FILTER_POWERPC, LZMA_FILTER_IA64, LZMA_FILTER_ARM, LZMA_FILTER_ARMTHUMB,
        LZMA_FILTER_SPARC, LZMA_FILTER_DELTA])),
      encoder_find_append_none _ _ _ (encoder_find_switch_ne _ _ _ (by simp [simple_entry, LZMA_FILTER_LZMA1, LZMA_FILTER_LZMA2, LZMA_FILTER_X86,
        LZMA_FILTER_POWERPC, LZMA_FILTER_IA64, LZMA_FILTER_ARM, LZMA_FILTER_ARMTHUMB,
        LZMA_FILTER_SPARC, LZMA_FILTER_DELTA])),
      encoder_find_append_none _ _ _ (encoder_find_switch_ne _ _ _ (by simp [simple_entry, LZMA_FILTER_LZMA1, LZMA_FILTER_LZMA2, LZMA_FILTER_X86,
        LZMA_FILTER_POWERPC, LZMA_FILTER_IA64, LZMA_FILTER_ARM, LZMA_FILTER_ARMTHUMB,
        LZMA_FILTER_SPARC, LZMA_FILTER_DELTA])),
      encoder_find_append_none _ _ _ (encoder_find_switch_ne _ _ _ (by simp [simple_entry, LZMA_FILTER_LZMA1, LZMA_FILTER_LZMA2, LZMA_FILTER_X86,
        LZMA_FILTER_POWERPC, LZMA_FILTER_IA64, LZMA_FILTER_ARM, LZMA_FILTER_ARMTHUMB,
        LZMA_FILTER_SPARC, LZMA_FILTER_DELTA])),
      encoder_find_append_none _ _ _ (encoder_find_switch_ne _ _ _ (by simp [simple_entry, LZMA_FILTER_LZMA1, LZMA_FILTER_LZMA2, LZMA_FILTER_X86,
        LZMA_FILTER_POWERPC, LZMA_FILTER_IA64, LZMA_FILTER_ARM, LZMA_FILTER_ARMTHUMB,
        LZMA_FILTER_SPARC, LZMA_FILTER_DELTA])),
      encoder_find_append_none _ _ _ (encoder_find_switch_ne _ _ _ (by simp [simple_entry, LZMA_FILTER_LZMA1, LZMA_FILTER_LZMA2, LZMA_FILTER_X86,
        LZMA_FILTER_POWERPC, LZMA_FILTER_IA64, LZMA_FILTER_ARM, LZMA_FILTER_ARMTHUMB,
        LZMA_FILTER_SPARC, LZMA_FILTER_DELTA])),
      encoder_find_append_none _ _ _ (encoder_find_switch_ne _ _ _ (by simp [simple_entry, LZMA_FILTER_LZMA1, LZMA_FILTER_LZMA2, LZMA_FILTER_X86,
        LZMA_FILTER_POWERPC, LZMA_FILTER_IA64, LZMA_FILTER_ARM, LZMA_FILTER_ARMTHUMB,
        LZMA_FILTER_SPARC, LZMA_FILTER_DELTA])),
      encoder_find_append_none _ _ _ (encoder_find_switch_ne _ _ _ (by simp [simple_entry, LZMA_FILTER_LZMA1, LZMA_FILTER_LZMA2, LZMA_FILTER_X86,
        LZMA_FILTER_POWERPC, LZMA_FILTER_IA64, LZMA_FILTER_ARM, LZMA_FILTER_ARMTHUMB,
        LZMA_FILTER_SPARC, LZMA_FILTER_DELTA]))]
    simp [h9, encoder_find]

/-- C6 at the x86 entry of the full table, which has a size-query function: with option
9 the result is that function's, `LZMA_OK` with size 4. -/
theorem lzma_properties_size_resolved_witness :
    lzma_properties_size sample_table 0 ⟨LZMA_FILTER_X86, 9⟩ = (LZMA_OK, 4) ∧
    lzma_properties_size sample_table 0 ⟨LZMA_FILTER_LZMA1, 9⟩ = (LZMA_OK, 5) :=
  ⟨((lzma_properties_size_resolved sample_table 0 ⟨LZMA_FILTER_X86, 9⟩
      (simple_entry sample_ext LZMA_FILTER_X86) full_config sample_ext rfl).2.1
      sample_ext.lzma_simple_props_size rfl).trans (by decide),
   (lzma_properties_size_resolved sample_table 0 ⟨LZMA_FILTER_X86, 9⟩
      (simple_entry sample_ext LZMA_FILTER_X86) full_config sample_ext rfl).2.2.1 rfl 9⟩

end FilterEncoder

/-! # Theorems: stream codec adapter -/

namespace StrmLibcomp

/-! ## Fuel -/

/-- More fuel does not change a result of the deflate loop. -/
theorem deflate_loop_mono {β ε : Type} (B : Base β) (E : Engine ε) (fuel fuel2 : Nat)
    (libcomp : mz_stream_libcomp β ε) (flush : Int) (r : Int × mz_stream_libcomp β ε)
    (hle : fuel ≤ fuel2) (h : deflate_loop B E fuel libcomp flush = some r) :
    deflate_loop B E fuel2 libcomp flush = some r := by
  induction fuel generalizing fuel2 libcomp with
  | zero => simp [deflate_loop] at h
  | succ k ih =>
    obtain ⟨j, rfl⟩ : ∃ j, fuel2 = j + 1 := ⟨fuel2 - 1, by omega⟩
    have hkj : k ≤ j := by omega
    unfold deflate_loop at h ⊢
    cases hb : deflate_body B E libcomp flush with
    | ret code s => simpa [hb] using h
    | brk s => simpa [hb] using h
    | cond err s =>
      simp only [hb] at h ⊢
      split_ifs at h ⊢ with hc
      · exact ih j s hkj h
      · exact h

/-- More fuel does not change a result of the read loop. -/
theorem read_loop_mono {β ε : Type} (B : Base β) (E : Engine ε) (fuel fuel2 : Nat)
    (libcomp : mz_stream_libcomp β ε) (total_out : Int) (out : List Nat)
    (r : mz_stream_libcomp β ε × Int × List Nat)
    (hle : fuel ≤ fuel2) (h : read_loop B E fuel libcomp total_out out = some r) :
    read_loop B E fuel2 libcomp total_out out = some r := by
  induction fuel generalizing fuel2 libcomp total_out out with
  | zero => simp [read_loop] at h
  | succ k ih =>
    obtain ⟨j, rfl⟩ : ∃ j, fuel2 = j + 1 := ⟨fuel2 - 1, by omega⟩
    have hkj : k ≤ j := by omega
    unfold read_loop at h ⊢
    simp only at h ⊢
    split_ifs at h ⊢ with hc
    · exact ih j _ _ _ hkj h
    · exact h

/-- More fuel does not change a result of `write`. -/
theorem write_mono {β ε : Type} (B : Base β) (E : Engine ε) (fuel fuel2 : Nat)
    (libcomp : mz_stream_libcomp β ε) (buf : List Nat) (size : Int)
    (r : Int × mz_stream_libcomp β ε) (hle : fuel ≤ fuel2)
    (h : mz_stream_libcomp_write B E fuel libcomp buf size = some r) :
    mz_stream_libcomp_write B E fuel2 libcomp buf size = some r := by
  unfold mz_stream_libcomp_write mz_stream_libcomp_deflate at h ⊢
  simp only at h ⊢
  cases hd : deflate_loop B E fuel
      { libcomp with cstream := { libcomp.cstream with src := buf, src_size := toU64 size } } 0 with
  | none => simp [hd] at h
  | some p =>
    rw [deflate_loop_mono B E fuel fuel2 _ 0 p hle hd]
    simpa [hd] using h

/-- More fuel does not change a result of `close`. -/
theorem close_mono {β ε : Type} (B : Base β) (E : Engine ε) (fuel fuel2 : Nat)
    (libcomp : mz_stream_libcomp β ε) (r : Int × mz_stream_libcomp β ε) (hle : fuel ≤ fuel2)
    (h : mz_stream_libcomp_close B E fuel libcomp = some r) :
    mz_stream_libcomp_close B E fuel2 libcomp = some r := by
  unfold mz_stream_libcomp_close close_drain mz_stream_libcomp_deflate at h ⊢
  by_cases hm : Int.land libcomp.mode MZ_OPEN_MODE_WRITE ≠ 0
  · rw [if_pos hm] at h ⊢
    cases hd : deflate_loop B E fuel libcomp COMPRESSION_STREAM_FINALIZE with
    | none => simp [hd] at h
    | some p =>
      rw [deflate_loop_mono B E fuel fuel2 _ _ p hle hd]
      simpa [hd] using h
  · rw [if_neg hm] at h ⊢
    exact h

/-- More fuel does not change a result of `read`. -/
theorem read_mono {β ε : Type} (B : Base β) (E : Engine ε) (fuel fuel2 : Nat)
    (libcomp : mz_stream_libcomp β ε) (size : Int)
    (r : Int × List Nat × mz_stream_libcomp β ε) (hle : fuel ≤ fuel2)
    (h : mz_stream_libcomp_read B E fuel libcomp size = some r) :
    mz_stream_libcomp_read B E fuel2 libcomp size = some r := by
  unfold mz_stream_libcomp_read at h ⊢
  simp only at h ⊢
  cases hd : read_loop B E fuel
      { libcomp with cstream := { libcomp.cstream with dst_ptr := Ptr.buf 0
                                                       dst_size := toU64 size } } 0 [] with
  | none => simp [hd] at h
  | some p =>
    rw [read_loop_mono B E fuel fuel2 _ _ _ p hle hd]
    simpa [hd] using h


/-! ## The deflate drive and `total_in` -/

/-- The flush helper changes only the base stream. -/
theorem flush_fields {β ε : Type} (B : Base β) (libcomp : mz_stream_libcomp β ε) :
    (mz_stream_libcomp_flush B libcomp).2 =
      { libcomp with base := (mz_stream_libcomp_flush B libcomp).2.base } := by
  unfold mz_stream_libcomp_flush
  simp only
  split_ifs <;> rfl

/-- A processing step of the deflate drive leaves `total_in` as it is. -/
theorem deflate_step_total_in {β ε : Type} (E : Engine ε) (libcomp : mz_stream_libcomp β ε)
    (flush : Int) : (deflate_step E libcomp flush).session.total_in = libcomp.total_in := by
  unfold deflate_step
  simp only
  split_ifs <;> rfl

/-- An iteration of the deflate drive leaves `total_in` as it is. -/
theorem deflate_body_total_in {β ε : Type} (B : Base β) (E : Engine ε)
    (libcomp : mz_stream_libcomp β ε) (flush : Int) :
    (deflate_body B E libcomp flush).session.total_in = libcomp.total_in := by
  unfold deflate_body
  simp only
  split_ifs with h1 h2
  · rw [flush_fields]; rfl
  · rw [deflate_step_total_in, flush_fields]
  · exact deflate_step_total_in E libcomp flush

/-- The deflate drive leaves `total_in` as it is. -/
theorem deflate_loop_total_in {β ε : Type} (B : Base β) (E : Engine ε) (fuel : Nat)
    (libcomp : mz_stream_libcomp β ε) (flush : Int) (r : Int × mz_stream_libcomp β ε)
    (h : deflate_loop B E fuel libcomp flush = some r) : r.2.total_in = libcomp.total_in := by
  induction fuel generalizing libcomp with
  | zero => simp [deflate_loop] at h
  | succ k ih =>
    have hb := deflate_body_total_in B E libcomp flush
    unfold deflate_loop at h
    cases hd : deflate_body B E libcomp flush with
    | ret code s =>
      rw [hd] at h hb
      simp only [Option.some.injEq] at h
      rw [← h]; exact hb
    | brk s =>
      rw [hd] at h hb
      simp only [Option.some.injEq] at h
      rw [← h]; exact hb
    | cond err s =>
      rw [hd] at h hb
      simp only at h
      split_ifs at h with hc
      · rw [ih s h]; exact hb
      · simp only [Option.some.injEq] at h
        rw [← h]; exact hb

/-- `write` returns its `size` argument and adds it to `total_in`, whenever it returns. -/
theorem write_result {β ε : Type} (B : Base β) (E : Engine ε) (fuel : Nat)
    (libcomp : mz_stream_libcomp β ε) (buf : List Nat) (size : Int)
    (r : Int × mz_stream_libcomp β ε)
    (h : mz_stream_libcomp_write B E fuel libcomp buf size = some r) :
    r.1 = size ∧ r.2.total_in = libcomp.total_in + size := by
  unfold mz_stream_libcomp_write mz_stream_libcomp_deflate at h
  simp only at h
  cases hd : deflate_loop B E fuel
      { libcomp with cstream := { libcomp.cstream with src := buf, src_size := toU64 size } } 0 with
  | none => simp [hd] at h
  | some p =>
    rw [hd] at h
    simp only [Option.some.injEq] at h
    have ht := deflate_loop_total_in B E fuel _ 0 p hd
    rw [← h]
    exact ⟨rfl, by simp [ht]⟩

/-- A sequence of `write` calls returns the `size` arguments and adds their sum to
`total_in`, whenever it returns. -/
theorem write_all_result {β ε : Type} (B : Base β) (E : Engine ε) (fuel : Nat)
    (libcomp : mz_stream_libcomp β ε) (ws : List (List Nat × Int))
    (r : List Int × mz_stream_libcomp β ε) (h : write_all B E fuel libcomp ws = some r) :
    r.1 = ws.map Prod.snd ∧ r.2.total_in = libcomp.total_in + (ws.map Prod.snd).sum := by
  induction ws generalizing libcomp r with
  | nil =>
    simp only [write_all, Option.some.injEq] at h
    rw [← h]; simp
  | cons w rest ih =>
    unfold write_all at h
    cases hw : mz_stream_libcomp_write B E fuel libcomp w.1 w.2 with
    | none => simp [hw] at h
    | some p =>
      rw [hw] at h
      simp only at h
      cases hr : write_all B E fuel p.2 rest with
      | none => simp [hr] at h
      | some q =>
        rw [hr] at h
        simp only [Option.some.injEq] at h
        obtain ⟨h1, h2⟩ := write_result B E fuel libcomp w.1 w.2 p hw
        obtain ⟨h3, h4⟩ := ih p.2 q hr
        rw [← h]
        refine ⟨by simp [h1, h3], ?_⟩
        simp only [List.map_cons, List.sum_cons]
        rw [h4, h2]; ring

/-- `close` leaves `total_in` as it is, whenever it returns. -/
theorem close_total_in {β ε : Type} (B : Base β) (E : Engine ε) (fuel : Nat)
    (libcomp : mz_stream_libcomp β ε) (r : Int × mz_stream_libcomp β ε)
    (h : mz_stream_libcomp_close B E fuel libcomp = some r) :
    r.2.total_in = libcomp.total_in := by
  unfold mz_stream_libcomp_close at h
  cases hd : close_drain B E fuel libcomp with
  | none => simp [hd] at h
  | some s =>
    rw [hd] at h
    simp only [Option.some.injEq] at h
    have hs : s.total_in = libcomp.total_in := by
      unfold close_drain mz_stream_libcomp_deflate at hd
      split_ifs at hd with hm
      · cases hl : deflate_loop B E fuel libcomp COMPRESSION_STREAM_FINALIZE with
        | none => simp [hl] at hd
        | some p =>
          rw [hl] at hd
          simp only [Option.some.injEq] at hd
          rw [← hd, flush_fields]
          exact deflate_loop_total_in B E fuel _ _ p hl
      · simp only [Option.some.injEq] at hd
        rw [hd]
    rw [← h, ← hs]
    unfold close_finish
    simp only
    split_ifs <;> rfl

/-- After a successful `open` both counters are zero. -/
theorem open_ok_counters {β ε : Type} (E : Engine ε) (s0 s1 : mz_stream_libcomp β ε)
    (mode : Int) (h : mz_stream_libcomp_open E s0 mode = (MZ_OK, s1)) :
    s1.total_in = 0 ∧ s1.total_out = 0 := by
  unfold mz_stream_libcomp_open at h
  simp only at h
  split_ifs at h with h1 h2
  · simp [MZ_OK, MZ_PARAM_ERROR] at h
  · simp [MZ_OK, MZ_STREAM_ERROR] at h
  · simp only [Prod.mk.injEq, true_and] at h
    rw [← h]
    exact ⟨rfl, rfl⟩


/-! ## Termination of the deflate drive -/

/-- A processing step of the deflate drive that reaches the loop condition: the engine
reported `COMPRESSION_STATUS_OK`, and the session carries the engine's new state. -/
theorem deflate_step_cond {β ε : Type} (E : Engine ε) (libcomp s : mz_stream_libcomp β ε)
    (flush err : Int) (h : deflate_step E libcomp flush = deflate_exit.cond err s) :
    (E.compression_stream_process libcomp.cstream.state libcomp.cstream.src
        libcomp.cstream.src_size libcomp.cstream.dst_size flush).status
      = COMPRESSION_STATUS_OK ∧
    err = COMPRESSION_STATUS_OK ∧
    s.cstream.state = (E.compression_stream_process libcomp.cstream.state libcomp.cstream.src
        libcomp.cstream.src_size libcomp.cstream.dst_size flush).state ∧
    s.cstream.src_size = (E.compression_stream_process libcomp.cstream.state
        libcomp.cstream.src libcomp.cstream.src_size libcomp.cstream.dst_size flush).src_size := by
  unfold deflate_step at h
  simp only at h
  split_ifs at h with h1 h2
  simp only [deflate_exit.cond.injEq] at h
  obtain ⟨he, hs⟩ := h
  have h2' := not_not.mp h2
  refine ⟨h2', ?_, ?_, ?_⟩
  · rw [← he]; exact h2'
  · rw [← hs]; rfl
  · rw [← hs]; rfl

/-- An iteration of the deflate drive that reaches the loop condition has made one
processing step with output space on offer and status `COMPRESSION_STATUS_OK`. -/
theorem deflate_body_cond {β ε : Type} (B : Base β) (E : Engine ε)
    (libcomp s : mz_stream_libcomp β ε) (flush err : Int)
    (h : deflate_body B E libcomp flush = deflate_exit.cond err s) :
    ∃ d, 0 < d ∧
      (E.compression_stream_process libcomp.cstream.state libcomp.cstream.src
        libcomp.cstream.src_size d flush).status = COMPRESSION_STATUS_OK ∧
      err = COMPRESSION_STATUS_OK ∧
      s.cstream.state = (E.compression_stream_process libcomp.cstream.state
        libcomp.cstream.src libcomp.cstream.src_size d flush).state ∧
      s.cstream.src_size = (E.compression_stream_process libcomp.cstream.state
        libcomp.cstream.src libcomp.cstream.src_size d flush).src_size := by
  unfold deflate_body at h
  simp only at h
  split_ifs at h with h1 h2
  · have hc := deflate_step_cond E _ s flush err h
    rw [flush_fields] at hc
    exact ⟨BUFFER_SIZE, by decide, hc⟩
  · exact ⟨libcomp.cstream.dst_size, Nat.pos_of_ne_zero h1, deflate_step_cond E _ s flush err h⟩

/-- With an engine that makes progress the deflate drive returns once the fuel exceeds
the measure. -/
theorem deflate_loop_terminates {β ε : Type} (B : Base β) (E : Engine ε)
    (m : ε → Nat → Nat) (hp : EngineProgress E m) (fuel : Nat)
    (libcomp : mz_stream_libcomp β ε) (flush : Int)
    (h : m libcomp.cstream.state libcomp.cstream.src_size < fuel) :
    ∃ r, deflate_loop B E fuel libcomp flush = some r := by
  induction fuel generalizing libcomp with
  | zero => omega
  | succ k ih =>
    unfold deflate_loop
    cases hb : deflate_body B E libcomp flush with
    | ret code s => exact ⟨_, rfl⟩
    | brk s => exact ⟨_, rfl⟩
    | cond err s =>
      simp only
      split_ifs with hc
      · obtain ⟨d, hd, hst, herr, hs1, hs2⟩ := deflate_body_cond B E libcomp s flush err hb
        apply ih
        rw [hs1, hs2]
        have hlt := hp libcomp.cstream.state libcomp.cstream.src libcomp.cstream.src_size d
          flush hd hst
          (by
            rcases hc with hc | hc
            · left; rw [← hs2]; exact hc
            · right; exact hc.1)
        omega
      · exact ⟨_, rfl⟩

/-- With an engine that makes progress `write` returns for all fuel from some amount on. -/
theorem write_terminates {β ε : Type} (B : Base β) (E : Engine ε)
    (m : ε → Nat → Nat) (hp : EngineProgress E m)
    (libcomp : mz_stream_libcomp β ε) (buf : List Nat) (size : Int) :
    ∃ N r, ∀ fuel, N ≤ fuel → mz_stream_libcomp_write B E fuel libcomp buf size = some r := by
  obtain ⟨p, hpd⟩ := deflate_loop_terminates B E m hp (m libcomp.cstream.state (toU64 size) + 1)
    { libcomp with cstream := { libcomp.cstream with src := buf, src_size := toU64 size } } 0
    (by simp)
  have hw : mz_stream_libcomp_write B E (m libcomp.cstream.state (toU64 size) + 1) libcomp
      buf size = some (size, { p.2 with total_in := p.2.total_in + size }) := by
    unfold mz_stream_libcomp_write mz_stream_libcomp_deflate
    simp only
    rw [hpd]
  exact ⟨_, _, fun fuel hf => write_mono B E _ fuel libcomp buf size _ hf hw⟩

/-- With an engine that makes progress `close` returns for all fuel from some amount on. -/
theorem close_terminates {β ε : Type} (B : Base β) (E : Engine ε)
    (m : ε → Nat → Nat) (hp : EngineProgress E m) (libcomp : mz_stream_libcomp β ε) :
    ∃ N r, ∀ fuel, N ≤ fuel → mz_stream_libcomp_close B E fuel libcomp = some r := by
  obtain ⟨p, hpd⟩ := deflate_loop_terminates B E m hp
    (m libcomp.cstream.state libcomp.cstream.src_size + 1) libcomp COMPRESSION_STREAM_FINALIZE
    (by simp)
  have hw : ∃ r, mz_stream_libcomp_close B E
      (m libcomp.cstream.state libcomp.cstream.src_size + 1) libcomp = some r := by
    unfold mz_stream_libcomp_close close_drain mz_stream_libcomp_deflate
    split_ifs with hm
    · rw [hpd]; exact ⟨_, rfl⟩
    · exact ⟨_, rfl⟩
  obtain ⟨r, hr⟩ := hw
  exact ⟨_, r, fun fuel hf => close_mono B E _ fuel libcomp r hf hr⟩

/-- With an engine that makes progress a sequence of `write` calls returns for all fuel
from some amount on. -/
theorem write_all_terminates {β ε : Type} (B : Base β) (E : Engine ε)
    (m : ε → Nat → Nat) (hp : EngineProgress E m)
    (libcomp : mz_stream_libcomp β ε) (ws : List (List Nat × Int)) :
    ∃ N r, ∀ fuel, N ≤ fuel → write_all B E fuel libcomp ws = some r := by
  induction ws generalizing libcomp with
  | nil => exact ⟨0, ([], libcomp), fun _ _ => rfl⟩
  | cons w rest ih =>
    obtain ⟨N1, p, h1⟩ := write_terminates B E m hp libcomp w.1 w.2
    obtain ⟨N2, q, h2⟩ := ih p.2
    refine ⟨max N1 N2, (p.1 :: q.1, q.2), fun fuel hf => ?_⟩
    unfold write_all
    rw [h1 fuel (le_trans (le_max_left _ _) hf)]
    simp only
    rw [h2 fuel (le_trans (le_max_right _ _) hf)]


/-- The copying engine makes progress, measured by the input left. -/
theorem copy_engine_progress : EngineProgress copy_engine (fun _ n => n) := by
  intro st src n d fl hd hst hc
  simp only [copy_engine] at hst hc ⊢
  have hnd : ¬ n ≤ d := by
    rcases hc with hc | hc
    · intro hle
      rw [Nat.min_eq_left hle] at hc
      omega
    · intro hle
      rw [if_pos ⟨hc, hle⟩] at hst
      simp [COMPRESSION_STATUS_END, COMPRESSION_STATUS_OK] at hst
  have : min n d = d := Nat.min_eq_right (by omega)
  omega

/-- C7: for a session that `open` has just opened, whatever the sizes of a sequence of
`write` calls and whatever the engine and the downstream sink do, each `write` that
returns returns its own `size`, and the TOTAL_IN property after the writes, and again
after `close`, is the sum of the sizes; with an engine that makes progress the calls do
return. -/
theorem write_total_in {β ε : Type} (B : Base β) (E : Engine ε)
    (s0 s1 : mz_stream_libcomp β ε) (mode : Int) (ws : List (List Nat × Int))
    (hopen : mz_stream_libcomp_open E s0 mode = (MZ_OK, s1)) :
    (∀ fuel rets s2, write_all B E fuel s1 ws = some (rets, s2) →
      rets = ws.map Prod.snd ∧
      (∀ v, mz_stream_libcomp_get_prop_int64 s2 MZ_STREAM_PROP_TOTAL_IN v
        = (MZ_OK, (ws.map Prod.snd).sum)) ∧
      ∀ fuel2 r s3, mz_stream_libcomp_close B E fuel2 s2 = some (r, s3) →
        ∀ v, mz_stream_libcomp_get_prop_int64 s3 MZ_STREAM_PROP_TOTAL_IN v
          = (MZ_OK, (ws.map Prod.snd).sum)) ∧
    (∀ m, EngineProgress E m → ∃ N, ∀ fuel, N ≤ fuel → ∃ rets s2 r s3,
      write_all B E fuel s1 ws = some (rets, s2) ∧
      mz_stream_libcomp_close B E fuel s2 = some (r, s3)) := by
  have h0 := (open_ok_counters E s0 s1 mode hopen).1
  constructor
  · intro fuel rets s2 hw
    obtain ⟨h1, h2⟩ := write_all_result B E fuel s1 ws (rets, s2) hw
    simp only at h1 h2
    rw [h0, zero_add] at h2
    refine ⟨h1, fun v => by simp [mz_stream_libcomp_get_prop_int64, h2], ?_⟩
    intro fuel2 r s3 hc v
    have h3 := close_total_in B E fuel2 s2 (r, s3) hc
    simp only at h3
    simp [mz_stream_libcomp_get_prop_int64, h3, h2]
  · intro m hp
    obtain ⟨N1, p, h1⟩ := write_all_terminates B E m hp s1 ws
    obtain ⟨N2, q, h2⟩ := close_terminates B E m hp p.2
    exact ⟨max N1 N2, fun fuel hf => ⟨p.1, p.2, q.1, q.2,
      h1 fuel (le_trans (le_max_left _ _) hf), h2 fuel (le_trans (le_max_right _ _) hf)⟩⟩

/-- C7 on the copying engine over the memory stream: writes of 3 and 2 bytes return 3
and 2, and TOTAL_IN is 5 after the writes and after `close`, while no byte has been
forwarded downstream before `close`. -/
theorem write_total_in_witness :
    (write_all mem_base copy_engine 2 sample_encoder [([1, 2, 3], 3), ([4, 5], 2)]).map
        (fun r => (r.1, mz_stream_libcomp_get_prop_int64 r.2 MZ_STREAM_PROP_TOTAL_IN 0,
          r.2.base.output))
      = some ([3, 2], (MZ_OK, 5), []) ∧
    ((write_all mem_base copy_engine 2 sample_encoder [([1, 2, 3], 3), ([4, 5], 2)]).bind
        (fun r => mz_stream_libcomp_close mem_base copy_engine 2 r.2)).map
        (fun r => mz_stream_libcomp_get_prop_int64 r.2 MZ_STREAM_PROP_TOTAL_IN 0)
      = some (MZ_OK, 5) := by
  have h := (write_total_in mem_base copy_engine
    (mz_stream_zlib_create copy_engine { input := [], output := [] }) sample_encoder
    MZ_OPEN_MODE_WRITE [([1, 2, 3], 3), ([4, 5], 2)] rfl).1 2
  have hsome : (write_all mem_base copy_engine 2 sample_encoder
      [([1, 2, 3], 3), ([4, 5], 2)]).isSome = true := by decide
  cases hw : write_all mem_base copy_engine 2 sample_encoder [([1, 2, 3], 3), ([4, 5], 2)] with
  | none => rw [hw] at hsome; simp at hsome
  | some p =>
    obtain ⟨h1, h2, h3⟩ := h p.1 p.2 hw
    have hout : (write_all mem_base copy_engine 2 sample_encoder
        [([1, 2, 3], 3), ([4, 5], 2)]).map (fun r => r.2.base.output) = some [] := by decide
    rw [hw] at hout
    simp only [Option.map_some', Option.some.injEq] at hout
    have hcs : (mz_stream_libcomp_close mem_base copy_engine 2 p.2).isSome = true := by
      have : ((write_all mem_base copy_engine 2 sample_encoder
          [([1, 2, 3], 3), ([4, 5], 2)]).bind
          (fun r => mz_stream_libcomp_close mem_base copy_engine 2 r.2)).isSome = true := by
        decide
      rw [hw] at this
      exact this
    constructor
    · simp only [Option.map_some', h1, h2 0, hout]
      rfl
    · simp only [Option.some_bind]
      cases hc : mz_stream_libcomp_close mem_base copy_engine 2 p.2 with
      | none => rw [hc] at hcs; simp at hcs
      | some q =>
        simp only [Option.map_some']
        rw [h3 2 q.1 q.2 hc 0]
        rfl

/-! ## Failures -/

/-- C9, the code when the drive fails: on an ENCODE session whose engine reports
`COMPRESSION_STATUS_ERROR`, the deflate drive returns `MZ_STREAM_ERROR` and latches the
engine's code, yet `write` of 3 bytes returns 3; the same on a session whose downstream
sink rejects the flush of the staging buffer. -/
theorem write_returns_size_on_failure :
    (mz_stream_libcomp_deflate mem_base fail_engine 1
        { failing_encoder with
          cstream := { failing_encoder.cstream with src := [1, 2, 3], src_size := 3 } } 0).map
        (fun r => r.1) = some MZ_STREAM_ERROR ∧
    (mz_stream_libcomp_write mem_base fail_engine 1 failing_encoder [1, 2, 3] 3).map
        (fun r => (r.1, r.2.error)) = some (3, COMPRESSION_STATUS_ERROR) ∧
    (mz_stream_libcomp_write script_base copy_engine 1 rejecting_encoder [1, 2, 3] 3).map
        (fun r => (r.1, r.2.error)) = some (3, MZ_STREAM_ERROR) := by
  refine ⟨by decide, by decide, by decide⟩

/-- C10 as stated fails: on a DECODE session whose upstream fails with -5 on the first
`read` and with -7 on the second, the first `read` returns -5, the second returns -7, and
a third `read`, which meets no failure, returns -7 as well. -/
theorem read_later_failure_replaces_first :
    (read_all script_base copy_engine 1 failing_decoder [4, 4, 4]).map
        (fun r => r.1.map Prod.fst) = some [-5, -7, -7] := by
  decide

/-- A failure met by a processing step of the read loop is a non-zero code, the step then
breaks the loop, and the latched code afterwards is that failure, or the former code when
there was none. -/
theorem read_step_error {β ε : Type} (E : Engine ε) (libcomp : mz_stream_libcomp β ε)
    (total_out : Int) (out : List Nat) :
    (read_step E libcomp total_out out).2.1.error
      = (read_step_failure E libcomp).getD libcomp.error ∧
    (∀ c, read_step_failure E libcomp = some c → c ≠ 0) ∧
    ((read_step E libcomp total_out out).1 = true → read_step_failure E libcomp = none) := by
  unfold read_step read_step_failure
  simp only
  split_ifs with h1 h2 h3
  · refine ⟨rfl, ?_, by simp⟩
    intro c hc
    simp only [Option.some.injEq] at hc
    rw [← hc, h1]
    decide
  · exact ⟨rfl, by simp, by simp⟩
  · refine ⟨rfl, ?_, by simp⟩
    intro c hc
    simp only [Option.some.injEq] at hc
    rw [← hc]
    exact h3
  · exact ⟨rfl, by simp, by simp⟩

/-- The same for a whole iteration of the read loop. -/
theorem read_body_error {β ε : Type} (B : Base β) (E : Engine ε)
    (libcomp : mz_stream_libcomp β ε) (total_out : Int) (out : List Nat) :
    (read_body B E libcomp total_out out).2.1.error
      = (read_body_failure B E libcomp).getD libcomp.error ∧
    (∀ c, read_body_failure B E libcomp = some c → c ≠ 0) ∧
    ((read_body B E libcomp total_out out).1 = true →
      read_body_failure B E libcomp = none) := by
  unfold read_body read_body_failure
  simp only
  split_ifs with h1 h2 h3
  · refine ⟨rfl, ?_, by simp⟩
    intro c hc
    simp only [Option.some.injEq] at hc
    omega
  · exact ⟨rfl, by simp, by simp⟩
  · exact read_step_error E _ total_out out
  · exact read_step_error E _ total_out out

/-- The read loop ends with the failure it met latched, or with the former code when it
met none; a failure is a non-zero code. -/
theorem read_loop_error {β ε : Type} (B : Base β) (E : Engine ε) (fuel : Nat)
    (libcomp : mz_stream_libcomp β ε) (total_out : Int) (out : List Nat)
    (r : mz_stream_libcomp β ε × Int × List Nat)
    (h : read_loop B E fuel libcomp total_out out = some r) :
    r.1.error = (read_loop_failure B E fuel libcomp total_out out).getD libcomp.error ∧
    (∀ c, read_loop_failure B E fuel libcomp total_out out = some c → c ≠ 0) := by
  induction fuel generalizing libcomp total_out out with
  | zero => simp [read_loop] at h
  | succ k ih =>
    obtain ⟨hb1, hb2, hb3⟩ := read_body_error B E libcomp total_out out
    unfold read_loop at h
    unfold read_loop_failure
    simp only at h ⊢
    split_ifs at h ⊢ with hc
    · obtain ⟨i1, i2⟩ := ih _ _ _ h
      refine ⟨?_, i2⟩
      rw [i1, hb1, hb3 hc.1]
      rfl
    · simp only [Option.some.injEq] at h
      rw [← h]
      exact ⟨hb1, hb2⟩

/-- With a read loop that makes progress the loop returns once the fuel exceeds the
measure. -/
theorem read_loop_terminates {β ε : Type} (B : Base β) (E : Engine ε)
    (μ : mz_stream_libcomp β ε → Nat) (hp : ReadProgress B E μ) (fuel : Nat)
    (libcomp : mz_stream_libcomp β ε) (total_out : Int) (out : List Nat)
    (h : μ libcomp < fuel) : ∃ r, read_loop B E fuel libcomp total_out out = some r := by
  induction fuel generalizing libcomp total_out out with
  | zero => omega
  | succ k ih =>
    unfold read_loop
    simp only
    split_ifs with hc
    · apply ih
      have := hp libcomp total_out out hc.1 hc.2
      omega
    · exact ⟨_, rfl⟩

/-- With a read loop that makes progress `read` returns for all fuel from some amount
on. -/
theorem read_terminates {β ε : Type} (B : Base β) (E : Engine ε)
    (μ : mz_stream_libcomp β ε → Nat) (hp : ReadProgress B E μ)
    (libcomp : mz_stream_libcomp β ε) (size : Int) :
    ∃ N r, ∀ fuel, N ≤ fuel → mz_stream_libcomp_read B E fuel libcomp size = some r := by
  obtain ⟨p, hpd⟩ := read_loop_terminates B E μ hp
    (μ { libcomp with cstream := { libcomp.cstream with dst_ptr := Ptr.buf 0
                                                        dst_size := toU64 size } } + 1)
    { libcomp with cstream := { libcomp.cstream with dst_ptr := Ptr.buf 0
                                                     dst_size := toU64 size } } 0 []
    (by omega)
  have hw : ∃ r, mz_stream_libcomp_read B E
      (μ { libcomp with cstream := { libcomp.cstream with dst_ptr := Ptr.buf 0
                                                          dst_size := toU64 size } } + 1)
      libcomp size = some r := by
    unfold mz_stream_libcomp_read
    simp only
    rw [hpd]
    simp only
    split_ifs
    · exact ⟨_, rfl⟩
    · exact ⟨_, rfl⟩
  obtain ⟨r, hr⟩ := hw
  exact ⟨_, r, fun fuel hf => read_mono B E _ fuel libcomp size r hf hr⟩

/-- C10 amended: for a session whose latched code is non-zero, a `read` call returns the
code that is latched when it ends, never a byte count; that code is non-zero, and it is
the code of the failure this call met if it met one (the latest failure replaces the
former code), the former code otherwise. With a read loop that makes progress the call
does return. -/
theorem read_returns_latched_error {β ε : Type} (B : Base β) (E : Engine ε)
    (libcomp : mz_stream_libcomp β ε) (size : Int) (he : libcomp.error ≠ 0) :
    (∀ fuel r, mz_stream_libcomp_read B E fuel libcomp size = some r →
      r.1 = mz_stream_libcomp_error r.2.2 ∧
      mz_stream_libcomp_error r.2.2 ≠ 0 ∧
      mz_stream_libcomp_error r.2.2
        = (read_failure B E fuel libcomp size).getD libcomp.error) ∧
    (∀ μ, ReadProgress B E μ → ∃ N r, ∀ fuel, N ≤ fuel →
      mz_stream_libcomp_read B E fuel libcomp size = some r) := by
  constructor
  · intro fuel r h
    unfold mz_stream_libcomp_read at h
    simp only at h
    cases hl : read_loop B E fuel
        { libcomp with cstream := { libcomp.cstream with dst_ptr := Ptr.buf 0
                                                         dst_size := toU64 size } } 0 [] with
    | none => simp [hl] at h
    | some p =>
      rw [hl] at h
      simp only at h
      obtain ⟨h1, h2⟩ := read_loop_error B E fuel _ 0 [] p hl
      have hne : p.1.error ≠ 0 := by
        rw [h1]
        cases hf : read_loop_failure B E fuel
            { libcomp with cstream := { libcomp.cstream with dst_ptr := Ptr.buf 0
                                                             dst_size := toU64 size } } 0 [] with
        | none => exact he
        | some c => exact h2 c hf
      rw [if_pos hne] at h
      simp only [Option.some.injEq] at h
      rw [← h]
      exact ⟨rfl, hne, h1⟩
  · intro μ hp
    exact read_terminates B E μ hp libcomp size

/-- The copying engine over the memory stream: the read loop makes progress, measured by
the bytes left upstream and in the engine's input. -/
theorem copy_read_progress :
    ReadProgress mem_base copy_engine
      (fun s => s.base.input.length + s.cstream.src_size) := by
  intro s t o hgo hd
  unfold read_body at hgo hd ⊢
  simp only at hgo hd ⊢
  by_cases h0 : s.cstream.src_size = 0
  · rw [if_pos h0] at hgo hd ⊢
    by_cases h1 : (mem_base.mz_stream_read s.base (read_request s)).1 < 0
    · rw [if_pos h1] at hgo; simp at hgo
    · rw [if_neg h1] at hgo hd ⊢
      by_cases h2 : (mem_base.mz_stream_read s.base (read_request s)).1 = 0
      · rw [if_pos h2] at hgo; simp at hgo
      · rw [if_neg h2] at hgo hd ⊢
        simp only [mem_base] at h1 h2 hgo hd ⊢
        have hk : toU64 ((min (read_request s).toNat s.base.input.length : Nat) : Int)
            = min (read_request s).toNat s.base.input.length := by
          unfold toU64
          have hb : min (read_request s).toNat s.base.input.length < 2 ^ 31 := by
            have : (read_request s) < 2 ^ 31 := by
              unfold read_request toI32 BUFFER_SIZE
              split_ifs <;> omega
            omega
          omega
        unfold read_step at hgo hd ⊢
        simp only [copy_engine, read_attach, read_refill, compression_stream.after,
          hk] at hgo hd ⊢
        split_ifs at hgo hd ⊢ <;> simp only [List.length_drop] at hd ⊢ <;> omega
  · rw [if_neg h0] at hgo hd ⊢
    unfold read_step at hgo hd ⊢
    simp only [copy_engine, compression_stream.after] at hgo hd ⊢
    split_ifs at hgo hd ⊢ <;> simp only at hd ⊢ <;> omega

/-- C10 amended, on a session with the code -5 latched whose next `read` meets no failure
(the upstream is exhausted): the call returns -5. -/
theorem read_returns_latched_error_witness :
    (mz_stream_libcomp_read mem_base copy_engine 1 latched_decoder 4).map (fun r => r.1)
      = some (-5) := by
  have h := (read_returns_latched_error mem_base copy_engine latched_decoder 4
    (by decide)).1 1
  have hsome : (mz_stream_libcomp_read mem_base copy_engine 1 latched_decoder 4).isSome
      = true := by decide
  cases hr : mz_stream_libcomp_read mem_base copy_engine 1 latched_decoder 4 with
  | none => rw [hr] at hsome; simp at hsome
  | some r =>
    obtain ⟨h1, _, h3⟩ := h r hr
    have hf : read_failure mem_base copy_engine 1 latched_decoder 4 = none := by decide
    rw [hf] at h3
    simp only [Option.map_some', h1, h3]
    rfl

/-! ## Arithmetic and memory -/

/-- Conversion of a small number to `size_t` keeps it. -/
theorem toU64_of_lt (x : Int) (h0 : 0 ≤ x) (h1 : x < 2 ^ 64) : toU64 x = x.toNat := by
  unfold toU64
  rw [Int.emod_eq_of_lt h0 h1]

/-- The `size_t` difference of two cursor values, the later one not larger. -/
theorem toU64_sub (a b : Nat) (hb : b ≤ a) (ha : a < 2 ^ 64) :
    toU64 ((a : Int) - (b : Int)) = a - b := by
  unfold toU64
  have h0 : (0 : Int) ≤ (a : Int) - (b : Int) := by omega
  have h1 : (a : Int) - (b : Int) < 2 ^ 64 := by omega
  rw [Int.emod_eq_of_lt h0 h1]
  omega

/-- Conversion of a small number to `uint32_t` keeps it. -/
theorem toU32_of_lt (x : Int) (h0 : 0 ≤ x) (h1 : x < 2 ^ 32) : toU32 x = x.toNat := by
  unfold toU32
  rw [Int.emod_eq_of_lt h0 h1]

/-- Conversion of a number in range to `int32_t` keeps it. -/
theorem toI32_of_lt (x : Int) (h0 : 0 ≤ x) (h1 : x < 2 ^ 31) : toI32 x = x := by
  unfold toI32
  have h2 : (0 : Int) ≤ x + 2 ^ 31 := by omega
  have h3 : x + 2 ^ 31 < 2 ^ 32 := by omega
  rw [Int.emod_eq_of_lt h2 h3]
  omega

/-- A list is the list of its entries. -/
theorem map_getD_range (l : List Nat) :
    (List.range l.length).map (fun j => l.getD j 0) = l := by
  apply List.ext_getElem
  · simp
  · intro i h1 h2
    simp only [List.getElem_map, List.getElem_range]
    rw [List.getD_eq_getElem _ _ h2]

/-- Loading no byte. -/
theorem load_zero (mem : Nat → Nat) (off : Nat) : load mem off 0 = [] := by
  simp [load]

/-- Bytes stored right after the first `k` bytes extend what the first `k` bytes load. -/
theorem load_store_append (mem : Nat → Nat) (k : Nat) (data : List Nat) :
    load (store mem k data) 0 (k + data.length) = load mem 0 k ++ data := by
  unfold load
  rw [List.range_add, List.map_append, List.map_map]
  congr 1
  · apply List.map_congr_left
    intro i hi
    have : i < k := List.mem_range.mp hi
    simp only [store, Nat.zero_add]
    rw [if_neg (by omega)]
  · conv_rhs => rw [← map_getD_range data]
    apply List.map_congr_left
    intro j hj
    have : j < data.length := List.mem_range.mp hj
    simp only [store, Function.comp, Nat.zero_add]
    rw [if_pos (by omega)]
    congr 1
    omega

/-- Bytes stored at the start of an array are what loading their number returns. -/
theorem load_store_zero (mem : Nat → Nat) (data : List Nat) :
    load (store mem 0 data) 0 data.length = data := by
  have h := load_store_append mem 0 data
  simp only [Nat.zero_add, load_zero, List.nil_append] at h
  exact h

/-! ## The encode side of the round trip -/

/-- A processing step of the deflate drive on which the engine reports ok reaches the
loop condition. -/
theorem deflate_step_of_ok {β ε : Type} (E : Engine ε) (libcomp : mz_stream_libcomp β ε)
    (flush : Int)
    (h : (E.compression_stream_process libcomp.cstream.state libcomp.cstream.src
      libcomp.cstream.src_size libcomp.cstream.dst_size flush).status
        = COMPRESSION_STATUS_OK) :
    deflate_step E libcomp flush
      = deflate_exit.cond COMPRESSION_STATUS_OK (deflate_account E libcomp flush) := by
  unfold deflate_step deflate_account
  simp only [h]
  rw [if_neg (by decide), if_neg (by decide)]
  rfl

/-- A processing step of the deflate drive on which the engine signals the end breaks
the loop. -/
theorem deflate_step_of_end {β ε : Type} (E : Engine ε) (libcomp : mz_stream_libcomp β ε)
    (flush : Int)
    (h : (E.compression_stream_process libcomp.cstream.state libcomp.cstream.src
      libcomp.cstream.src_size libcomp.cstream.dst_size flush).status
        = COMPRESSION_STATUS_END) :
    deflate_step E libcomp flush = deflate_exit.brk (deflate_account E libcomp flush) := by
  unfold deflate_step deflate_account
  simp only [h, if_true]
  rfl

/-- A processing step of the deflate drive keeps the invariant of the ENCODE session,
the bytes emitted growing by the bytes the engine stored. -/
theorem enc_account {β ε : Type} (E : Engine ε) (algorithm : Int)
    (Enc Dec : ε → List Nat → List Nat → Prop) (code : List Nat → List Nat → Prop)
    (m : ε → Nat → Nat) (hc : Codec E algorithm Enc Dec code m)
    (log : β → List Nat) (L0 : List Nat) (libcomp : mz_stream_libcomp β ε)
    (W Y : List Nat) (flush : Int)
    (hfl : flush = 0 ∨ flush = COMPRESSION_STREAM_FINALIZE)
    (hinv : EncInv log Enc L0 libcomp W Y)
    (hd : 0 < libcomp.cstream.dst_size)
    (r : process_result ε)
    (hr : r = E.compression_stream_process libcomp.cstream.state libcomp.cstream.src
      libcomp.cstream.src_size libcomp.cstream.dst_size flush) :
    EncInv log Enc L0 (deflate_account E libcomp flush) W (Y ++ r.out) ∧
    (deflate_account E libcomp flush).cstream.src_size = r.src_size ∧
    (deflate_account E libcomp flush).cstream.state = r.state ∧
    (deflate_account E libcomp flush).mode = libcomp.mode ∧
    (r.status = COMPRESSION_STATUS_OK ∨
      (r.status = COMPRESSION_STATUS_END ∧ flush = COMPRESSION_STREAM_FINALIZE ∧
        r.src_size = 0 ∧ code W (Y ++ r.out))) ∧
    (r.status = COMPRESSION_STATUS_OK →
      (0 < r.src_size ∨ flush = COMPRESSION_STREAM_FINALIZE) →
      m r.state r.src_size < m libcomp.cstream.state libcomp.cstream.src_size) := by
  obtain ⟨⟨X, hX, hXW⟩, hlen, hb0, hb1, hready, hlog, herr⟩ := hinv
  have hrdy : libcomp.cstream.dst_ptr = Ptr.buffer libcomp.buffer_len.toNat ∧
      libcomp.buffer_len + libcomp.cstream.dst_size = 32767 := by
    rcases hready with h | h
    · omega
    · exact h
  obtain ⟨hptr, hsum⟩ := hrdy
  have hr2 : r = E.compression_stream_process libcomp.cstream.state libcomp.cstream.src
      libcomp.cstream.src.length libcomp.cstream.dst_size flush := by rw [hlen]; exact hr
  obtain ⟨hst, hs1, hs2, hs3, hs4, hs5⟩ := hc.enc_step libcomp.cstream.state X Y
    libcomp.cstream.src libcomp.cstream.dst_size flush r hX hd hfl hr2
  have hbl : toI32 (libcomp.buffer_len +
      toU32 (toU64 ((libcomp.cstream.dst_size : Int) - (r.dst_size : Int))))
      = libcomp.buffer_len + (r.out.length : Int) := by
    rw [toU64_sub _ _ hs2 (by omega), toU32_of_lt _ (by omega) (by omega)]
    rw [toI32_of_lt _ (by omega) (by omega)]
    omega
  refine ⟨⟨⟨X ++ libcomp.cstream.src.take (libcomp.cstream.src.length - r.src_size), ?_, ?_⟩,
    ?_, ?_, ?_, ?_, ?_, ?_⟩, ?_, ?_, ?_, ?_, ?_⟩
  · show Enc (libcomp.cstream.after _).state _ _
    rw [← hr]
    exact hs4
  · show _ ++ (libcomp.cstream.after _).src = W
    rw [← hr]
    simp only [compression_stream.after]
    rw [← hlen, List.append_assoc, List.take_append_drop]
    exact hXW
  · show (libcomp.cstream.after _).src.length = (libcomp.cstream.after _).src_size
    rw [← hr]
    simp only [compression_stream.after, List.length_drop]
    omega
  · show 0 ≤ toI32 _
    rw [← hr, hbl]
    omega
  · show toI32 _ ≤ 32767
    rw [← hr, hbl]
    omega
  · right
    show (libcomp.cstream.after _).dst_ptr = Ptr.buffer (toI32 _).toNat ∧
      toI32 _ + ((libcomp.cstream.after _).dst_size : Int) = 32767
    rw [← hr, hbl]
    simp only [compression_stream.after, hptr, Ptr.advance]
    refine ⟨?_, by omega⟩
    congr 1
    omega
  · show L0 ++ (Y ++ r.out) = log libcomp.base ++
      load (store_dst libcomp.buffer libcomp.cstream.dst_ptr _) 0 (toI32 _).toNat
    rw [← hr, hbl, hptr]
    simp only [store_dst]
    have : (libcomp.buffer_len + (r.out.length : Int)).toNat
        = libcomp.buffer_len.toNat + r.out.length := by omega
    rw [this, load_store_append, ← List.append_assoc, ← List.append_assoc, hlog]
  · exact herr
  · show (libcomp.cstream.after _).src_size = r.src_size
    rw [← hr]; rfl
  · show (libcomp.cstream.after _).state = r.state
    rw [← hr]; rfl
  · rfl
  · rcases hst with h | ⟨h1, h2, h3, h4⟩
    · left; exact h
    · right
      rw [hXW] at h4
      exact ⟨h1, h2, h3, h4⟩
  · intro h1 h2
    have := hs5 h1 h2
    rw [hlen] at this
    exact this

/-- An iteration of the deflate drive on a session that satisfies the invariant, over a
sink that accepts writes, is a processing step on a session with output space that
satisfies the invariant as well. -/
theorem enc_body {β ε : Type} (B : Base β) (E : Engine ε)
    (Enc : ε → List Nat → List Nat → Prop)
    (log : β → List Nat) (hB : AcceptsWrites B log) (L0 : List Nat)
    (libcomp : mz_stream_libcomp β ε) (W Y : List Nat) (flush : Int)
    (hinv : EncInv log Enc L0 libcomp W Y) :
    ∃ s : mz_stream_libcomp β ε, deflate_body B E libcomp flush = deflate_step E s flush ∧
      EncInv log Enc L0 s W Y ∧ 0 < s.cstream.dst_size ∧
      s.cstream.state = libcomp.cstream.state ∧
      s.cstream.src_size = libcomp.cstream.src_size ∧ s.mode = libcomp.mode := by
  obtain ⟨hX, hlen, hb0, hb1, hready, hlog, herr⟩ := hinv
  by_cases h0 : libcomp.cstream.dst_size = 0
  · obtain ⟨hw1, hw2⟩ := hB libcomp.base (load libcomp.buffer 0 libcomp.buffer_len.toNat)
      libcomp.buffer_len
    have hf : mz_stream_libcomp_flush B libcomp
        = (MZ_OK, { libcomp with base := (B.mz_stream_write libcomp.base
            (load libcomp.buffer 0 libcomp.buffer_len.toNat) libcomp.buffer_len).2 }) := by
      unfold mz_stream_libcomp_flush
      simp only
      rw [if_neg (by rw [hw1]; simp)]
    refine ⟨{ libcomp with
        base := (B.mz_stream_write libcomp.base
          (load libcomp.buffer 0 libcomp.buffer_len.toNat) libcomp.buffer_len).2
        cstream := { libcomp.cstream with dst_size := BUFFER_SIZE, dst_ptr := Ptr.buffer 0 }
        buffer_len := 0 }, ?_, ⟨hX, hlen, ?_, ?_, ?_, ?_, herr⟩, ?_, rfl, rfl, rfl⟩
    · unfold deflate_body
      simp only
      rw [if_pos h0, hf]
      simp only
      rw [if_neg (by simp)]
    · show (0 : Int) ≤ 0
      omega
    · show (0 : Int) ≤ 32767
      omega
    · right
      exact ⟨rfl, by simp [BUFFER_SIZE]⟩
    · show L0 ++ Y = log (B.mz_stream_write libcomp.base _ _).2 ++ load libcomp.buffer 0 _
      rw [hw2]
      simp only [Int.toNat_zero, load_zero, List.append_nil]
      exact hlog
    · show 0 < BUFFER_SIZE
      decide
  · refine ⟨libcomp, ?_, ⟨hX, hlen, hb0, hb1, hready, hlog, herr⟩, Nat.pos_of_ne_zero h0,
      rfl, rfl, rfl⟩
    unfold deflate_body
    simp only
    rw [if_neg h0]

/-- The deflate drive on a session that satisfies the invariant, with an engine under
contract and a sink that accepts writes: with fuel above the measure it returns ok, all
the input is taken, the invariant holds, and after a finalize drive the bytes emitted are
a complete encoding of the bytes taken. -/
theorem enc_loop {β ε : Type} (B : Base β) (E : Engine ε) (algorithm : Int)
    (Enc Dec : ε → List Nat → List Nat → Prop) (code : List Nat → List Nat → Prop)
    (m : ε → Nat → Nat) (hc : Codec E algorithm Enc Dec code m)
    (log : β → List Nat) (hB : AcceptsWrites B log) (L0 : List Nat) (flush : Int)
    (hfl : flush = 0 ∨ flush = COMPRESSION_STREAM_FINALIZE)
    (fuel : Nat) (libcomp : mz_stream_libcomp β ε) (W Y : List Nat)
    (hinv : EncInv log Enc L0 libcomp W Y)
    (hfuel : m libcomp.cstream.state libcomp.cstream.src_size < fuel) :
    ∃ (s : mz_stream_libcomp β ε) (Y2 : List Nat),
      deflate_loop B E fuel libcomp flush = some (MZ_OK, s) ∧
      EncInv log Enc L0 s W Y2 ∧ s.cstream.src_size = 0 ∧ s.mode = libcomp.mode ∧
      (flush = COMPRESSION_STREAM_FINALIZE → code W Y2) := by
  induction fuel generalizing libcomp Y with
  | zero => omega
  | succ k ih =>
    obtain ⟨s1, hbody, hinv1, hd1, hst1, hsz1, hmode1⟩ :=
      enc_body B E Enc log hB L0 libcomp W Y flush hinv
    obtain ⟨hinv2, hsz2, hst2, hmode2, hstatus, hprog⟩ :=
      enc_account E algorithm Enc Dec code m hc log L0 s1 W Y flush hfl hinv1 hd1 _ rfl
    unfold deflate_loop
    rw [hbody]
    rcases hstatus with hok | ⟨hend, hfin, hzero, hcode⟩
    · rw [deflate_step_of_ok E s1 flush hok]
      simp only
      split_ifs with hcont
      · have hlt := hprog hok (by
          rcases hcont with h | h
          · left; rw [← hsz2]; exact h
          · right; exact h.1)
        have hm : m s1.cstream.state s1.cstream.src_size
            = m libcomp.cstream.state libcomp.cstream.src_size := by rw [hst1, hsz1]
        obtain ⟨s, Y2, h1, h2, h3, h4, h5⟩ := ih (deflate_account E s1 flush) _ hinv2
          (by rw [hsz2, hst2]; omega)
        exact ⟨s, Y2, h1, h2, h3, by rw [h4, hmode2, hmode1], h5⟩
      · refine ⟨_, _, rfl, hinv2, ?_, by rw [hmode2, hmode1], ?_⟩
        · have : ¬ (deflate_account E s1 flush).cstream.src_size > 0 :=
            fun h => hcont (Or.inl h)
          omega
        · intro hfin
          exact absurd (Or.inr ⟨hfin, trivial⟩) hcont
    · rw [deflate_step_of_end E s1 flush hend]
      simp only
      exact ⟨_, _, rfl, hinv2, by rw [hsz2]; exact hzero, by rw [hmode2, hmode1],
        fun _ => hcode⟩

/-- A `write` of a chunk with its length on an ENCODE session that satisfies the
invariant and has no input pending: for all fuel from some amount on it returns the
length, the chunk is taken by the engine, and the invariant holds. -/
theorem enc_write {β ε : Type} (B : Base β) (E : Engine ε) (algorithm : Int)
    (Enc Dec : ε → List Nat → List Nat → Prop) (code : List Nat → List Nat → Prop)
    (m : ε → Nat → Nat) (hc : Codec E algorithm Enc Dec code m)
    (log : β → List Nat) (hB : AcceptsWrites B log) (L0 : List Nat)
    (libcomp : mz_stream_libcomp β ε) (W Y chunk : List Nat)
    (hinv : EncInv log Enc L0 libcomp W Y) (hz : libcomp.cstream.src_size = 0)
    (hchunk : chunk.length < 2 ^ 31) :
    ∃ (N : Nat) (s : mz_stream_libcomp β ε) (Y2 : List Nat),
      (∀ fuel, N ≤ fuel →
        mz_stream_libcomp_write B E fuel libcomp chunk chunk.length
          = some ((chunk.length : Int), s)) ∧
      EncInv log Enc L0 s (W ++ chunk) Y2 ∧ s.cstream.src_size = 0 ∧
      s.mode = libcomp.mode := by
  have hu : toU64 (chunk.length : Int) = chunk.length := by
    rw [toU64_of_lt _ (by omega) (by omega)]
    omega
  obtain ⟨⟨X, hX, hXW⟩, hlen, hb0, hb1, hready, hlog, herr⟩ := hinv
  have hsrc : libcomp.cstream.src = [] := List.eq_nil_of_length_eq_zero (by omega)
  have hXW2 : X = W := by simpa [hsrc] using hXW
  have hinv1 : EncInv log Enc L0
      { libcomp with cstream := { libcomp.cstream with src := chunk
                                                       src_size := toU64 (chunk.length : Int) } }
      (W ++ chunk) Y :=
    ⟨⟨X, hX, by rw [hXW2]⟩, hu.symm, hb0, hb1, hready, hlog, herr⟩
  obtain ⟨s1, Y2, hl, hinv2, hz2, hmode2, _⟩ := enc_loop B E algorithm Enc Dec code m hc log hB
    L0 0 (Or.inl rfl) (m libcomp.cstream.state (toU64 (chunk.length : Int)) + 1) _ (W ++ chunk)
    Y hinv1 (Nat.lt_succ_self _)
  have hw : mz_stream_libcomp_write B E
      (m libcomp.cstream.state (toU64 (chunk.length : Int)) + 1) libcomp chunk chunk.length
      = some ((chunk.length : Int), { s1 with total_in := s1.total_in + chunk.length }) := by
    unfold mz_stream_libcomp_write mz_stream_libcomp_deflate
    simp only
    rw [hl]
  exact ⟨_, _, Y2, fun fuel hf => write_mono B E _ fuel libcomp chunk _ _ hf hw, hinv2, hz2,
    hmode2⟩

/-- The same for a sequence of chunks. -/
theorem enc_write_all {β ε : Type} (B : Base β) (E : Engine ε) (algorithm : Int)
    (Enc Dec : ε → List Nat → List Nat → Prop) (code : List Nat → List Nat → Prop)
    (m : ε → Nat → Nat) (hc : Codec E algorithm Enc Dec code m)
    (log : β → List Nat) (hB : AcceptsWrites B log) (L0 : List Nat)
    (chunks : List (List Nat)) (libcomp : mz_stream_libcomp β ε) (W Y : List Nat)
    (hinv : EncInv log Enc L0 libcomp W Y) (hz : libcomp.cstream.src_size = 0)
    (hchunks : ∀ c ∈ chunks, c.length < 2 ^ 31) :
    ∃ (N : Nat) (s : mz_stream_libcomp β ε) (Y2 : List Nat),
      (∀ fuel, N ≤ fuel →
        write_all B E fuel libcomp (chunks.map (fun c => (c, (c.length : Int))))
          = some (chunks.map (fun c => (c.length : Int)), s)) ∧
      EncInv log Enc L0 s (W ++ chunks.flatten) Y2 ∧ s.cstream.src_size = 0 ∧
      s.mode = libcomp.mode := by
  induction chunks generalizing libcomp W Y with
  | nil => exact ⟨0, libcomp, Y, fun _ _ => rfl, by simpa using hinv, hz, rfl⟩
  | cons c rest ih =>
    obtain ⟨N1, s1, Y1, h1, hinv1, hz1, hm1⟩ := enc_write B E algorithm Enc Dec code m hc log
      hB L0 libcomp W Y c hinv hz (hchunks c (List.mem_cons_self _ _))
    obtain ⟨N2, s2, Y2, h2, hinv2, hz2, hm2⟩ := ih s1 (W ++ c) Y1 hinv1 hz1
      (fun d hd => hchunks d (List.mem_cons_of_mem _ hd))
    refine ⟨max N1 N2, s2, Y2, fun fuel hf => ?_, ?_, hz2, by rw [hm2, hm1]⟩
    · simp only [List.map_cons, write_all]
      rw [h1 fuel (le_trans (le_max_left _ _) hf)]
      simp only
      rw [h2 fuel (le_trans (le_max_right _ _) hf)]
    · simpa [List.append_assoc] using hinv2

/-- The `close` of an ENCODE session that satisfies the invariant and has no input
pending: for all fuel from some amount on it returns ok, and the bytes forwarded to the
sink since the opening are a complete encoding of the bytes written. -/
theorem enc_close {β ε : Type} (B : Base β) (E : Engine ε) (algorithm : Int)
    (Enc Dec : ε → List Nat → List Nat → Prop) (code : List Nat → List Nat → Prop)
    (m : ε → Nat → Nat) (hc : Codec E algorithm Enc Dec code m)
    (log : β → List Nat) (hB : AcceptsWrites B log) (L0 : List Nat)
    (libcomp : mz_stream_libcomp β ε) (W Y : List Nat)
    (hinv : EncInv log Enc L0 libcomp W Y)
    (hmode : Int.land libcomp.mode MZ_OPEN_MODE_WRITE ≠ 0) :
    ∃ (N : Nat) (s : mz_stream_libcomp β ε) (Y2 : List Nat),
      (∀ fuel, N ≤ fuel → mz_stream_libcomp_close B E fuel libcomp = some (MZ_OK, s)) ∧
      code W Y2 ∧ log s.base = L0 ++ Y2 := by
  obtain ⟨s1, Y2, hl, hinv2, _, _, hcode⟩ := enc_loop B E algorithm Enc Dec code m hc log hB
    L0 COMPRESSION_STREAM_FINALIZE (Or.inr rfl)
    (m libcomp.cstream.state libcomp.cstream.src_size + 1) libcomp W Y hinv
    (Nat.lt_succ_self _)
  obtain ⟨_, _, _, _, _, hlog, herr⟩ := hinv2
  obtain ⟨_, hw2⟩ := hB s1.base (load s1.buffer 0 s1.buffer_len.toNat) s1.buffer_len
  have hbase : (mz_stream_libcomp_flush B s1).2.base
      = (B.mz_stream_write s1.base (load s1.buffer 0 s1.buffer_len.toNat) s1.buffer_len).2 := by
    unfold mz_stream_libcomp_flush
    simp only
    split_ifs <;> rfl
  have herr2 : (mz_stream_libcomp_flush B s1).2.error = 0 := by
    rw [flush_fields]; exact herr
  have hclose : mz_stream_libcomp_close B E
      (m libcomp.cstream.state libcomp.cstream.src_size + 1) libcomp
      = some (MZ_OK, (close_finish E (mz_stream_libcomp_flush B s1).2).2) := by
    unfold mz_stream_libcomp_close close_drain mz_stream_libcomp_deflate
    rw [if_pos hmode, hl]
    simp only
    unfold close_finish
    simp only
    rw [if_neg (by rw [herr2]; simp [Z_OK])]
  refine ⟨_, _, Y2, fun fuel hf => close_mono B E _ fuel libcomp _ hf hclose,
    hcode (by rfl), ?_⟩
  have : (close_finish E (mz_stream_libcomp_flush B s1).2).2.base
      = (mz_stream_libcomp_flush B s1).2.base := by
    unfold close_finish
    simp only
    split_ifs <;> rfl
  rw [this, hbase, hw2, hlog]

/-- The `open` of a fresh session in ENCODE mode with an engine under contract returns
ok and establishes the invariant with nothing written and nothing emitted. -/
theorem enc_open {β ε : Type} (E : Engine ε) (algorithm : Int)
    (Enc Dec : ε → List Nat → List Nat → Prop) (code : List Nat → List Nat → Prop)
    (m : ε → Nat → Nat) (hc : Codec E (toI16 algorithm) Enc Dec code m)
    (log : β → List Nat) (sink : β) (mode : Int)
    (halg : toI16 algorithm ≠ 0) (hmode : Int.land mode MZ_OPEN_MODE_WRITE ≠ 0) :
    (mz_stream_libcomp_open E (fresh_session E sink algorithm) mode).1 = MZ_OK ∧
    EncInv log Enc (log sink)
      (mz_stream_libcomp_open E (fresh_session E sink algorithm) mode).2 [] [] ∧
    (mz_stream_libcomp_open E (fresh_session E sink algorithm) mode).2.cstream.src_size = 0 ∧
    (mz_stream_libcomp_open E (fresh_session E sink algorithm) mode).2.mode = mode := by
  have hop : open_operation mode = COMPRESSION_STREAM_ENCODE := by
    unfold open_operation
    rw [if_pos hmode]
  have hfresh : fresh_session E sink algorithm
      = { mz_stream_libcomp_create E sink with algorithm := toI16 algorithm } := by
    unfold fresh_session mz_stream_libcomp_set_prop_int64
    rw [if_pos rfl]
  obtain ⟨hi1, hi2⟩ := hc.enc_init
  have hopen : mz_stream_libcomp_open E (fresh_session E sink algorithm) mode
      = (MZ_OK,
          { mz_stream_libcomp_create E sink with
            algorithm := toI16 algorithm
            cstream := { (mz_stream_libcomp_create E sink).cstream with
              state := (E.compression_stream_init COMPRESSION_STREAM_ENCODE
                (toI16 algorithm)).2 }
            initialized := 1
            mode := mode }) := by
    rw [hfresh]
    unfold mz_stream_libcomp_open
    simp only
    rw [if_neg halg, hop, if_neg hi1]
    rfl
  rw [hopen]
  refine ⟨rfl, ⟨⟨[], hi2, rfl⟩, rfl, ?_, ?_, Or.inl rfl, ?_, rfl⟩, rfl, rfl⟩
  · show (0 : Int) ≤ 0
    omega
  · show (0 : Int) ≤ 32767
    omega
  · show log sink ++ [] = log sink ++ load (fun _ => 0) 0 (0 : Int).toNat
    simp [load_zero]

/-! ## The decode side of the round trip -/

/-- A processing step of the read loop on which the engine reports ok or the end: the
loop condition is reached exactly when it reports ok, the local `total_out` grows by the
`int32_t` decrease of `dst_size`, and the bytes the engine stored are in the caller's
buffer. -/
theorem read_step_of_ok_or_end {β ε : Type} (E : Engine ε)
    (libcomp : mz_stream_libcomp β ε) (total_out : Int) (out : List Nat)
    (h : (E.compression_stream_process libcomp.cstream.state libcomp.cstream.src
        libcomp.cstream.src_size libcomp.cstream.dst_size 0).status = COMPRESSION_STATUS_OK ∨
      (E.compression_stream_process libcomp.cstream.state libcomp.cstream.src
        libcomp.cstream.src_size libcomp.cstream.dst_size 0).status
          = COMPRESSION_STATUS_END) :
    read_step E libcomp total_out out
      = (decide ((E.compression_stream_process libcomp.cstream.state libcomp.cstream.src
            libcomp.cstream.src_size libcomp.cstream.dst_size 0).status
              = COMPRESSION_STATUS_OK),
          read_account E libcomp,
          toI32 (total_out + toI32 (toU64 ((libcomp.cstream.dst_size : Int) -
            ((E.compression_stream_process libcomp.cstream.state libcomp.cstream.src
              libcomp.cstream.src_size libcomp.cstream.dst_size 0).dst_size : Int)))),
          out ++ (E.compression_stream_process libcomp.cstream.state libcomp.cstream.src
            libcomp.cstream.src_size libcomp.cstream.dst_size 0).out) := by
  unfold read_step read_account
  rcases h with h | h
  · simp only [h]
    rw [if_neg (by decide), if_neg (by decide), if_neg (by decide)]
    rfl
  · simp only [h]
    rw [if_neg (by decide)]
    simp only [if_true]
    rfl

/-- A processing step of the read loop keeps the invariant of the DECODE session, the
bytes emitted growing by the bytes the engine stored. -/
theorem dec_account {β ε : Type} (E : Engine ε) (algorithm : Int)
    (Enc Dec : ε → List Nat → List Nat → Prop) (code : List Nat → List Nat → Prop)
    (m : ε → Nat → Nat) (hc : Codec E algorithm Enc Dec code m)
    (left : β → List Nat) (libcomp : mz_stream_libcomp β ε) (X Y Xe : List Nat)
    (hcode : code X Y) (hinv : DecInv left Dec libcomp Y Xe)
    (hsrc : libcomp.cstream.src ≠ []) (hd : 0 < libcomp.cstream.dst_size)
    (r : process_result ε)
    (hr : r = E.compression_stream_process libcomp.cstream.state libcomp.cstream.src
      libcomp.cstream.src_size libcomp.cstream.dst_size 0) :
    DecInv left Dec (read_account E libcomp) Y (Xe ++ r.out) ∧
    (read_account E libcomp).cstream.dst_size = r.dst_size ∧
    (read_account E libcomp).cstream.src_size = r.src_size ∧
    (read_account E libcomp).base = libcomp.base ∧
    (r.status = COMPRESSION_STATUS_OK ∨
      (r.status = COMPRESSION_STATUS_END ∧ Xe ++ r.out = X)) ∧
    r.src_size ≤ libcomp.cstream.src_size ∧ r.dst_size ≤ libcomp.cstream.dst_size ∧
    r.out.length = libcomp.cstream.dst_size - r.dst_size ∧
    (r.status = COMPRESSION_STATUS_OK →
      r.src_size < libcomp.cstream.src_size ∨ r.dst_size < libcomp.cstream.dst_size) := by
  obtain ⟨⟨Yc, hYc, hY⟩, hlen, herr, hmax⟩ := hinv
  have hr2 : r = E.compression_stream_process libcomp.cstream.state libcomp.cstream.src
      libcomp.cstream.src.length libcomp.cstream.dst_size 0 := by rw [hlen]; exact hr
  obtain ⟨hst, hs1, hs2, hs3, hs4, hs5⟩ := hc.dec_step libcomp.cstream.state Yc Xe
    libcomp.cstream.src X Y libcomp.cstream.dst_size r hYc hcode ⟨_, hY⟩ hd hsrc hr2
  refine ⟨⟨⟨Yc ++ libcomp.cstream.src.take (libcomp.cstream.src.length - r.src_size), ?_, ?_⟩,
    ?_, herr, hmax⟩, ?_, ?_, rfl, hst, by omega, hs2, hs3, ?_⟩
  · show Dec (libcomp.cstream.after _).state _ _
    rw [← hr]
    exact hs4
  · show _ ++ (libcomp.cstream.after _).src ++ left libcomp.base = Y
    rw [← hr]
    simp only [compression_stream.after]
    rw [← hlen, List.append_assoc Yc, List.take_append_drop]
    exact hY
  · show (libcomp.cstream.after _).src.length = (libcomp.cstream.after _).src_size
    rw [← hr]
    simp only [compression_stream.after, List.length_drop]
    omega
  · show (libcomp.cstream.after _).dst_size = r.dst_size
    rw [← hr]; rfl
  · show (libcomp.cstream.after _).src_size = r.src_size
    rw [← hr]; rfl
  · intro h
    have := hs5 h
    omega

/-- An iteration of the read loop on a DECODE session that satisfies the invariant, over
a source that feeds bytes: either the source is exhausted with no input pending, the loop
breaks and everything is emitted; or the iteration is a processing step on a session with
input that satisfies the invariant. -/
theorem dec_body {β ε : Type} (B : Base β) (E : Engine ε) (algorithm : Int)
    (Enc Dec : ε → List Nat → List Nat → Prop) (code : List Nat → List Nat → Prop)
    (m : ε → Nat → Nat) (hc : Codec E algorithm Enc Dec code m)
    (left : β → List Nat) (hB : Feeds B left)
    (libcomp : mz_stream_libcomp β ε) (X Y Xe : List Nat) (total_out : Int) (out : List Nat)
    (hcode : code X Y) (hinv : DecInv left Dec libcomp Y Xe) :
    ∃ s : mz_stream_libcomp β ε,
      DecInv left Dec s Y Xe ∧ s.cstream.dst_size = libcomp.cstream.dst_size ∧
      ((read_body B E libcomp total_out out = (false, s, total_out, out) ∧ Xe = X) ∨
       (read_body B E libcomp total_out out = read_step E s total_out out ∧
        s.cstream.src ≠ [] ∧
        (left s.base).length + s.cstream.src_size
          = (left libcomp.base).length + libcomp.cstream.src_size)) := by
  obtain ⟨⟨Yc, hYc, hY⟩, hlen, herr, hmax⟩ := hinv
  by_cases h0 : libcomp.cstream.src_size = 0
  · have hsrc : libcomp.cstream.src = [] := List.eq_nil_of_length_eq_zero (by omega)
    have hreq : read_request libcomp = (BUFFER_SIZE : Int) := by
      unfold read_request
      rw [if_neg (by rw [hmax]; omega)]
    obtain ⟨hB1, hB2⟩ := hB libcomp.base (read_request libcomp) (by rw [hreq]; decide)
    by_cases hl : left libcomp.base = []
    · obtain ⟨hz, hl2⟩ := hB1 hl
      refine ⟨read_refill libcomp (B.mz_stream_read libcomp.base (read_request libcomp)),
        ⟨⟨Yc, hYc, ?_⟩, hlen, herr, hmax⟩, rfl, Or.inl ⟨?_, ?_⟩⟩
      · show Yc ++ libcomp.cstream.src ++ left (B.mz_stream_read _ _).2.2 = Y
        rw [hl2, ← hY, hl]
      · unfold read_body
        simp only
        rw [if_pos h0, if_neg (by rw [hz]; decide), if_pos hz]
      · apply hc.dec_complete libcomp.cstream.state Xe X Y _ hcode
        have : Yc = Y := by simpa [hsrc, hl] using hY
        rw [← this]
        exact hYc
    · obtain ⟨hp, hle, hlen2, hdata, hl2⟩ := hB2 hl
      rw [hreq] at hp hle hlen2 hdata hl2
      have hle2 : (B.mz_stream_read libcomp.base (BUFFER_SIZE : Int)).1 ≤ 32767 := hle
      have hu : toU64 (B.mz_stream_read libcomp.base (BUFFER_SIZE : Int)).1
          = (B.mz_stream_read libcomp.base (BUFFER_SIZE : Int)).1.toNat :=
        toU64_of_lt _ (by omega) (by omega)
      have hdl : (B.mz_stream_read libcomp.base (BUFFER_SIZE : Int)).2.1.length
          = (B.mz_stream_read libcomp.base (BUFFER_SIZE : Int)).1.toNat := by
        rw [hdata, List.length_take]
        omega
      have hload : load (store libcomp.buffer 0
            (B.mz_stream_read libcomp.base (BUFFER_SIZE : Int)).2.1) 0
            (toU64 (B.mz_stream_read libcomp.base (BUFFER_SIZE : Int)).1)
          = (B.mz_stream_read libcomp.base (BUFFER_SIZE : Int)).2.1 := by
        rw [hu, ← hdl, load_store_zero]
      refine ⟨read_attach
          (read_refill libcomp (B.mz_stream_read libcomp.base (read_request libcomp)))
          (B.mz_stream_read libcomp.base (read_request libcomp)).1,
        ⟨⟨Yc, hYc, ?_⟩, ?_, herr, hmax⟩, rfl, Or.inr ⟨?_, ?_, ?_⟩⟩
      · show Yc ++ load (store libcomp.buffer 0 _) 0 (toU64 _)
          ++ left (B.mz_stream_read _ _).2.2 = Y
        rw [hreq, hload, hl2, hdata, List.append_assoc, List.take_append_drop, ← hY, hsrc]
        simp
      · show (load (store libcomp.buffer 0 _) 0 (toU64 _)).length = toU64 _
        rw [hreq, hload, hu, hdl]
      · unfold read_body
        simp only
        rw [if_pos h0, hreq, if_neg (by omega), if_neg (by omega)]
      · show load (store libcomp.buffer 0 _) 0 (toU64 _) ≠ []
        rw [hreq, hload]
        intro hnil
        rw [hnil] at hdl
        simp only [List.length_nil] at hdl
        omega
      · show (left (B.mz_stream_read _ _).2.2).length + toU64 _ = _
        rw [hreq, hl2, hu, List.length_drop, h0]
        omega
  · refine ⟨libcomp, ⟨⟨Yc, hYc, hY⟩, hlen, herr, hmax⟩, rfl, Or.inr ⟨?_, ?_, rfl⟩⟩
    · unfold read_body
      simp only
      rw [if_neg h0]
    · intro hnil
      rw [hnil] at hlen
      simp only [List.length_nil] at hlen
      omega

/-- The local `total_out` of the read loop after a step: the `int32_t` arithmetic on the
decrease of `dst_size` is exact while the sum stays below 2^31. -/
theorem total_out_step (n d d2 : Nat) (h1 : d2 ≤ d) (h2 : n + d < 2 ^ 31) :
    toI32 ((n : Int) + toI32 (toU64 ((d : Int) - (d2 : Int))))
      = ((n + (d - d2) : Nat) : Int) := by
  have hd : d < 2 ^ 64 := by omega
  rw [toU64_sub d d2 h1 hd]
  have h3 : toI32 (((d - d2 : Nat)) : Int) = ((d - d2 : Nat) : Int) := by
    apply toI32_of_lt
    · omega
    · omega
  rw [h3]
  have h4 : toI32 ((n : Int) + ((d - d2 : Nat) : Int))
      = (n : Int) + ((d - d2 : Nat) : Int) := by
    apply toI32_of_lt
    · omega
    · omega
  rw [h4]
  omega

/-- The read loop on a DECODE session that satisfies the invariant, with an engine under
contract over a source that feeds a complete encoding of `X`: with fuel above the bytes
left, the input pending and the output space, it returns, the local `total_out` is the
number of bytes stored in the caller's buffer, the invariant holds, and the caller's
buffer is full or everything is emitted. -/
theorem dec_loop {β ε : Type} (B : Base β) (E : Engine ε) (algorithm : Int)
    (Enc Dec : ε → List Nat → List Nat → Prop) (code : List Nat → List Nat → Prop)
    (m : ε → Nat → Nat) (hc : Codec E algorithm Enc Dec code m)
    (left : β → List Nat) (hB : Feeds B left) (X Y X0 : List Nat) (hcode : code X Y)
    (size : Nat) (hsize : size < 2 ^ 31) (fuel : Nat)
    (libcomp : mz_stream_libcomp β ε) (out : List Nat)
    (hinv : DecInv left Dec libcomp Y (X0 ++ out))
    (hacc : out.length + libcomp.cstream.dst_size = size)
    (hd : 0 < libcomp.cstream.dst_size)
    (hfuel : (left libcomp.base).length + libcomp.cstream.src_size
      + libcomp.cstream.dst_size < fuel) :
    ∃ (s : mz_stream_libcomp β ε) (out2 : List Nat),
      read_loop B E fuel libcomp (out.length : Int) out
        = some (s, (out2.length : Int), out2) ∧
      DecInv left Dec s Y (X0 ++ out2) ∧ out2.length ≤ size ∧
      (out2.length = size ∨ X0 ++ out2 = X) := by
  induction fuel generalizing libcomp out with
  | zero => omega
  | succ k ih =>
    obtain ⟨s1, hinv1, hd1, hcase⟩ := dec_body B E algorithm Enc Dec code m hc left hB libcomp
      X Y (X0 ++ out) (out.length : Int) out hcode hinv
    rcases hcase with ⟨hbody, hX⟩ | ⟨hbody, hsrc, hmeas⟩
    · refine ⟨s1, out, ?_, hinv1, by omega, Or.inr hX⟩
      unfold read_loop
      simp only
      rw [hbody]
      simp
    · obtain ⟨hinv2, hdst2, hsrc2, hbase2, hst, hle1, hle2, hlen, hprog⟩ :=
        dec_account E algorithm Enc Dec code m hc left s1 X Y (X0 ++ out) hcode hinv1 hsrc
          (by omega) _ rfl
      have hstep := read_step_of_ok_or_end E s1 (out.length : Int) out
        (by
          rcases hst with h | h
          · exact Or.inl h
          · exact Or.inr h.1)
      have hbound : out.length + s1.cstream.dst_size < 2 ^ 31 := by omega
      have hto : toI32 ((out.length : Int) + toI32 (toU64 ((s1.cstream.dst_size : Int) -
          ((E.compression_stream_process s1.cstream.state s1.cstream.src s1.cstream.src_size
            s1.cstream.dst_size 0).dst_size : Int))))
          = ((out ++ (E.compression_stream_process s1.cstream.state s1.cstream.src
              s1.cstream.src_size s1.cstream.dst_size 0).out).length : Int) := by
        rw [total_out_step _ _ _ hle2 hbound, List.length_append, hlen]
      rw [hto] at hstep
      rw [List.append_assoc] at hinv2
      have hlen2 : (out ++ (E.compression_stream_process s1.cstream.state s1.cstream.src
          s1.cstream.src_size s1.cstream.dst_size 0).out).length
          + (read_account E s1).cstream.dst_size = size := by
        rw [List.length_append, hlen, hdst2]
        omega
      rcases hst with hok | ⟨hend, hX⟩
      · by_cases hpos : 0 < (read_account E s1).cstream.dst_size
        · obtain ⟨s, out2, h1, h2, h3, h4⟩ := ih (read_account E s1) _ hinv2 hlen2 hpos
            (by
              have := hprog hok
              rw [hbase2, hsrc2, hdst2]
              omega)
          refine ⟨s, out2, ?_, h2, h3, h4⟩
          unfold read_loop
          simp only
          rw [hbody, hstep]
          simp only [hok, decide_True, true_and]
          rw [if_pos hpos]
          exact h1
        · refine ⟨read_account E s1, _, ?_, hinv2, by omega, Or.inl (by omega)⟩
          unfold read_loop
          simp only
          rw [hbody, hstep]
          simp only [hok, decide_True, true_and]
          rw [if_neg hpos]
      · refine ⟨read_account E s1, _, ?_, hinv2, by omega, Or.inr ?_⟩
        · unfold read_loop
          simp only
          rw [hbody, hstep]
          simp only [hend]
          rw [if_neg (by simp [COMPRESSION_STATUS_END, COMPRESSION_STATUS_OK])]
        · rw [← List.append_assoc]
          exact hX

/-- A `read` of `size` bytes on a DECODE session that satisfies the invariant: for all
fuel from some amount on it returns the number of bytes it delivers, the bytes delivered
are emitted bytes, and the caller's buffer is full or everything is delivered. -/
theorem dec_read {β ε : Type} (B : Base β) (E : Engine ε) (algorithm : Int)
    (Enc Dec : ε → List Nat → List Nat → Prop) (code : List Nat → List Nat → Prop)
    (m : ε → Nat → Nat) (hc : Codec E algorithm Enc Dec code m)
    (left : β → List Nat) (hB : Feeds B left) (X Y D : List Nat) (hcode : code X Y)
    (size : Nat) (h0 : 0 < size) (h1 : size < 2 ^ 31)
    (libcomp : mz_stream_libcomp β ε) (hinv : DecInv left Dec libcomp Y D) :
    ∃ (N : Nat) (s : mz_stream_libcomp β ε) (out : List Nat),
      (∀ fuel, N ≤ fuel →
        mz_stream_libcomp_read B E fuel libcomp (size : Int)
          = some ((out.length : Int), out, s)) ∧
      DecInv left Dec s Y (D ++ out) ∧ out.length ≤ size ∧
      (out.length = size ∨ D ++ out = X) := by
  have hu : toU64 (size : Int) = size := by
    rw [toU64_of_lt _ (by omega) (by omega)]
    omega
  obtain ⟨hYc, hlen, herr, hmax⟩ := hinv
  have hinv1 : DecInv left Dec
      { libcomp with cstream := { libcomp.cstream with dst_ptr := Ptr.buf 0
                                                       dst_size := toU64 (size : Int) } }
      Y (D ++ []) := by
    rw [List.append_nil]
    exact ⟨hYc, hlen, herr, hmax⟩
  obtain ⟨s, out, hl, hinv2, hle, hfull⟩ := dec_loop B E algorithm Enc Dec code m hc left hB
    X Y D hcode size h1
    ((left libcomp.base).length + libcomp.cstream.src_size + size + 1)
    { libcomp with cstream := { libcomp.cstream with dst_ptr := Ptr.buf 0
                                                     dst_size := toU64 (size : Int) } }
    [] hinv1
    (by show ([] : List Nat).length + toU64 (size : Int) = size
        rw [hu]; simp)
    (by show 0 < toU64 (size : Int)
        rw [hu]; exact h0)
    (by show (left libcomp.base).length + libcomp.cstream.src_size + toU64 (size : Int) < _
        rw [hu]; omega)
  simp only [List.length_nil, Nat.cast_zero] at hl
  have herr2 : s.error = 0 := hinv2.2.2.1
  have hread : mz_stream_libcomp_read B E
      ((left libcomp.base).length + libcomp.cstream.src_size + size + 1) libcomp (size : Int)
      = some ((out.length : Int), out, s) := by
    unfold mz_stream_libcomp_read
    simp only
    rw [hl]
    simp only
    rw [if_neg (by rw [herr2]; simp)]
  exact ⟨_, s, out, fun fuel hf => read_mono B E _ fuel libcomp _ _ hf hread, hinv2, hle,
    hfull⟩

/-- The bytes a DECODE session under the invariant has emitted are the first bytes of
the encoded sequence. -/
theorem dec_emitted_take {β ε : Type} (E : Engine ε) (algorithm : Int)
    (Enc Dec : ε → List Nat → List Nat → Prop) (code : List Nat → List Nat → Prop)
    (m : ε → Nat → Nat) (hc : Codec E algorithm Enc Dec code m)
    (left : β → List Nat) (X Y D : List Nat) (hcode : code X Y)
    (libcomp : mz_stream_libcomp β ε) (hinv : DecInv left Dec libcomp Y D) :
    X.take D.length = D := by
  obtain ⟨⟨Yc, hYc, hY⟩, _, _, _⟩ := hinv
  obtain ⟨u, hu⟩ := hc.dec_sound libcomp.cstream.state Yc D X Y hYc hcode
    ⟨libcomp.cstream.src ++ left libcomp.base, by rw [← List.append_assoc]; exact hY⟩
  rw [← hu, List.take_left']
  rfl

/-- Successive `read` calls on a DECODE session that satisfies the invariant: for all
fuel from some amount on they return, each returns the number of bytes it delivers, and
the bytes delivered so far are the first bytes of the encoded sequence, as many as the
sizes asked for allow. -/
theorem dec_read_all {β ε : Type} (B : Base β) (E : Engine ε) (algorithm : Int)
    (Enc Dec : ε → List Nat → List Nat → Prop) (code : List Nat → List Nat → Prop)
    (m : ε → Nat → Nat) (hc : Codec E algorithm Enc Dec code m)
    (left : β → List Nat) (hB : Feeds B left) (X Y : List Nat) (hcode : code X Y)
    (sizes : List Nat) (hs : ∀ n ∈ sizes, 0 < n ∧ n < 2 ^ 31)
    (libcomp : mz_stream_libcomp β ε) (D : List Nat)
    (hinv : DecInv left Dec libcomp Y D) :
    ∃ (N : Nat) (rs : List (Int × List Nat)) (s : mz_stream_libcomp β ε),
      (∀ fuel, N ≤ fuel →
        read_all B E fuel libcomp (sizes.map Int.ofNat) = some (rs, s)) ∧
      D ++ (rs.map Prod.snd).flatten = X.take (D.length + sizes.sum) ∧
      (∀ r ∈ rs, r.1 = (r.2.length : Int)) := by
  induction sizes generalizing libcomp D with
  | nil =>
    refine ⟨0, [], libcomp, fun _ _ => rfl, ?_, by simp⟩
    simp only [List.map_nil, List.flatten_nil, List.append_nil, List.sum_nil, Nat.add_zero]
    exact (dec_emitted_take E algorithm Enc Dec code m hc left X Y D hcode libcomp hinv).symm
  | cons n rest ih =>
    obtain ⟨hn0, hn1⟩ := hs n (List.mem_cons_self _ _)
    obtain ⟨N1, s1, out1, h1, hinv1, hle1, hfull1⟩ := dec_read B E algorithm Enc Dec code m hc
      left hB X Y D hcode n hn0 hn1 libcomp hinv
    obtain ⟨N2, rs2, s2, h2, hrs2, hret2⟩ := ih (fun k hk => hs k (List.mem_cons_of_mem _ hk))
      s1 (D ++ out1) hinv1
    refine ⟨max N1 N2, ((out1.length : Int), out1) :: rs2, s2, fun fuel hf => ?_, ?_, ?_⟩
    · simp only [List.map_cons, read_all, Int.ofNat_eq_coe]
      rw [h1 fuel (le_trans (le_max_left _ _) hf)]
      simp only
      rw [h2 fuel (le_trans (le_max_right _ _) hf)]
    · simp only [List.map_cons, List.flatten_cons, List.sum_cons]
      rw [← List.append_assoc, hrs2]
      rcases hfull1 with hf | hf
      · rw [List.length_append, hf]
        congr 1
        omega
      · rw [hf, List.take_of_length_le (by omega), List.take_of_length_le]
        rw [← hf, List.length_append]
        omega
    · intro r hr
      rcases List.mem_cons.mp hr with h | h
      · rw [h]
      · exact hret2 r h

/-- The `open` of a fresh session in DECODE mode with an engine under contract returns
ok and establishes the invariant with nothing taken and nothing emitted. -/
theorem dec_open {β ε : Type} (E : Engine ε) (algorithm : Int)
    (Enc Dec : ε → List Nat → List Nat → Prop) (code : List Nat → List Nat → Prop)
    (m : ε → Nat → Nat) (hc : Codec E (toI16 algorithm) Enc Dec code m)
    (left : β → List Nat) (source : β) (mode : Int)
    (halg : toI16 algorithm ≠ 0) (hmode1 : Int.land mode MZ_OPEN_MODE_WRITE = 0)
    (hmode2 : Int.land mode MZ_OPEN_MODE_READ ≠ 0) :
    (mz_stream_libcomp_open E (fresh_session E source algorithm) mode).1 = MZ_OK ∧
    DecInv left Dec
      (mz_stream_libcomp_open E (fresh_session E source algorithm) mode).2 (left source) [] := by
  have hop : open_operation mode = COMPRESSION_STREAM_DECODE := by
    unfold open_operation
    rw [if_neg (by simp [hmode1]), if_pos hmode2]
  have hfresh : fresh_session E source algorithm
      = { mz_stream_libcomp_create E source with algorithm := toI16 algorithm } := by
    unfold fresh_session mz_stream_libcomp_set_prop_int64
    rw [if_pos rfl]
  obtain ⟨hi1, hi2⟩ := hc.dec_init
  have hopen : mz_stream_libcomp_open E (fresh_session E source algorithm) mode
      = (MZ_OK,
          { mz_stream_libcomp_create E source with
            algorithm := toI16 algorithm
            cstream := { (mz_stream_libcomp_create E source).cstream with
              state := (E.compression_stream_init COMPRESSION_STREAM_DECODE
                (toI16 algorithm)).2 }
            initialized := 1
            mode := mode }) := by
    rw [hfresh]
    unfold mz_stream_libcomp_open
    simp only
    rw [if_neg halg, hop, if_neg hi1]
    rfl
  rw [hopen]
  exact ⟨rfl, ⟨[], hi2, rfl⟩, rfl, rfl, rfl⟩

/-! ## The round trip -/

/-- The memory stream accepts every write in full; its log is `output`. -/
theorem mem_accepts : AcceptsWrites mem_base (fun st => st.output) := by
  intro st bytes size
  exact ⟨rfl, rfl⟩

/-- The memory stream feeds the bytes of `input`. -/
theorem mem_feeds : Feeds mem_base (fun st => st.input) := by
  intro st req hreq
  simp only [mem_base]
  constructor
  · intro h
    rw [h]
    simp
  · intro h
    have hl : 0 < st.input.length := List.length_pos.mpr h
    have hk : ((min req.toNat st.input.length : Nat) : Int).toNat
        = min req.toNat st.input.length := by omega
    rw [hk]
    refine ⟨by omega, by omega, by omega, rfl, rfl⟩

/-- The copying engine satisfies the contract: what it has emitted is what it has
taken, in both directions, and a sequence is its own complete encoding. -/
theorem copy_codec (algorithm : Int) :
    Codec copy_engine algorithm (fun _ X Y => Y = X) (fun _ Yc Xe => Xe = Yc)
      (fun X Y => Y = X) (fun _ n => n) where
  enc_init := ⟨by simp [copy_engine, COMPRESSION_STATUS_OK, COMPRESSION_STATUS_ERROR], rfl⟩
  enc_step := by
    intro st X Y src d fl r hE hd hfl hr
    subst hr
    simp only [copy_engine]
    have hE2 : Y = X := hE
    subst hE2
    refine ⟨?_, by omega, by omega, ?_, ?_, ?_⟩
    · by_cases hcond : fl = COMPRESSION_STREAM_FINALIZE ∧ src.length ≤ d
      · right
        rw [if_pos hcond]
        refine ⟨rfl, hcond.1, by omega, ?_⟩
        rw [Nat.min_eq_left hcond.2, List.take_length]
      · left
        rw [if_neg hcond]
    · rw [List.length_take]
      omega
    · have : src.length - (src.length - min src.length d) = min src.length d := by omega
      rw [this]
    · intro hst hcont
      by_cases hcond : fl = COMPRESSION_STREAM_FINALIZE ∧ src.length ≤ d
      · rw [if_pos hcond] at hst
        exact absurd hst (by decide)
      · have hgt : d < src.length := by
          rcases hcont with h | h
          · omega
          · by_contra hle
            exact hcond ⟨h, by omega⟩
        omega
  dec_init := ⟨by simp [copy_engine, COMPRESSION_STATUS_OK, COMPRESSION_STATUS_ERROR], rfl⟩
  dec_step := by
    intro st Yc Xe src X Y d r hD hcode hpre hd hsrc hr
    subst hr
    simp only [copy_engine]
    have hD2 : Xe = Yc := hD
    subst hD2
    have hl : 0 < src.length := List.length_pos.mpr hsrc
    refine ⟨Or.inl ?_, by omega, by omega, ?_, ?_, fun _ => Or.inl (by omega)⟩
    · rw [if_neg (by simp [COMPRESSION_STREAM_FINALIZE])]
    · rw [List.length_take]
      omega
    · have : src.length - (src.length - min src.length d) = min src.length d := by omega
      rw [this]
  dec_sound := by
    intro st Yc Xe X Y hD hcode hpre
    have hD2 : Xe = Yc := hD
    have hcode2 : Y = X := hcode
    obtain ⟨t, ht⟩ := hpre
    exact ⟨t, by rw [hD2, ht, hcode2]⟩
  dec_complete := by
    intro st Xe X Y hD hcode
    have hD2 : Xe = Y := hD
    have hcode2 : Y = X := hcode
    rw [hD2, hcode2]

/-- C8 as stated fails: the hoarding engine's decode inverts its encode (a `read` with
room for everything returns the five bytes written), the sink received exactly the
engine's output, yet successive `read` calls of two bytes deliver only the first two
bytes: the engine took all the input on the first call, the next call finds the upstream
exhausted and returns 0 without a further processing step. -/
theorem round_trip_hoarding_decoder :
    ((mz_stream_libcomp_write mem_base hoard_engine 2 hoard_encoder [1, 2, 3, 4, 5] 5).bind
        (fun r => mz_stream_libcomp_close mem_base hoard_engine 2 r.2)).map
        (fun r => (r.1, r.2.base.output)) = some (MZ_OK, [1, 2, 3, 4, 5]) ∧
    (read_all mem_base hoard_engine 3 hoard_decoder [5]).map (fun r => r.1)
      = some [(5, [1, 2, 3, 4, 5])] ∧
    (read_all mem_base hoard_engine 3 hoard_decoder [2, 2, 2]).map (fun r => r.1)
      = some [(2, [1, 2]), (0, []), (0, [])] := by
  refine ⟨by decide, by decide, by decide⟩

/-- C8 amended: with an engine under the codec contract (its decode inverts its encode and
its decoder holds no decoded byte back once it has taken the whole encoding), a sink that
accepts every write in full and a source that feeds the bytes it holds: a fresh session
opened ENCODE, written the chunks in turn (each with its length) and closed, returns ok
throughout; the bytes forwarded to the sink, all flushes in order with the residual flush
of `close`, are exactly a complete encoding `Y` of the bytes written, as the engine emitted
it; and a fresh session opened DECODE on a source that feeds `Y` returns through
successive `read` calls of any positive sizes the bytes written, in order, as many as the
sizes asked for, each call returning the number of bytes it delivers. -/
theorem round_trip {βd βu ε : Type} (Bd : Base βd) (Bu : Base βu) (E : Engine ε)
    (algorithm : Int) (Enc Dec : ε → List Nat → List Nat → Prop)
    (code : List Nat → List Nat → Prop) (m : ε → Nat → Nat)
    (hc : Codec E (toI16 algorithm) Enc Dec code m)
    (log : βd → List Nat) (hBd : AcceptsWrites Bd log)
    (left : βu → List Nat) (hBu : Feeds Bu left)
    (sink : βd) (source : βu) (wmode rmode : Int)
    (halg : toI16 algorithm ≠ 0)
    (hw : Int.land wmode MZ_OPEN_MODE_WRITE ≠ 0)
    (hr1 : Int.land rmode MZ_OPEN_MODE_WRITE = 0)
    (hr2 : Int.land rmode MZ_OPEN_MODE_READ ≠ 0)
    (chunks : List (List Nat)) (hchunks : ∀ c ∈ chunks, c.length < 2 ^ 31)
    (sizes : List Nat) (hsizes : ∀ n ∈ sizes, 0 < n ∧ n < 2 ^ 31) :
    ∃ (N : Nat) (s2 s3 : mz_stream_libcomp βd ε) (Y : List Nat),
      (mz_stream_libcomp_open E (fresh_session E sink algorithm) wmode).1 = MZ_OK ∧
      (∀ fuel, N ≤ fuel →
        write_all Bd E fuel (mz_stream_libcomp_open E (fresh_session E sink algorithm) wmode).2
            (chunks.map (fun c => (c, (c.length : Int))))
          = some (chunks.map (fun c => (c.length : Int)), s2) ∧
        mz_stream_libcomp_close Bd E fuel s2 = some (MZ_OK, s3)) ∧
      log s3.base = log sink ++ Y ∧ code chunks.flatten Y ∧
      (left source = Y →
        (mz_stream_libcomp_open E (fresh_session E source algorithm) rmode).1 = MZ_OK ∧
        ∃ (N2 : Nat) (rs : List (Int × List Nat)) (s5 : mz_stream_libcomp βu ε),
          (∀ fuel, N2 ≤ fuel →
            read_all Bu E fuel
                (mz_stream_libcomp_open E (fresh_session E source algorithm) rmode).2
                (sizes.map Int.ofNat) = some (rs, s5)) ∧
          (rs.map Prod.snd).flatten = chunks.flatten.take sizes.sum ∧
          ∀ r ∈ rs, r.1 = (r.2.length : Int)) := by
  obtain ⟨ho1, ho2, ho3, ho4⟩ := enc_open E algorithm Enc Dec code m hc log sink wmode halg hw
  obtain ⟨N1, s2, Y1, hwr, hinv2, hz2, hm2⟩ := enc_write_all Bd E (toI16 algorithm) Enc Dec
    code m hc log hBd (log sink) chunks _ [] [] ho2 ho3 hchunks
  rw [List.nil_append] at hinv2
  obtain ⟨N3, s3, Y, hcl, hcode, hlog⟩ := enc_close Bd E (toI16 algorithm) Enc Dec code m hc
    log hBd (log sink) s2 chunks.flatten Y1 hinv2 (by rw [hm2, ho4]; exact hw)
  refine ⟨max N1 N3, s2, s3, Y, ho1, fun fuel hf => ⟨hwr fuel (le_trans (le_max_left _ _) hf),
    hcl fuel (le_trans (le_max_right _ _) hf)⟩, hlog, hcode, ?_⟩
  intro hsrc
  obtain ⟨hd1, hd2⟩ := dec_open E algorithm Enc Dec code m hc left source rmode halg hr1 hr2
  rw [hsrc] at hd2
  obtain ⟨N2, rs, s5, hrd, hrs, hret⟩ := dec_read_all Bu E (toI16 algorithm) Enc Dec code m hc
    left hBu chunks.flatten Y hcode sizes hsizes _ [] hd2
  refine ⟨hd1, N2, rs, s5, hrd, ?_, hret⟩
  simpa using hrs

/-- C8 amended, on the copying engine over memory streams: the chunks 1 2 3 and 4 5
written and closed, then read back by three calls of two bytes, which deliver the five
bytes written. -/
theorem round_trip_witness :
    ∃ (N2 : Nat) (rs : List (Int × List Nat)) (s5 : mz_stream_libcomp mem_stream Unit),
      (∀ fuel, N2 ≤ fuel →
        read_all mem_base copy_engine fuel
            (mz_stream_libcomp_open copy_engine
              (fresh_session copy_engine { input := [1, 2, 3, 4, 5], output := [] }
                COMPRESSION_ZLIB) MZ_OPEN_MODE_READ).2
            [2, 2, 2] = some (rs, s5)) ∧
      (rs.map Prod.snd).flatten = [1, 2, 3, 4, 5] := by
  obtain ⟨N, s2, s3, Y, _, _, _, hcode, hdec⟩ := round_trip mem_base mem_base copy_engine
    COMPRESSION_ZLIB (fun _ X Y => Y = X) (fun _ Yc Xe => Xe = Yc) (fun X Y => Y = X)
    (fun _ n => n) (copy_codec _) (fun st => st.output) mem_accepts (fun st => st.input)
    mem_feeds { input := [], output := [] } { input := [1, 2, 3, 4, 5], output := [] }
    MZ_OPEN_MODE_WRITE MZ_OPEN_MODE_READ (by decide) (by decide) (by decide) (by decide)
    [[1, 2, 3], [4, 5]] (by decide) [2, 2, 2] (by decide)
  have hY : Y = [1, 2, 3, 4, 5] := hcode
  obtain ⟨_, N2, rs, s5, hrd, hrs, _⟩ := hdec (by rw [hY])
  exact ⟨N2, rs, s5, hrd, hrs⟩

/-! ## Opening a session -/

/-- C13: for a session whose algorithm selector is 0 and for every mode, `open` returns
`MZ_PARAM_ERROR` and the session is left as it was, every field of it, the engine's
private state included (the engine is not initialised); on a freshly created session
`is_open` then reports `MZ_STREAM_ERROR`. -/
theorem open_unset_algorithm {β ε : Type} (E : Engine ε) (libcomp : mz_stream_libcomp β ε)
    (mode : Int) (base : β) (h : libcomp.algorithm = 0) :
    mz_stream_libcomp_open E libcomp mode = (MZ_PARAM_ERROR, libcomp) ∧
    mz_stream_libcomp_open E (mz_stream_libcomp_create E base) mode
      = (MZ_PARAM_ERROR, mz_stream_libcomp_create E base) ∧
    mz_stream_libcomp_is_open
      (mz_stream_libcomp_open E (mz_stream_libcomp_create E base) mode).2
      = MZ_STREAM_ERROR := by
  have hgen : ∀ s : mz_stream_libcomp β ε, s.algorithm = 0 →
      mz_stream_libcomp_open E s mode = (MZ_PARAM_ERROR, s) := by
    intro s hs
    unfold mz_stream_libcomp_open
    rw [if_pos hs]
  have hfresh : (mz_stream_libcomp_create E base).algorithm = 0 := rfl
  refine ⟨hgen libcomp h, hgen _ hfresh, ?_⟩
  rw [hgen _ hfresh]
  rfl

/-- C13 on a session over the memory stream and the copying engine, counters 7 and 9,
code -5 latched, opened and in DECODE mode, selector 0: `open` in ENCODE mode returns
`MZ_PARAM_ERROR` and the counters, the latched code, the lifecycle flag and the mode are
what they were. -/
theorem open_unset_algorithm_witness :
    (mz_stream_libcomp_open copy_engine
      { latched_decoder with algorithm := 0, total_in := 7, total_out := 9 }
      MZ_OPEN_MODE_WRITE).1 = MZ_PARAM_ERROR ∧
    (fun s : mz_stream_libcomp mem_stream Unit =>
        (s.total_in, s.total_out, s.error, s.initialized, s.mode))
      (mz_stream_libcomp_open copy_engine
        { latched_decoder with algorithm := 0, total_in := 7, total_out := 9 }
        MZ_OPEN_MODE_WRITE).2 = (7, 9, -5, 1, MZ_OPEN_MODE_READ) := by
  have h := (open_unset_algorithm copy_engine
    { latched_decoder with algorithm := 0, total_in := 7, total_out := 9 }
    MZ_OPEN_MODE_WRITE { input := [], output := [] } rfl).1
  rw [h]
  exact ⟨rfl, rfl⟩

/-- C14: for a session that is not open and has a non-zero algorithm selector: if the
engine's initialisation reports `COMPRESSION_STATUS_ERROR`, `open` returns
`MZ_STREAM_ERROR`, the error accessor returns the engine's code, and `is_open` keeps
reporting `MZ_STREAM_ERROR`; if it reports another status (`COMPRESSION_STATUS_OK` in
particular), `open` returns `MZ_OK`, both counters are zero and `is_open` reports
`MZ_OK`. -/
theorem open_engine_init {β ε : Type} (E : Engine ε) (libcomp : mz_stream_libcomp β ε)
    (mode : Int) (halg : libcomp.algorithm ≠ 0) (hclosed : libcomp.initialized ≠ 1) :
    ((E.compression_stream_init (open_operation mode) libcomp.algorithm).1
        = COMPRESSION_STATUS_ERROR →
      (mz_stream_libcomp_open E libcomp mode).1 = MZ_STREAM_ERROR ∧
      mz_stream_libcomp_error (mz_stream_libcomp_open E libcomp mode).2
        = (E.compression_stream_init (open_operation mode) libcomp.algorithm).1 ∧
      (mz_stream_libcomp_open E libcomp mode).2.initialized = libcomp.initialized ∧
      mz_stream_libcomp_is_open (mz_stream_libcomp_open E libcomp mode).2
        = MZ_STREAM_ERROR) ∧
    ((E.compression_stream_init (open_operation mode) libcomp.algorithm).1
        ≠ COMPRESSION_STATUS_ERROR →
      (mz_stream_libcomp_open E libcomp mode).1 = MZ_OK ∧
      (mz_stream_libcomp_open E libcomp mode).2.total_in = 0 ∧
      (mz_stream_libcomp_open E libcomp mode).2.total_out = 0 ∧
      mz_stream_libcomp_is_open (mz_stream_libcomp_open E libcomp mode).2 = MZ_OK) := by
  constructor
  · intro hfail
    have hopen : mz_stream_libcomp_open E libcomp mode
        = (MZ_STREAM_ERROR,
            { libcomp with
              total_in := 0
              total_out := 0
              cstream := { libcomp.cstream with
                state := (E.compression_stream_init (open_operation mode)
                  libcomp.algorithm).2 }
              error := (E.compression_stream_init (open_operation mode)
                libcomp.algorithm).1 }) := by
      unfold mz_stream_libcomp_open
      simp only
      rw [if_neg halg, if_pos hfail]
    rw [hopen]
    refine ⟨rfl, rfl, rfl, ?_⟩
    unfold mz_stream_libcomp_is_open
    simp only
    rw [if_pos hclosed]
  · intro hok
    have hopen : mz_stream_libcomp_open E libcomp mode
        = (MZ_OK,
            { libcomp with
              total_in := 0
              total_out := 0
              cstream := { libcomp.cstream with
                state := (E.compression_stream_init (open_operation mode)
                  libcomp.algorithm).2 }
              initialized := 1
              mode := mode }) := by
      unfold mz_stream_libcomp_open
      simp only
      rw [if_neg halg, if_neg hok]
    rw [hopen]
    refine ⟨rfl, rfl, rfl, ?_⟩
    unfold mz_stream_libcomp_is_open
    simp only
    rw [if_neg (by simp)]

/-- C14 on fresh zlib sessions over the memory stream: with the engine whose
initialisation fails `open` returns `MZ_STREAM_ERROR`, latches the engine's code and the
session stays closed; with the copying engine `open` returns `MZ_OK`, the counters are
zero and the session is open. -/
theorem open_engine_init_witness :
    ((mz_stream_libcomp_open init_fail_engine
        (mz_stream_zlib_create init_fail_engine ({ input := [], output := [] } : mem_stream))
        MZ_OPEN_MODE_WRITE).1 = MZ_STREAM_ERROR ∧
      mz_stream_libcomp_error (mz_stream_libcomp_open init_fail_engine
        (mz_stream_zlib_create init_fail_engine ({ input := [], output := [] } : mem_stream))
        MZ_OPEN_MODE_WRITE).2 = COMPRESSION_STATUS_ERROR ∧
      mz_stream_libcomp_is_open (mz_stream_libcomp_open init_fail_engine
        (mz_stream_zlib_create init_fail_engine ({ input := [], output := [] } : mem_stream))
        MZ_OPEN_MODE_WRITE).2 = MZ_STREAM_ERROR) ∧
    ((mz_stream_libcomp_open copy_engine
        (mz_stream_zlib_create copy_engine ({ input := [], output := [] } : mem_stream))
        MZ_OPEN_MODE_WRITE).1 = MZ_OK ∧
      mz_stream_libcomp_is_open (mz_stream_libcomp_open copy_engine
        (mz_stream_zlib_create copy_engine ({ input := [], output := [] } : mem_stream))
        MZ_OPEN_MODE_WRITE).2 = MZ_OK) := by
  obtain ⟨h1, h2, _, h4⟩ := (open_engine_init init_fail_engine
    (mz_stream_zlib_create init_fail_engine ({ input := [], output := [] } : mem_stream))
    MZ_OPEN_MODE_WRITE (by decide) (by decide)).1 rfl
  obtain ⟨h5, _, _, h8⟩ := (open_engine_init copy_engine
    (mz_stream_zlib_create copy_engine ({ input := [], output := [] } : mem_stream))
    MZ_OPEN_MODE_WRITE (by decide) (by decide)).2 (by decide)
  exact ⟨⟨h1, h2, h4⟩, h5, h8⟩

/-! ## Properties -/

/-- C16: `get_property` succeeds exactly for the keys TOTAL_IN, TOTAL_IN_MAX, TOTAL_OUT
and HEADER_SIZE, yielding `total_in`, `max_total_in`, `total_out` and 0; `set_property`
succeeds exactly for the keys ALGORITHM and TOTAL_IN_MAX and changes that one field; for
every other key both return `MZ_EXIST_ERROR`, the session is what it was and the output
value of the getter keeps the value it had. (The getter only reads the session: its
result holds no session.) -/
theorem property_keys {β ε : Type} (libcomp : mz_stream_libcomp β ε) (prop value : Int) :
    (prop = MZ_STREAM_PROP_TOTAL_IN →
      mz_stream_libcomp_get_prop_int64 libcomp prop value = (MZ_OK, libcomp.total_in)) ∧
    (prop = MZ_STREAM_PROP_TOTAL_IN_MAX →
      mz_stream_libcomp_get_prop_int64 libcomp prop value = (MZ_OK, libcomp.max_total_in)) ∧
    (prop = MZ_STREAM_PROP_TOTAL_OUT →
      mz_stream_libcomp_get_prop_int64 libcomp prop value = (MZ_OK, libcomp.total_out)) ∧
    (prop = MZ_STREAM_PROP_HEADER_SIZE →
      mz_stream_libcomp_get_prop_int64 libcomp prop value = (MZ_OK, 0)) ∧
    (prop ≠ MZ_STREAM_PROP_TOTAL_IN → prop ≠ MZ_STREAM_PROP_TOTAL_IN_MAX →
      prop ≠ MZ_STREAM_PROP_TOTAL_OUT → prop ≠ MZ_STREAM_PROP_HEADER_SIZE →
      mz_stream_libcomp_get_prop_int64 libcomp prop value = (MZ_EXIST_ERROR, value)) ∧
    ((mz_stream_libcomp_get_prop_int64 libcomp prop value).1 = MZ_OK ↔
      (prop = MZ_STREAM_PROP_TOTAL_IN ∨ prop = MZ_STREAM_PROP_TOTAL_IN_MAX ∨
        prop = MZ_STREAM_PROP_TOTAL_OUT ∨ prop = MZ_STREAM_PROP_HEADER_SIZE)) ∧
    (prop = MZ_STREAM_PROP_COMPRESS_ALGORITHM →
      mz_stream_libcomp_set_prop_int64 libcomp prop value
        = (MZ_OK, { libcomp with algorithm := toI16 value })) ∧
    (prop = MZ_STREAM_PROP_TOTAL_IN_MAX →
      mz_stream_libcomp_set_prop_int64 libcomp prop value
        = (MZ_OK, { libcomp with max_total_in := value })) ∧
    (prop ≠ MZ_STREAM_PROP_COMPRESS_ALGORITHM → prop ≠ MZ_STREAM_PROP_TOTAL_IN_MAX →
      mz_stream_libcomp_set_prop_int64 libcomp prop value = (MZ_EXIST_ERROR, libcomp)) ∧
    ((mz_stream_libcomp_set_prop_int64 libcomp prop value).1 = MZ_OK ↔
      (prop = MZ_STREAM_PROP_COMPRESS_ALGORITHM ∨ prop = MZ_STREAM_PROP_TOTAL_IN_MAX)) := by
  refine ⟨?_, ?_, ?_, ?_, ?_, ?_, ?_, ?_, ?_, ?_⟩
  · intro h
    subst h
    rfl
  · intro h
    subst h
    rfl
  · intro h
    subst h
    rfl
  · intro h
    subst h
    rfl
  · intro h1 h2 h3 h4
    unfold mz_stream_libcomp_get_prop_int64
    rw [if_neg h1, if_neg h2, if_neg h3, if_neg h4]
  · unfold mz_stream_libcomp_get_prop_int64
    by_cases h1 : prop = MZ_STREAM_PROP_TOTAL_IN
    · rw [if_pos h1]; simp [h1]
    · rw [if_neg h1]
      by_cases h2 : prop = MZ_STREAM_PROP_TOTAL_IN_MAX
      · rw [if_pos h2]; simp [h2]
      · rw [if_neg h2]
        by_cases h3 : prop = MZ_STREAM_PROP_TOTAL_OUT
        · rw [if_pos h3]; simp [h3]
        · rw [if_neg h3]
          by_cases h4 : prop = MZ_STREAM_PROP_HEADER_SIZE
          · rw [if_pos h4]; simp [h4]
          · rw [if_neg h4]
            simp [h1, h2, h3, h4, MZ_EXIST_ERROR, MZ_OK]
  · intro h
    subst h
    rfl
  · intro h
    subst h
    rfl
  · intro h1 h2
    unfold mz_stream_libcomp_set_prop_int64
    rw [if_neg h1, if_neg h2]
  · unfold mz_stream_libcomp_set_prop_int64
    by_cases h1 : prop = MZ_STREAM_PROP_COMPRESS_ALGORITHM
    · rw [if_pos h1]; simp [h1]
    · rw [if_neg h1]
      by_cases h2 : prop = MZ_STREAM_PROP_TOTAL_IN_MAX
      · rw [if_pos h2]; simp [h2]
      · rw [if_neg h2]
        simp [h1, h2, MZ_EXIST_ERROR, MZ_OK]

/-- The 16-bit conversion keeps the value modulo 65536 within the signed range. -/
theorem toI16_spec (v : Int) :
    -32768 ≤ toI16 v ∧ toI16 v < 32768 ∧ (toI16 v - v) % 65536 = 0 := by
  unfold toI16
  omega

/-- C20: `set_property(ALGORITHM, v)` returns `MZ_OK` and stores the value of the low 16
bits of `v` read as a signed 16-bit number; for a multiple of 65536 the stored selector is
0 and a following `open` returns `MZ_PARAM_ERROR` and leaves the session as the setter
left it; two values congruent modulo 65536 store the same selector. -/
theorem set_algorithm_low_16_bits {β ε : Type} (E : Engine ε)
    (libcomp : mz_stream_libcomp β ε) (v w mode : Int) :
    mz_stream_libcomp_set_prop_int64 libcomp MZ_STREAM_PROP_COMPRESS_ALGORITHM v
      = (MZ_OK, { libcomp with algorithm := toI16 v }) ∧
    (-32768 ≤ toI16 v ∧ toI16 v < 32768 ∧ (toI16 v - v) % 65536 = 0) ∧
    (v % 65536 = 0 →
      (mz_stream_libcomp_set_prop_int64 libcomp MZ_STREAM_PROP_COMPRESS_ALGORITHM v).2.algorithm
        = 0 ∧
      mz_stream_libcomp_open E
        (mz_stream_libcomp_set_prop_int64 libcomp MZ_STREAM_PROP_COMPRESS_ALGORITHM v).2 mode
        = (MZ_PARAM_ERROR,
            (mz_stream_libcomp_set_prop_int64 libcomp MZ_STREAM_PROP_COMPRESS_ALGORITHM v).2)) ∧
    (v % 65536 = w % 65536 →
      (mz_stream_libcomp_set_prop_int64 libcomp MZ_STREAM_PROP_COMPRESS_ALGORITHM v).2.algorithm
        = (mz_stream_libcomp_set_prop_int64 libcomp
            MZ_STREAM_PROP_COMPRESS_ALGORITHM w).2.algorithm) := by
  have hset : ∀ u : Int,
      mz_stream_libcomp_set_prop_int64 libcomp MZ_STREAM_PROP_COMPRESS_ALGORITHM u
        = (MZ_OK, { libcomp with algorithm := toI16 u }) := by
    intro u
    unfold mz_stream_libcomp_set_prop_int64
    rw [if_pos rfl]
  refine ⟨hset v, toI16_spec v, ?_, ?_⟩
  · intro hv
    have h0 : toI16 v = 0 := by
      unfold toI16
      omega
    rw [hset v]
    refine ⟨h0, ?_⟩
    unfold mz_stream_libcomp_open
    rw [if_pos h0]
  · intro hvw
    rw [hset v, hset w]
    show toI16 v = toI16 w
    unfold toI16
    omega

/-- C20 at concrete values: 65536 and 3 * 65536 store the selector 0 and the following
`open` returns `MZ_PARAM_ERROR`; 65536 + 517 stores 517, the zlib selector; 40000 stores
-25536. -/
theorem set_algorithm_low_16_bits_witness :
    (mz_stream_libcomp_set_prop_int64 sample_encoder
        MZ_STREAM_PROP_COMPRESS_ALGORITHM 65536).2.algorithm = 0 ∧
    (mz_stream_libcomp_open copy_engine
        (mz_stream_libcomp_set_prop_int64 sample_encoder
          MZ_STREAM_PROP_COMPRESS_ALGORITHM (3 * 65536)).2 MZ_OPEN_MODE_WRITE).1
      = MZ_PARAM_ERROR ∧
    (mz_stream_libcomp_set_prop_int64 sample_encoder
        MZ_STREAM_PROP_COMPRESS_ALGORITHM (65536 + 517)).2.algorithm = COMPRESSION_ZLIB ∧
    (mz_stream_libcomp_set_prop_int64 sample_encoder
        MZ_STREAM_PROP_COMPRESS_ALGORITHM 40000).2.algorithm = -25536 := by
  have h1 := (set_algorithm_low_16_bits copy_engine sample_encoder 65536 0
    MZ_OPEN_MODE_WRITE).2.2.1 (by decide)
  have h2 := (set_algorithm_low_16_bits copy_engine sample_encoder (3 * 65536) 0
    MZ_OPEN_MODE_WRITE).2.2.1 (by decide)
  refine ⟨h1.1, ?_, by decide, by decide⟩
  rw [h2.2]

/-! ## Closing a session -/

/-- How a processing step of the deflate drive treats the latched code: a return carries
`MZ_STREAM_ERROR` and latches a non-zero code, the other exits leave the code alone. -/
theorem deflate_step_error {β ε : Type} (E : Engine ε) (libcomp : mz_stream_libcomp β ε)
    (flush : Int) :
    match deflate_step E libcomp flush with
    | deflate_exit.ret code s => code = MZ_STREAM_ERROR ∧ s.error ≠ 0
    | deflate_exit.brk s => s.error = libcomp.error
    | deflate_exit.cond _ s => s.error = libcomp.error := by
  unfold deflate_step
  simp only
  split_ifs with h1 h2
  · rfl
  · exact ⟨rfl, h2⟩
  · rfl

/-- The same for a whole iteration of the deflate drive. -/
theorem deflate_body_error {β ε : Type} (B : Base β) (E : Engine ε)
    (libcomp : mz_stream_libcomp β ε) (flush : Int) :
    match deflate_body B E libcomp flush with
    | deflate_exit.ret code s => code = MZ_STREAM_ERROR ∧ s.error ≠ 0
    | deflate_exit.brk s => s.error = libcomp.error
    | deflate_exit.cond _ s => s.error = libcomp.error := by
  unfold deflate_body
  simp only
  split_ifs with h1 h2
  · exact ⟨rfl, h2⟩
  · have h := deflate_step_error E
      { (mz_stream_libcomp_flush B libcomp).2 with
        cstream := { (mz_stream_libcomp_flush B libcomp).2.cstream with
          dst_size := BUFFER_SIZE, dst_ptr := Ptr.buffer 0 }
        buffer_len := 0 } flush
    have he : (mz_stream_libcomp_flush B libcomp).2.error = libcomp.error := by
      rw [flush_fields]
    revert h
    cases deflate_step E
      { (mz_stream_libcomp_flush B libcomp).2 with
        cstream := { (mz_stream_libcomp_flush B libcomp).2.cstream with
          dst_size := BUFFER_SIZE, dst_ptr := Ptr.buffer 0 }
        buffer_len := 0 } flush with
    | ret code s => exact fun h => h
    | brk s => exact fun h => h.trans he
    | cond err s => exact fun h => h.trans he
  · exact deflate_step_error E libcomp flush

/-- The deflate drive returns `MZ_OK` with the latched code as it was, or
`MZ_STREAM_ERROR` with a non-zero code latched. -/
theorem deflate_loop_error {β ε : Type} (B : Base β) (E : Engine ε) (fuel : Nat)
    (libcomp : mz_stream_libcomp β ε) (flush : Int) (r : Int × mz_stream_libcomp β ε)
    (h : deflate_loop B E fuel libcomp flush = some r) :
    (r.1 = MZ_OK ∧ r.2.error = libcomp.error) ∨ (r.1 = MZ_STREAM_ERROR ∧ r.2.error ≠ 0) := by
  induction fuel generalizing libcomp with
  | zero => simp [deflate_loop] at h
  | succ k ih =>
    have hb := deflate_body_error B E libcomp flush
    unfold deflate_loop at h
    cases hd : deflate_body B E libcomp flush with
    | ret code s =>
      rw [hd] at h hb
      simp only [Option.some.injEq] at h
      rw [← h]
      exact Or.inr hb
    | brk s =>
      rw [hd] at h hb
      simp only [Option.some.injEq] at h
      rw [← h]
      exact Or.inl ⟨rfl, hb⟩
    | cond err s =>
      rw [hd] at h hb
      simp only at h hb
      split_ifs at h with hc
      · rcases ih s h with h1 | h1
        · exact Or.inl ⟨h1.1, h1.2.trans hb⟩
        · exact Or.inr h1
      · simp only [Option.some.injEq] at h
        rw [← h]
        exact Or.inl ⟨rfl, hb⟩

/-- The first part of `close` keeps a non-zero latched code non-zero, and leaves the code
alone in a session that is not in ENCODE mode. -/
theorem close_drain_error {β ε : Type} (B : Base β) (E : Engine ε) (fuel : Nat)
    (libcomp s : mz_stream_libcomp β ε) (h : close_drain B E fuel libcomp = some s) :
    (libcomp.error ≠ 0 → s.error ≠ 0) ∧
    (Int.land libcomp.mode MZ_OPEN_MODE_WRITE = 0 → s = libcomp) := by
  unfold close_drain mz_stream_libcomp_deflate at h
  split_ifs at h with hm
  · cases hl : deflate_loop B E fuel libcomp COMPRESSION_STREAM_FINALIZE with
    | none => simp [hl] at h
    | some p =>
      rw [hl] at h
      simp only [Option.some.injEq] at h
      refine ⟨fun he => ?_, fun h0 => absurd h0 hm⟩
      rw [← h, flush_fields]
      show p.2.error ≠ 0
      rcases deflate_loop_error B E fuel libcomp _ p hl with h1 | h1
      · rw [h1.2]; exact he
      · exact h1.2
  · simp only [Option.some.injEq] at h
    exact ⟨fun he => by rw [← h]; exact he, fun _ => h.symm⟩

/-- C12: whenever `close` returns, it returns `MZ_STREAM_ERROR` if and only if the latched
code it leaves is non-zero and `MZ_OK` otherwise; a code that was latched before stays
latched; the engine is released, and the session is no longer open, so that `is_open`
reports `MZ_STREAM_ERROR`. With an engine that makes progress `close` does return. -/
theorem close_result {β ε : Type} (B : Base β) (E : Engine ε)
    (libcomp : mz_stream_libcomp β ε) :
    (∀ fuel r s, mz_stream_libcomp_close B E fuel libcomp = some (r, s) →
      (r = MZ_STREAM_ERROR ↔ mz_stream_libcomp_error s ≠ 0) ∧
      (r = MZ_OK ↔ mz_stream_libcomp_error s = 0) ∧
      (libcomp.error ≠ 0 → r = MZ_STREAM_ERROR) ∧
      (∃ s1, close_drain B E fuel libcomp = some s1 ∧
        s.cstream.state = E.compression_stream_destroy s1.cstream.state) ∧
      s.initialized = 0 ∧
      mz_stream_libcomp_is_open s = MZ_STREAM_ERROR) ∧
    (∀ m, EngineProgress E m → ∃ N r, ∀ fuel, N ≤ fuel →
      mz_stream_libcomp_close B E fuel libcomp = some r) := by
  constructor
  · intro fuel r s h
    unfold mz_stream_libcomp_close at h
    cases hd : close_drain B E fuel libcomp with
    | none => simp [hd] at h
    | some s1 =>
      rw [hd] at h
      simp only [Option.some.injEq] at h
      have hkeep := (close_drain_error B E fuel libcomp s1 hd).1
      unfold close_finish at h
      simp only at h
      by_cases he : s1.error = Z_OK
      · rw [if_neg (by simp [he])] at h
        simp only [Prod.mk.injEq] at h
        obtain ⟨hr, hs⟩ := h
        have hse : s.error = 0 := by rw [← hs]; exact he
        refine ⟨?_, ?_, ?_, ⟨s1, rfl, by rw [← hs]⟩, by rw [← hs], ?_⟩
        · rw [← hr]
          simp [mz_stream_libcomp_error, hse, MZ_OK, MZ_STREAM_ERROR]
        · rw [← hr]
          simp [mz_stream_libcomp_error, hse]
        · intro h0
          exact absurd he (hkeep h0)
        · rw [← hs]
          rfl
      · rw [if_pos he] at h
        simp only [Prod.mk.injEq] at h
        obtain ⟨hr, hs⟩ := h
        have hse : s.error ≠ 0 := by rw [← hs]; exact he
        refine ⟨?_, ?_, ?_, ⟨s1, rfl, by rw [← hs]⟩, by rw [← hs], ?_⟩
        · rw [← hr]
          simp [mz_stream_libcomp_error, hse]
        · rw [← hr]
          simp [mz_stream_libcomp_error, hse, MZ_OK, MZ_STREAM_ERROR]
        · intro _
          exact hr.symm
        · rw [← hs]
          rfl
  · intro m hp
    exact close_terminates B E m hp libcomp

/-- C12 on the sample ENCODE session over the memory stream and the copying engine:
`close` returns `MZ_OK`, no code being latched, and `is_open` reports `MZ_STREAM_ERROR`
afterwards. -/
theorem close_result_witness :
    (mz_stream_libcomp_close mem_base copy_engine 1 sample_encoder).map
        (fun r => (r.1, mz_stream_libcomp_is_open r.2)) = some (MZ_OK, MZ_STREAM_ERROR) := by
  have h := (close_result mem_base copy_engine sample_encoder).1 1
  have hsome : (mz_stream_libcomp_close mem_base copy_engine 1 sample_encoder).map
      (fun r => mz_stream_libcomp_error r.2) = some 0 := by decide
  cases hc : mz_stream_libcomp_close mem_base copy_engine 1 sample_encoder with
  | none => rw [hc] at hsome; simp at hsome
  | some p =>
    rw [hc] at hsome
    simp only [Option.map_some', Option.some.injEq] at hsome
    obtain ⟨_, h2, _, _, _, h6⟩ := h p.1 p.2 hc
    simp only [Option.map_some', h6, h2.mpr hsome]

/-- C19: for a session in ENCODE mode with no code latched whose finalize drive returns
`MZ_OK`, `close` returns `MZ_OK` and leaves no code latched, whatever the last flush of
the staged bytes returns, a rejected or short write included. -/
theorem close_ignores_last_flush {β ε : Type} (B : Base β) (E : Engine ε) (fuel : Nat)
    (libcomp s1 : mz_stream_libcomp β ε)
    (hmode : Int.land libcomp.mode MZ_OPEN_MODE_WRITE ≠ 0) (herr : libcomp.error = 0)
    (hdrive : mz_stream_libcomp_deflate B E fuel libcomp COMPRESSION_STREAM_FINALIZE
      = some (MZ_OK, s1)) :
    ∃ s, mz_stream_libcomp_close B E fuel libcomp = some (MZ_OK, s) ∧
      mz_stream_libcomp_error s = 0 ∧
      s.base = (B.mz_stream_write s1.base (load s1.buffer 0 s1.buffer_len.toNat)
        s1.buffer_len).2 := by
  have herr1 : s1.error = 0 := by
    rcases deflate_loop_error B E fuel libcomp _ _ hdrive with h1 | h1
    · rw [h1.2]; exact herr
    · have h2 : MZ_OK = MZ_STREAM_ERROR := h1.1
      exact absurd h2 (by decide)
  have herr2 : (mz_stream_libcomp_flush B s1).2.error = 0 := by
    rw [flush_fields]; exact herr1
  have hbase : (mz_stream_libcomp_flush B s1).2.base
      = (B.mz_stream_write s1.base (load s1.buffer 0 s1.buffer_len.toNat) s1.buffer_len).2 := by
    unfold mz_stream_libcomp_flush
    simp only
    split_ifs <;> rfl
  refine ⟨(close_finish E (mz_stream_libcomp_flush B s1).2).2, ?_, ?_, ?_⟩
  · unfold mz_stream_libcomp_close close_drain
    rw [if_pos hmode, hdrive]
    simp only
    unfold close_finish
    simp only
    rw [if_neg (by rw [herr2]; simp [Z_OK])]
  · unfold close_finish
    simp only
    split_ifs <;> exact herr2
  · unfold close_finish
    simp only
    split_ifs <;> exact hbase

/-- C19 on the session whose sink takes no byte: three bytes are staged, the finalize
drive returns `MZ_OK`, the last flush fails (the sink takes 0 of the 3 bytes), and `close`
returns `MZ_OK` with no code latched. -/
theorem close_ignores_last_flush_witness :
    short_drained.buffer_len = 3 ∧
    (mz_stream_libcomp_flush short_base short_drained).1 = MZ_STREAM_ERROR ∧
    (mz_stream_libcomp_close short_base copy_engine 1 short_written).map
        (fun r => (r.1, mz_stream_libcomp_error r.2)) = some (MZ_OK, 0) := by
  obtain ⟨s, h1, h2, _⟩ := close_ignores_last_flush short_base copy_engine 1 short_written
    short_drained (by decide) (by decide) rfl
  refine ⟨by decide, by decide, ?_⟩
  rw [h1]
  simp only [Option.map_some', h2]

/-! ## The counters -/

/-- C15 as stated fails: on an OPEN session a `write` with the size argument -1 lowers
`total_in` from 0 to -1. -/
theorem write_negative_size_lowers_total_in :
    mz_stream_libcomp_is_open failing_encoder = MZ_OK ∧
    failing_encoder.total_in = 0 ∧
    (mz_stream_libcomp_write mem_base fail_engine 1 failing_encoder [] (-1)).map
        (fun r => (r.1, r.2.total_in)) = some (-1, -1) := by
  refine ⟨by decide, by decide, by decide⟩

/-- A processing step of the deflate drive does not lower `total_out`. -/
theorem deflate_step_total_out {β ε : Type} (E : Engine ε) (libcomp : mz_stream_libcomp β ε)
    (flush : Int) : libcomp.total_out ≤ (deflate_step E libcomp flush).session.total_out := by
  unfold deflate_step
  simp only
  split_ifs <;> simp only [deflate_exit.session] <;> omega

/-- An iteration of the deflate drive does not lower `total_out`. -/
theorem deflate_body_total_out {β ε : Type} (B : Base β) (E : Engine ε)
    (libcomp : mz_stream_libcomp β ε) (flush : Int) :
    libcomp.total_out ≤ (deflate_body B E libcomp flush).session.total_out := by
  unfold deflate_body
  simp only
  split_ifs with h1 h2
  · have : (mz_stream_libcomp_flush B libcomp).2.total_out = libcomp.total_out := by
      rw [flush_fields]
    simp only [deflate_exit.session]
    omega
  · have h := deflate_step_total_out E
      { (mz_stream_libcomp_flush B libcomp).2 with
        cstream := { (mz_stream_libcomp_flush B libcomp).2.cstream with
          dst_size := BUFFER_SIZE, dst_ptr := Ptr.buffer 0 }
        buffer_len := 0 } flush
    have : (mz_stream_libcomp_flush B libcomp).2.total_out = libcomp.total_out := by
      rw [flush_fields]
    simp only at h
    omega
  · exact deflate_step_total_out E libcomp flush

/-- The deflate drive does not lower `total_out`. -/
theorem deflate_loop_total_out {β ε : Type} (B : Base β) (E : Engine ε) (fuel : Nat)
    (libcomp : mz_stream_libcomp β ε) (flush : Int) (r : Int × mz_stream_libcomp β ε)
    (h : deflate_loop B E fuel libcomp flush = some r) :
    libcomp.total_out ≤ r.2.total_out := by
  induction fuel generalizing libcomp with
  | zero => simp [deflate_loop] at h
  | succ k ih =>
    have hb := deflate_body_total_out B E libcomp flush
    unfold deflate_loop at h
    cases hd : deflate_body B E libcomp flush with
    | ret code s =>
      rw [hd] at h hb
      simp only [Option.some.injEq] at h
      rw [← h]; exact hb
    | brk s =>
      rw [hd] at h hb
      simp only [Option.some.injEq] at h
      rw [← h]; exact hb
    | cond err s =>
      rw [hd] at h hb
      simp only at h
      split_ifs at h with hc
      · exact le_trans hb (ih s h)
      · simp only [Option.some.injEq] at h
        rw [← h]; exact hb

/-- A processing step of the read loop, with an engine that never raises a cursor and
cursors below 2^31: the cursors stay below 2^31 and no counter is lowered. -/
theorem read_step_counters {β ε : Type} (E : Engine ε) (hE : CursorsLowered E)
    (libcomp : mz_stream_libcomp β ε) (total_out : Int) (out : List Nat)
    (h1 : libcomp.cstream.src_size < 2 ^ 31) (h2 : libcomp.cstream.dst_size < 2 ^ 31) :
    (read_step E libcomp total_out out).2.1.cstream.src_size < 2 ^ 31 ∧
    (read_step E libcomp total_out out).2.1.cstream.dst_size < 2 ^ 31 ∧
    libcomp.total_in ≤ (read_step E libcomp total_out out).2.1.total_in ∧
    libcomp.total_out ≤ (read_step E libcomp total_out out).2.1.total_out := by
  obtain ⟨hs, hd⟩ := hE libcomp.cstream.state libcomp.cstream.src libcomp.cstream.src_size
    libcomp.cstream.dst_size 0
  have hin : (0 : Int) ≤ toI32 (toU64 ((libcomp.cstream.src_size : Int) -
      ((E.compression_stream_process libcomp.cstream.state libcomp.cstream.src
        libcomp.cstream.src_size libcomp.cstream.dst_size 0).src_size : Int))) := by
    rw [toU64_sub _ _ hs (by omega), toI32_of_lt _ (by omega) (by omega)]
    omega
  have hout : (0 : Int) ≤ toI32 (toU64 ((libcomp.cstream.dst_size : Int) -
      ((E.compression_stream_process libcomp.cstream.state libcomp.cstream.src
        libcomp.cstream.src_size libcomp.cstream.dst_size 0).dst_size : Int))) := by
    rw [toU64_sub _ _ hd (by omega), toI32_of_lt _ (by omega) (by omega)]
    omega
  unfold read_step
  simp only
  split_ifs <;> simp only [compression_stream.after] <;>
    refine ⟨by omega, by omega, ?_, ?_⟩ <;> omega

/-- The same for a whole iteration of the read loop, the upstream return values being
in the range of `int32_t`. -/
theorem read_body_counters {β ε : Type} (B : Base β) (E : Engine ε)
    (hE : CursorsLowered E) (hB : ReadsInt32 B)
    (libcomp : mz_stream_libcomp β ε) (total_out : Int) (out : List Nat)
    (h1 : libcomp.cstream.src_size < 2 ^ 31) (h2 : libcomp.cstream.dst_size < 2 ^ 31) :
    (read_body B E libcomp total_out out).2.1.cstream.src_size < 2 ^ 31 ∧
    (read_body B E libcomp total_out out).2.1.cstream.dst_size < 2 ^ 31 ∧
    libcomp.total_in ≤ (read_body B E libcomp total_out out).2.1.total_in ∧
    libcomp.total_out ≤ (read_body B E libcomp total_out out).2.1.total_out := by
  unfold read_body
  simp only
  split_ifs with h0 h3 h4
  · exact ⟨h1, h2, le_refl _, le_refl _⟩
  · exact ⟨h1, h2, le_refl _, le_refl _⟩
  · have hreq : read_request libcomp < 2 ^ 31 := by
      unfold read_request toI32 BUFFER_SIZE
      split_ifs <;> omega
    have hr := hB libcomp.base (read_request libcomp) hreq
    have hu : toU64 (B.mz_stream_read libcomp.base (read_request libcomp)).1
        = (B.mz_stream_read libcomp.base (read_request libcomp)).1.toNat :=
      toU64_of_lt _ (by omega) (by omega)
    exact read_step_counters E hE
      (read_attach (read_refill libcomp (B.mz_stream_read libcomp.base (read_request libcomp)))
        (B.mz_stream_read libcomp.base (read_request libcomp)).1) total_out out
      (by show toU64 _ < 2 ^ 31
          rw [hu]; omega)
      h2
  · exact read_step_counters E hE libcomp total_out out h1 h2

/-- The read loop, under the same conditions, lowers no counter. -/
theorem read_loop_counters {β ε : Type} (B : Base β) (E : Engine ε)
    (hE : CursorsLowered E) (hB : ReadsInt32 B) (fuel : Nat)
    (libcomp : mz_stream_libcomp β ε) (total_out : Int) (out : List Nat)
    (r : mz_stream_libcomp β ε × Int × List Nat)
    (h1 : libcomp.cstream.src_size < 2 ^ 31) (h2 : libcomp.cstream.dst_size < 2 ^ 31)
    (h : read_loop B E fuel libcomp total_out out = some r) :
    libcomp.total_in ≤ r.1.total_in ∧ libcomp.total_out ≤ r.1.total_out := by
  induction fuel generalizing libcomp total_out out with
  | zero => simp [read_loop] at h
  | succ k ih =>
    obtain ⟨b1, b2, b3, b4⟩ := read_body_counters B E hE hB libcomp total_out out h1 h2
    unfold read_loop at h
    simp only at h
    split_ifs at h with hc
    · obtain ⟨i1, i2⟩ := ih _ _ _ b1 b2 h
      exact ⟨le_trans b3 i1, le_trans b4 i2⟩
    · simp only [Option.some.injEq] at h
      rw [← h]
      exact ⟨b3, b4⟩

/-- C15 amended: a `write` with a size argument that is not negative adds it to `total_in`
and does not lower `total_out`; a `read` with a size argument that is not negative, with
an engine that never raises a cursor and fewer than 2^31 bytes of input pending, lowers
neither counter; `set_property` leaves both counters as they are (and `get_property`
does not change the session at all). -/
theorem counters_not_lowered {β ε : Type} (B : Base β) (E : Engine ε)
    (libcomp : mz_stream_libcomp β ε) :
    (∀ fuel buf size r, 0 ≤ size →
      mz_stream_libcomp_write B E fuel libcomp buf size = some r →
      r.2.total_in = libcomp.total_in + size ∧ libcomp.total_in ≤ r.2.total_in ∧
      libcomp.total_out ≤ r.2.total_out) ∧
    (CursorsLowered E → ReadsInt32 B → libcomp.cstream.src_size < 2 ^ 31 →
      ∀ fuel size r, 0 ≤ size → size < 2 ^ 31 →
      mz_stream_libcomp_read B E fuel libcomp size = some r →
      libcomp.total_in ≤ r.2.2.total_in ∧ libcomp.total_out ≤ r.2.2.total_out) ∧
    (∀ prop value,
      (mz_stream_libcomp_set_prop_int64 libcomp prop value).2.total_in = libcomp.total_in ∧
      (mz_stream_libcomp_set_prop_int64 libcomp prop value).2.total_out
        = libcomp.total_out) := by
  refine ⟨?_, ?_, ?_⟩
  · intro fuel buf size r hsize h
    obtain ⟨_, h2⟩ := write_result B E fuel libcomp buf size r h
    refine ⟨h2, by omega, ?_⟩
    unfold mz_stream_libcomp_write mz_stream_libcomp_deflate at h
    simp only at h
    cases hd : deflate_loop B E fuel
        { libcomp with cstream := { libcomp.cstream with src := buf
                                                         src_size := toU64 size } } 0 with
    | none => simp [hd] at h
    | some p =>
      rw [hd] at h
      simp only [Option.some.injEq] at h
      have ht := deflate_loop_total_out B E fuel _ 0 p hd
      rw [← h]
      exact ht
  · intro hE hB hsrc fuel size r h0 h1 h
    unfold mz_stream_libcomp_read at h
    simp only at h
    cases hl : read_loop B E fuel
        { libcomp with cstream := { libcomp.cstream with dst_ptr := Ptr.buf 0
                                                         dst_size := toU64 size } } 0 [] with
    | none => simp [hl] at h
    | some p =>
      rw [hl] at h
      simp only at h
      have hu : toU64 size = size.toNat := toU64_of_lt _ h0 (by omega)
      have hc := read_loop_counters B E hE hB fuel
        { libcomp with cstream := { libcomp.cstream with dst_ptr := Ptr.buf 0
                                                         dst_size := toU64 size } }
        0 [] p hsrc
        (by show toU64 size < 2 ^ 31
            rw [hu]; omega) hl
      split_ifs at h <;> simp only [Option.some.injEq] at h <;> rw [← h] <;> exact hc
  · intro prop value
    unfold mz_stream_libcomp_set_prop_int64
    split_ifs <;> exact ⟨rfl, rfl⟩

/-- The copying engine never raises a cursor. -/
theorem copy_cursors_lowered : CursorsLowered copy_engine := by
  intro st src n d fl
  simp only [copy_engine]
  omega

/-- The upstream reads of the memory stream return values in the range of `int32_t`. -/
theorem mem_reads_int32 : ReadsInt32 mem_base := by
  intro st req hreq
  simp only [mem_base]
  omega

/-- C15 amended, on the sample DECODE session over the copying engine: a `read` of three
bytes returns, lowers neither counter, and leaves `total_in` at 3. -/
theorem counters_not_lowered_witness :
    ∃ r, mz_stream_libcomp_read mem_base copy_engine 2 copy_decoder 3 = some r ∧
      copy_decoder.total_in ≤ r.2.2.total_in ∧ copy_decoder.total_out ≤ r.2.2.total_out ∧
      r.2.2.total_in = 3 := by
  have hsome : (mz_stream_libcomp_read mem_base copy_engine 2 copy_decoder 3).map
      (fun r => r.2.2.total_in) = some 3 := by decide
  cases hr : mz_stream_libcomp_read mem_base copy_engine 2 copy_decoder 3 with
  | none => rw [hr] at hsome; simp at hsome
  | some r =>
    rw [hr] at hsome
    simp only [Option.map_some', Option.some.injEq] at hsome
    obtain ⟨h1, h2⟩ := (counters_not_lowered mem_base copy_engine copy_decoder).2.1
      copy_cursors_lowered mem_reads_int32 (by decide) 2 3 r (by decide) (by decide) hr
    exact ⟨r, rfl, h1, h2, hsome⟩

/-! ## A read of no byte -/

/-- C17 as stated fails: on the DECODE session over the hoarding engine, whose upstream
holds five bytes, a `read` with size 0 returns 0 but has pulled the five bytes from the
upstream and made a processing step: the upstream is empty, the engine holds the five
bytes, and `total_in` went from 0 to 5. -/
theorem read_size_zero_pulls_and_steps :
    hoard_decoder.base.input = [1, 2, 3, 4, 5] ∧ hoard_decoder.total_in = 0 ∧
    (mz_stream_libcomp_read mem_base hoard_engine 1 hoard_decoder 0).map
        (fun r => (r.1, r.2.1, r.2.2.base.input, r.2.2.cstream.state.pending, r.2.2.total_in))
      = some (0, [], [], [1, 2, 3, 4, 5], 5) := by
  refine ⟨by decide, by decide, by decide⟩

/-- An iteration of the read loop entered with no room in the caller's buffer, the engine
making no room, leaves no room and the local `total_out` as it was. -/
theorem read_body_no_room {β ε : Type} (B : Base β) (E : Engine ε)
    (hE : ∀ st src n fl, (E.compression_stream_process st src n 0 fl).dst_size = 0)
    (libcomp : mz_stream_libcomp β ε) (out : List Nat)
    (h0 : libcomp.cstream.dst_size = 0) :
    (read_body B E libcomp 0 out).2.1.cstream.dst_size = 0 ∧
    (read_body B E libcomp 0 out).2.2.1 = 0 := by
  have hstep : ∀ s : mz_stream_libcomp β ε, s.cstream.dst_size = 0 →
      (read_step E s 0 out).2.1.cstream.dst_size = 0 ∧ (read_step E s 0 out).2.2.1 = 0 := by
    intro s hs
    have hd := hE s.cstream.state s.cstream.src s.cstream.src_size 0
    unfold read_step
    simp only [hs, compression_stream.after, hd]
    split_ifs <;> exact ⟨rfl, rfl⟩
  unfold read_body
  simp only
  split_ifs with h1 h2 h3
  · exact ⟨h0, rfl⟩
  · exact ⟨h0, rfl⟩
  · exact hstep _ h0
  · exact hstep _ h0

/-- C17 amended: a `read` with size 0, the engine making no room where it is offered
none, runs the body of the loop exactly once and returns what that iteration leaves: the
latched code if there is one, else 0. When the engine's input cursor is empty the
iteration asks the upstream for `bytes_to_read` bytes; when it is not, the iteration
makes a processing step on the pending input. -/
theorem read_size_zero_one_iteration {β ε : Type} (B : Base β) (E : Engine ε)
    (libcomp : mz_stream_libcomp β ε) (fuel : Nat)
    (hE : ∀ st src n fl, (E.compression_stream_process st src n 0 fl).dst_size = 0) :
    mz_stream_libcomp_read B E (fuel + 1) libcomp 0
      = some
          (if (read_body B E
                { libcomp with cstream := { libcomp.cstream with dst_ptr := Ptr.buf 0
                                                                 dst_size := 0 } }
                0 []).2.1.error ≠ 0 then
              (read_body B E
                { libcomp with cstream := { libcomp.cstream with dst_ptr := Ptr.buf 0
                                                                 dst_size := 0 } }
                0 []).2.1.error
            else 0,
            (read_body B E
              { libcomp with cstream := { libcomp.cstream with dst_ptr := Ptr.buf 0
                                                               dst_size := 0 } }
              0 []).2.2.2,
            (read_body B E
              { libcomp with cstream := { libcomp.cstream with dst_ptr := Ptr.buf 0
                                                               dst_size := 0 } }
              0 []).2.1) ∧
    (libcomp.cstream.src_size = 0 →
      (read_body B E
        { libcomp with cstream := { libcomp.cstream with dst_ptr := Ptr.buf 0
                                                         dst_size := 0 } }
        0 []).2.1.base
        = (B.mz_stream_read libcomp.base (read_request libcomp)).2.2) ∧
    (libcomp.cstream.src_size ≠ 0 →
      (read_body B E
        { libcomp with cstream := { libcomp.cstream with dst_ptr := Ptr.buf 0
                                                         dst_size := 0 } }
        0 []).2.1.cstream.state
        = (E.compression_stream_process libcomp.cstream.state libcomp.cstream.src
            libcomp.cstream.src_size 0 0).state) := by
  obtain ⟨hd, ht⟩ := read_body_no_room B E hE
    { libcomp with cstream := { libcomp.cstream with dst_ptr := Ptr.buf 0, dst_size := 0 } }
    [] rfl
  refine ⟨?_, ?_, ?_⟩
  · have hu : toU64 0 = 0 := by decide
    unfold mz_stream_libcomp_read
    simp only [hu]
    unfold read_loop
    simp only at hd ht ⊢
    rw [if_neg (by rw [hd]; simp)]
    simp only
    split_ifs with hc
    · rfl
    · rw [ht]
  · intro h0
    unfold read_body
    simp only
    rw [if_pos h0]
    split_ifs
    · rfl
    · rfl
    · unfold read_step
      simp only
      split_ifs <;> rfl
  · intro h0
    unfold read_body
    simp only
    rw [if_neg h0]
    unfold read_step
    simp only
    split_ifs <;> rfl

/-- The hoarding engine makes no room where it is offered none. -/
theorem hoard_no_room :
    ∀ st src n fl, (hoard_engine.compression_stream_process st src n 0 fl).dst_size = 0 := by
  intro st src n fl
  simp only [hoard_engine]
  split_ifs <;> simp

/-- C17 amended, on the DECODE session over the hoarding engine: the `read` with size 0
returns 0 after one iteration, in which the upstream was asked and emptied. -/
theorem read_size_zero_one_iteration_witness :
    (mz_stream_libcomp_read mem_base hoard_engine 1 hoard_decoder 0).map
        (fun r => (r.1, r.2.2.base.input)) = some (0, []) ∧
    (mem_base.mz_stream_read hoard_decoder.base (read_request hoard_decoder)).2.2.input
      = [] := by
  have h := (read_size_zero_one_iteration mem_base hoard_engine hoard_decoder 0
    hoard_no_room).1
  rw [h]
  exact ⟨by decide, by decide⟩

/-- The length of a stretch of a byte array. -/
theorem load_length (mem : Nat → Nat) (off len : Nat) : (load mem off len).length = len := by
  simp [load]

/-- The fields of the session a processing step of the deflate drive ends with, whatever
the status. -/
theorem deflate_step_fields {β ε : Type} (E : Engine ε) (libcomp : mz_stream_libcomp β ε)
    (flush : Int) :
    (deflate_step E libcomp flush).session.mode = libcomp.mode ∧
    (deflate_step E libcomp flush).session.base = libcomp.base ∧
    (deflate_step E libcomp flush).session.buffer_len
      = (deflate_account E libcomp flush).buffer_len ∧
    (deflate_step E libcomp flush).session.cstream.dst_size
      = (deflate_account E libcomp flush).cstream.dst_size ∧
    (deflate_step E libcomp flush).session.total_out
      = (deflate_account E libcomp flush).total_out := by
  unfold deflate_step deflate_account
  simp only
  split_ifs <;> exact ⟨rfl, rfl, rfl, rfl, rfl⟩

/-- The byte count of a step that fits the staging buffer is exact. -/
theorem staged_count (bl : Int) (d d2 : Nat) (h0 : 0 ≤ bl) (h1 : d2 ≤ d)
    (h2 : bl + d = 32767) :
    ((toU32 (toU64 ((d : Int) - (d2 : Int))) : Nat) : Int) = (d : Int) - (d2 : Int) ∧
    toI32 (bl + ((toU32 (toU64 ((d : Int) - (d2 : Int))) : Nat) : Int))
      = bl + ((d : Int) - (d2 : Int)) := by
  have hd : d < 2 ^ 64 := by omega
  have h3 : toU64 ((d : Int) - (d2 : Int)) = d - d2 := toU64_sub d d2 h1 hd
  have h4 : toU32 ((d - d2 : Nat) : Int) = d - d2 := by
    rw [toU32_of_lt]
    · exact Int.toNat_ofNat _
    · omega
    · omega
  rw [h3, h4]
  have h5 : ((d - d2 : Nat) : Int) = (d : Int) - (d2 : Int) := by omega
  rw [h5]
  refine ⟨rfl, ?_⟩
  apply toI32_of_lt
  · omega
  · omega

/-- A processing step on a session whose staging buffer and output capacity add up to
the capacity keeps the accounting. -/
theorem staging_step {β ε : Type} (E : Engine ε) (log : β → List Nat) (F0 : Nat)
    (hE : OutputBounded E) (libcomp : mz_stream_libcomp β ε) (flush : Int)
    (hm : Int.land libcomp.mode MZ_OPEN_MODE_WRITE ≠ 0)
    (h0 : 0 ≤ libcomp.buffer_len)
    (hsum : libcomp.buffer_len + libcomp.cstream.dst_size = 32767)
    (hfw : ((log libcomp.base).length : Int) + libcomp.buffer_len
      = F0 + libcomp.total_out) :
    StagingInv log F0 (deflate_step E libcomp flush).session ∧
    (deflate_step E libcomp flush).session.buffer_len
      + (deflate_step E libcomp flush).session.cstream.dst_size = 32767 := by
  obtain ⟨e1, e2, e3, e4, e5⟩ := deflate_step_fields E libcomp flush
  have hr := hE libcomp.cstream.state libcomp.cstream.src libcomp.cstream.src_size
    libcomp.cstream.dst_size flush
  obtain ⟨c1, c2⟩ := staged_count libcomp.buffer_len libcomp.cstream.dst_size _ h0 hr hsum
  have e3b : (deflate_step E libcomp flush).session.buffer_len
      = libcomp.buffer_len + ((libcomp.cstream.dst_size : Int) -
          ((E.compression_stream_process libcomp.cstream.state libcomp.cstream.src
            libcomp.cstream.src_size libcomp.cstream.dst_size flush).dst_size : Int)) := by
    rw [e3]; exact c2
  have e4b : (deflate_step E libcomp flush).session.cstream.dst_size
      = (E.compression_stream_process libcomp.cstream.state libcomp.cstream.src
            libcomp.cstream.src_size libcomp.cstream.dst_size flush).dst_size := by
    rw [e4]; rfl
  have e5b : (deflate_step E libcomp flush).session.total_out
      = libcomp.total_out + ((libcomp.cstream.dst_size : Int) -
          ((E.compression_stream_process libcomp.cstream.state libcomp.cstream.src
            libcomp.cstream.src_size libcomp.cstream.dst_size flush).dst_size : Int)) := by
    rw [e5]
    show libcomp.total_out + _ = _
    rw [c1]
  have hsum2 : (deflate_step E libcomp flush).session.buffer_len
      + (deflate_step E libcomp flush).session.cstream.dst_size = 32767 := by
    rw [e3b, e4b]; omega
  refine ⟨⟨by rw [e1]; exact hm, ?_, ?_, Or.inl hsum2, ?_⟩, hsum2⟩
  · rw [e3b]; omega
  · rw [e3b]; omega
  · rw [e2, e3b, e5b]; omega

/-- An iteration of the deflate drive over a sink that accepts every write keeps the
accounting, and leaves the staging buffer and the output capacity adding up to the
capacity. -/
theorem staging_body {β ε : Type} (B : Base β) (E : Engine ε) (log : β → List Nat)
    (F0 : Nat) (hB : AcceptsWrites B log) (hE : OutputBounded E)
    (libcomp : mz_stream_libcomp β ε) (flush : Int) (hs : StagingInv log F0 libcomp) :
    StagingInv log F0 (deflate_body B E libcomp flush).session ∧
    (deflate_body B E libcomp flush).session.buffer_len
      + (deflate_body B E libcomp flush).session.cstream.dst_size = 32767 := by
  obtain ⟨hm, h0, h1, hsum, hfw⟩ := hs
  unfold deflate_body
  simp only
  by_cases hd : libcomp.cstream.dst_size = 0
  · rw [if_pos hd]
    obtain ⟨hw1, hw2⟩ := hB libcomp.base (load libcomp.buffer 0 libcomp.buffer_len.toNat)
      libcomp.buffer_len
    have hf1 : (mz_stream_libcomp_flush B libcomp).1 = MZ_OK := by
      unfold mz_stream_libcomp_flush
      simp only
      rw [if_neg (by simp [hw1])]
    have hf2 : (mz_stream_libcomp_flush B libcomp).2 =
        { libcomp with base := (B.mz_stream_write libcomp.base
            (load libcomp.buffer 0 libcomp.buffer_len.toNat) libcomp.buffer_len).2 } := by
      unfold mz_stream_libcomp_flush
      simp only
      rw [if_neg (by simp [hw1])]
    rw [if_neg (by simp [hf1]), hf2]
    apply staging_step E log F0 hE
    · exact hm
    · exact le_refl _
    · simp [BUFFER_SIZE]
    · show ((log (B.mz_stream_write libcomp.base
        (load libcomp.buffer 0 libcomp.buffer_len.toNat) libcomp.buffer_len).2).length : Int)
          + 0 = F0 + libcomp.total_out
      rw [hw2, List.length_append, load_length]
      have := Int.toNat_of_nonneg h0
      push_cast
      omega
  · rw [if_neg hd]
    have hsum2 : libcomp.buffer_len + libcomp.cstream.dst_size = 32767 := by
      rcases hsum with h | h
      · exact h
      · exact absurd h.1 hd
    exact staging_step E log F0 hE libcomp flush hm h0 hsum2 hfw

/-- The deflate drive keeps the accounting. -/
theorem staging_loop {β ε : Type} (B : Base β) (E : Engine ε) (log : β → List Nat)
    (F0 : Nat) (hB : AcceptsWrites B log) (hE : OutputBounded E) (fuel : Nat)
    (libcomp : mz_stream_libcomp β ε) (flush : Int) (r : Int × mz_stream_libcomp β ε)
    (hs : StagingInv log F0 libcomp)
    (h : deflate_loop B E fuel libcomp flush = some r) : StagingInv log F0 r.2 := by
  induction fuel generalizing libcomp with
  | zero => simp [deflate_loop] at h
  | succ k ih =>
    have hb := (staging_body B E log F0 hB hE libcomp flush hs).1
    unfold deflate_loop at h
    cases hd : deflate_body B E libcomp flush with
    | ret code s =>
      rw [hd] at h hb
      simp only [Option.some.injEq] at h
      rw [← h]; exact hb
    | brk s =>
      rw [hd] at h hb
      simp only [Option.some.injEq] at h
      rw [← h]; exact hb
    | cond err s =>
      rw [hd] at h hb
      simp only at h
      split_ifs at h with hc
      · exact ih s hb h
      · simp only [Option.some.injEq] at h
        rw [← h]; exact hb

/-- A `write` keeps the accounting. -/
theorem staging_write {β ε : Type} (B : Base β) (E : Engine ε) (log : β → List Nat)
    (F0 : Nat) (hB : AcceptsWrites B log) (hE : OutputBounded E) (fuel : Nat)
    (libcomp : mz_stream_libcomp β ε) (buf : List Nat) (size : Int)
    (r : Int × mz_stream_libcomp β ε) (hs : StagingInv log F0 libcomp)
    (h : mz_stream_libcomp_write B E fuel libcomp buf size = some r) :
    StagingInv log F0 r.2 := by
  unfold mz_stream_libcomp_write mz_stream_libcomp_deflate at h
  simp only at h
  cases hd : deflate_loop B E fuel
      { libcomp with cstream := { libcomp.cstream with src := buf, src_size := toU64 size } } 0 with
  | none => simp [hd] at h
  | some p =>
    rw [hd] at h
    simp only [Option.some.injEq] at h
    have hs2 : StagingInv log F0
        { libcomp with
          cstream := { libcomp.cstream with src := buf, src_size := toU64 size } } := hs
    have hp := staging_loop B E log F0 hB hE fuel
      { libcomp with cstream := { libcomp.cstream with src := buf, src_size := toU64 size } }
      0 p hs2 hd
    rw [← h]
    exact hp

/-- A sequence of `write` calls keeps the accounting. -/
theorem staging_write_all {β ε : Type} (B : Base β) (E : Engine ε) (log : β → List Nat)
    (F0 : Nat) (hB : AcceptsWrites B log) (hE : OutputBounded E) (fuel : Nat)
    (ws : List (List Nat × Int)) (libcomp : mz_stream_libcomp β ε)
    (r : List Int × mz_stream_libcomp β ε) (hs : StagingInv log F0 libcomp)
    (h : write_all B E fuel libcomp ws = some r) : StagingInv log F0 r.2 := by
  induction ws generalizing libcomp r with
  | nil =>
    simp only [write_all, Option.some.injEq] at h
    rw [← h]; exact hs
  | cons w rest ih =>
    unfold write_all at h
    cases hw : mz_stream_libcomp_write B E fuel libcomp w.1 w.2 with
    | none => simp [hw] at h
    | some p =>
      rw [hw] at h
      simp only at h
      have hp := staging_write B E log F0 hB hE fuel libcomp w.1 w.2 p hs hw
      cases hr : write_all B E fuel p.2 rest with
      | none => simp [hr] at h
      | some q =>
        rw [hr] at h
        simp only [Option.some.injEq] at h
        rw [← h]
        exact ih p.2 q hp hr

/-- After `close` the bytes forwarded since the opening are `total_out`. -/
theorem staging_close {β ε : Type} (B : Base β) (E : Engine ε) (log : β → List Nat)
    (F0 : Nat) (hB : AcceptsWrites B log) (hE : OutputBounded E) (fuel : Nat)
    (libcomp : mz_stream_libcomp β ε) (r : Int × mz_stream_libcomp β ε)
    (hs : StagingInv log F0 libcomp)
    (h : mz_stream_libcomp_close B E fuel libcomp = some r) :
    ((log r.2.base).length : Int) = F0 + r.2.total_out := by
  unfold mz_stream_libcomp_close close_drain mz_stream_libcomp_deflate at h
  rw [if_pos hs.1] at h
  cases hd : deflate_loop B E fuel libcomp COMPRESSION_STREAM_FINALIZE with
  | none => simp [hd] at h
  | some p =>
    rw [hd] at h
    simp only [Option.some.injEq] at h
    obtain ⟨hm, h0, h1, hsum, hfw⟩ := staging_loop B E log F0 hB hE fuel _ _ p hs hd
    obtain ⟨hw1, hw2⟩ := hB p.2.base (load p.2.buffer 0 p.2.buffer_len.toNat) p.2.buffer_len
    have hf2 : (mz_stream_libcomp_flush B p.2).2 =
        { p.2 with base := (B.mz_stream_write p.2.base
            (load p.2.buffer 0 p.2.buffer_len.toNat) p.2.buffer_len).2 } := by
      unfold mz_stream_libcomp_flush
      simp only
      rw [if_neg (by simp [hw1])]
    rw [hf2] at h
    rw [← h]
    unfold close_finish
    simp only
    have hlen : ((log (B.mz_stream_write p.2.base
        (load p.2.buffer 0 p.2.buffer_len.toNat) p.2.buffer_len).2).length : Int)
          = F0 + p.2.total_out := by
      rw [hw2, List.length_append, load_length]
      have := Int.toNat_of_nonneg h0
      push_cast
      omega
    split_ifs <;> exact hlen

/-- C18: staging-buffer accounting in ENCODE mode. Take a sink that accepts every write in
full, an engine that never produces more than the output capacity it is offered, and a
freshly created session that is opened with the ENCODE bit. The opened session satisfies
the accounting `StagingInv` (`0 ≤ buffer_len ≤ 32767`, the bytes forwarded so far plus
`buffer_len` are `total_out`); every iteration of the deflate drive, each of which ends
with one engine step, keeps it and leaves `buffer_len` plus the remaining output capacity
at 32767; every sequence of `write` calls keeps it; after the `close` that follows, the
number of bytes forwarded since the opening is what `get_property TOTAL_OUT` reports.
With an engine that makes progress the writes and the `close` do return. -/
theorem staging_accounting {β ε : Type} (B : Base β) (E : Engine ε) (log : β → List Nat)
    (hB : AcceptsWrites B log) (hE : OutputBounded E) (sink : β) (algorithm mode : Int)
    (hmode : Int.land mode MZ_OPEN_MODE_WRITE ≠ 0)
    (hopen : (mz_stream_libcomp_open E (fresh_session E sink algorithm) mode).1 = MZ_OK) :
    StagingInv log (log sink).length
      (mz_stream_libcomp_open E (fresh_session E sink algorithm) mode).2 ∧
    (∀ (libcomp : mz_stream_libcomp β ε) (flush : Int),
      StagingInv log (log sink).length libcomp →
      StagingInv log (log sink).length (deflate_body B E libcomp flush).session ∧
      0 ≤ (deflate_body B E libcomp flush).session.buffer_len ∧
      (deflate_body B E libcomp flush).session.buffer_len ≤ 32767 ∧
      (deflate_body B E libcomp flush).session.buffer_len
        + (deflate_body B E libcomp flush).session.cstream.dst_size = 32767 ∧
      ((log (deflate_body B E libcomp flush).session.base).length : Int)
        + (deflate_body B E libcomp flush).session.buffer_len
        = (log sink).length + (deflate_body B E libcomp flush).session.total_out) ∧
    (∀ fuel ws r,
      write_all B E fuel (mz_stream_libcomp_open E (fresh_session E sink algorithm) mode).2 ws
        = some r →
      StagingInv log (log sink).length r.2 ∧
      ∀ fuel2 rc s3 value, mz_stream_libcomp_close B E fuel2 r.2 = some (rc, s3) →
        mz_stream_libcomp_get_prop_int64 s3 MZ_STREAM_PROP_TOTAL_OUT value
          = (MZ_OK, ((log s3.base).length : Int) - (log sink).length)) ∧
    (∀ m, EngineProgress E m → ∀ ws, ∃ N r r2, ∀ fuel, N ≤ fuel →
      write_all B E fuel (mz_stream_libcomp_open E (fresh_session E sink algorithm) mode).2 ws
        = some r ∧
      mz_stream_libcomp_close B E fuel r.2 = some r2) := by
  have hinv : StagingInv log (log sink).length
      (mz_stream_libcomp_open E (fresh_session E sink algorithm) mode).2 := by
    unfold mz_stream_libcomp_open at hopen ⊢
    simp only at hopen ⊢
    split_ifs at hopen ⊢ with h1 h2
    · have h : MZ_PARAM_ERROR = MZ_OK := hopen
      exact absurd h (by decide)
    · have h : MZ_STREAM_ERROR = MZ_OK := hopen
      exact absurd h (by decide)
    · have hlen : (0 : Int) ≤ 32767 := by decide
      refine ⟨hmode, le_refl _, hlen, Or.inr ⟨rfl, rfl⟩, ?_⟩
      show ((log sink).length : Int) + 0 = (log sink).length + 0
      rfl
  refine ⟨hinv, ?_, ?_, ?_⟩
  · intro libcomp flush hs
    obtain ⟨hb, hsum⟩ := staging_body B E log _ hB hE libcomp flush hs
    exact ⟨hb, hb.2.1, hb.2.2.1, hsum, hb.2.2.2.2⟩
  · intro fuel ws r hw
    have hr := staging_write_all B E log _ hB hE fuel ws _ r hinv hw
    refine ⟨hr, ?_⟩
    intro fuel2 rc s3 value hc
    have hlen := staging_close B E log _ hB hE fuel2 r.2 (rc, s3) hr hc
    simp only at hlen
    unfold mz_stream_libcomp_get_prop_int64
    rw [if_neg (by decide), if_neg (by decide), if_pos rfl, hlen]
    congr 1
    omega
  · intro m hp ws
    obtain ⟨N1, r, h1⟩ := write_all_terminates B E m hp
      (mz_stream_libcomp_open E (fresh_session E sink algorithm) mode).2 ws
    obtain ⟨N2, r2, h2⟩ := close_terminates B E m hp r.2
    exact ⟨max N1 N2, r, r2, fun fuel hf =>
      ⟨h1 fuel (le_trans (le_max_left _ _) hf), h2 fuel (le_trans (le_max_right _ _) hf)⟩⟩

/-- The copying engine never produces more than the capacity it is offered. -/
theorem copy_output_bounded : OutputBounded copy_engine := by
  intro st src n d fl
  simp only [copy_engine]
  omega

/-- C18 on the memory stream and the copying engine: a fresh zlib session over the empty
sink is opened in write mode; whatever is written to it, the accounting holds, and after
`close` the length of the sink's output is what `TOTAL_OUT` reports. -/
theorem staging_accounting_witness :
    (mz_stream_libcomp_open copy_engine
      (fresh_session copy_engine ({ input := [], output := [] } : mem_stream)
        COMPRESSION_ZLIB) MZ_OPEN_MODE_WRITE).1 = MZ_OK ∧
    ∀ fuel ws r,
      write_all mem_base copy_engine fuel
        (mz_stream_libcomp_open copy_engine
          (fresh_session copy_engine ({ input := [], output := [] } : mem_stream)
            COMPRESSION_ZLIB) MZ_OPEN_MODE_WRITE).2 ws = some r →
      StagingInv (fun st => st.output) 0 r.2 ∧
      ∀ fuel2 rc s3 value, mz_stream_libcomp_close mem_base copy_engine fuel2 r.2
          = some (rc, s3) →
        mz_stream_libcomp_get_prop_int64 s3 MZ_STREAM_PROP_TOTAL_OUT value
          = (MZ_OK, ((s3.base.output).length : Int) - (0 : Nat)) :=
  ⟨rfl, (staging_accounting mem_base copy_engine (fun st => st.output) mem_accepts
    copy_output_bounded { input := [], output := [] } COMPRESSION_ZLIB MZ_OPEN_MODE_WRITE
    (by decide) rfl).2.2.1⟩

/-- A sequence of `read` calls returns when the read loop makes progress. -/
theorem read_all_terminates {β ε : Type} (B : Base β) (E : Engine ε)
    (μ : mz_stream_libcomp β ε → Nat) (hp : ReadProgress B E μ)
    (libcomp : mz_stream_libcomp β ε) (sizes : List Int) :
    ∃ N r, ∀ fuel, N ≤ fuel → read_all B E fuel libcomp sizes = some r := by
  induction sizes generalizing libcomp with
  | nil => exact ⟨0, ([], libcomp), fun _ _ => rfl⟩
  | cons w rest ih =>
    obtain ⟨N1, p, h1⟩ := read_terminates B E μ hp libcomp w
    obtain ⟨N2, q, h2⟩ := ih p.2.2
    refine ⟨max N1 N2, ((p.1, p.2.1) :: q.1, q.2), fun fuel hf => ?_⟩
    unfold read_all
    rw [h1 fuel (le_trans (le_max_left _ _) hf)]
    simp only
    rw [h2 fuel (le_trans (le_max_right _ _) hf)]

/-- The bytes pulled according to a record with one more read. -/
theorem pulled_append (record : List (Int × Int)) (req ret : Int) :
    pulled (record ++ [(req, ret)]) = pulled record + max ret 0 := by
  simp [pulled, List.sum_append]

/-- The size a refill asks for under a limit `K > 0` not yet exceeded. -/
theorem read_request_limited {β ε : Type} (libcomp : mz_stream_libcomp β ε) (K : Int)
    (hK : 0 < K) (hm : libcomp.max_total_in = K) (ht : libcomp.total_in ≤ K) :
    read_request libcomp = min 32767 (K - libcomp.total_in) := by
  unfold read_request BUFFER_SIZE
  rw [hm]
  by_cases h : K - libcomp.total_in < ((32767 : Nat) : Int)
  · rw [if_pos ⟨hK, h⟩, toI32_of_lt _ (by omega) (by omega)]
    have h2 : K - libcomp.total_in < 32767 := by omega
    omega
  · rw [if_neg (fun hc => h hc.2)]
    have h2 : ¬ K - libcomp.total_in < 32767 := by omega
    omega

/-- A processing step of the read loop keeps the input quota accounting, when a failed
step takes no input. -/
theorem read_step_quota {β ε : Type} (E : Engine ε) (hE1 : InputBounded E)
    (hE2 : FailedStepTakesNothing E) (K T0 : Int)
    (libcomp : mz_stream_libcomp (β × List (Int × Int)) ε) (total_out : Int)
    (out : List Nat) (hs : PullInv K T0 libcomp) :
    PullInv K T0 (read_step E libcomp total_out out).2.1 ∧
    (read_step E libcomp total_out out).2.1.base = libcomp.base := by
  obtain ⟨hm, hp, hk, ht, hn⟩ := hs
  have h1 := hE1 libcomp.cstream.state libcomp.cstream.src libcomp.cstream.src_size
    libcomp.cstream.dst_size 0
  have h2 := hE2 libcomp.cstream.state libcomp.cstream.src libcomp.cstream.src_size
    libcomp.cstream.dst_size 0
  have hin : toI32 (toU64 ((libcomp.cstream.src_size : Int) -
      ((E.compression_stream_process libcomp.cstream.state libcomp.cstream.src
        libcomp.cstream.src_size libcomp.cstream.dst_size 0).src_size : Int)))
      = (libcomp.cstream.src_size : Int) -
      ((E.compression_stream_process libcomp.cstream.state libcomp.cstream.src
        libcomp.cstream.src_size libcomp.cstream.dst_size 0).src_size : Int) := by
    have hlt : libcomp.cstream.src_size < 2 ^ 64 := by omega
    rw [toU64_sub _ _ h1 hlt]
    have hc : ((libcomp.cstream.src_size -
        (E.compression_stream_process libcomp.cstream.state libcomp.cstream.src
          libcomp.cstream.src_size libcomp.cstream.dst_size 0).src_size : Nat) : Int)
        = (libcomp.cstream.src_size : Int) -
        ((E.compression_stream_process libcomp.cstream.state libcomp.cstream.src
          libcomp.cstream.src_size libcomp.cstream.dst_size 0).src_size : Int) := by omega
    rw [hc]
    apply toI32_of_lt
    · omega
    · omega
  unfold read_step
  simp only
  by_cases he : (E.compression_stream_process libcomp.cstream.state libcomp.cstream.src
      libcomp.cstream.src_size libcomp.cstream.dst_size 0).status = COMPRESSION_STATUS_ERROR
  · rw [if_pos he]
    have h3 := h2 he
    refine ⟨⟨hm, ?_, hk, ht, ?_⟩, rfl⟩
    · show pulled libcomp.base.2 = libcomp.total_in +
        ((E.compression_stream_process libcomp.cstream.state libcomp.cstream.src
          libcomp.cstream.src_size libcomp.cstream.dst_size 0).src_size : Int)
      rw [h3]; exact hp
    · show (E.compression_stream_process libcomp.cstream.state libcomp.cstream.src
          libcomp.cstream.src_size libcomp.cstream.dst_size 0).src_size ≤ 32767
      omega
  · rw [if_neg he]
    have key : PullInv K T0
        { libcomp with
          cstream := libcomp.cstream.after
            (E.compression_stream_process libcomp.cstream.state libcomp.cstream.src
              libcomp.cstream.src_size libcomp.cstream.dst_size 0)
          total_in := libcomp.total_in + toI32 (toU64 ((libcomp.cstream.src_size : Int) -
            ((E.compression_stream_process libcomp.cstream.state libcomp.cstream.src
              libcomp.cstream.src_size libcomp.cstream.dst_size 0).src_size : Int)))
          total_out := libcomp.total_out + toI32 (toU64 ((libcomp.cstream.dst_size : Int) -
            ((E.compression_stream_process libcomp.cstream.state libcomp.cstream.src
              libcomp.cstream.src_size libcomp.cstream.dst_size 0).dst_size : Int))) } := by
      refine ⟨hm, ?_, hk, ?_, ?_⟩
      · show pulled libcomp.base.2 = libcomp.total_in + toI32 _ +
          ((E.compression_stream_process libcomp.cstream.state libcomp.cstream.src
            libcomp.cstream.src_size libcomp.cstream.dst_size 0).src_size : Int)
        rw [hin]; omega
      · show T0 ≤ libcomp.total_in + toI32 _
        rw [hin]; omega
      · show (E.compression_stream_process libcomp.cstream.state libcomp.cstream.src
            libcomp.cstream.src_size libcomp.cstream.dst_size 0).src_size ≤ 32767
        omega
    split_ifs
    · exact ⟨key, rfl⟩
    · exact ⟨key, rfl⟩
    · exact ⟨key, rfl⟩

/-- An iteration of the read loop keeps the input quota accounting; the refill it makes
when no input is pending asks for `min(32767, K - total_in)` bytes. -/
theorem read_body_quota {β ε : Type} (B : Base β) (E : Engine ε)
    (hB : ReturnsAtMostAsked B) (hE1 : InputBounded E) (hE2 : FailedStepTakesNothing E)
    (K T0 : Int) (hK : 0 < K)
    (libcomp : mz_stream_libcomp (β × List (Int × Int)) ε) (total_out : Int)
    (out : List Nat) (hs : PullInv K T0 libcomp) :
    PullInv K T0 (read_body (logged B) E libcomp total_out out).2.1 ∧
    (libcomp.cstream.src_size = 0 →
      (read_body (logged B) E libcomp total_out out).2.1.base.2 =
        libcomp.base.2 ++ [(min 32767 (K - libcomp.total_in),
          (B.mz_stream_read libcomp.base.1 (min 32767 (K - libcomp.total_in))).1)]) ∧
    (libcomp.cstream.src_size ≠ 0 →
      (read_body (logged B) E libcomp total_out out).2.1.base.2 = libcomp.base.2) := by
  have hs0 := hs
  obtain ⟨hm, hp, hk, ht, hn⟩ := hs
  unfold read_body
  simp only
  by_cases h0 : libcomp.cstream.src_size = 0
  · rw [if_pos h0]
    have htk : libcomp.total_in ≤ K := by
      rw [h0] at hp
      simp only [Nat.cast_zero, add_zero] at hp
      omega
    have hreq := read_request_limited libcomp K hK hm htk
    rw [hreq]
    have hret := hB libcomp.base.1 (min 32767 (K - libcomp.total_in))
    have hb : ((logged B).mz_stream_read libcomp.base
        (min 32767 (K - libcomp.total_in))).2.2.2
        = libcomp.base.2 ++ [(min 32767 (K - libcomp.total_in),
          (B.mz_stream_read libcomp.base.1 (min 32767 (K - libcomp.total_in))).1)] := rfl
    have hr1 : ((logged B).mz_stream_read libcomp.base
        (min 32767 (K - libcomp.total_in))).1
        = (B.mz_stream_read libcomp.base.1 (min 32767 (K - libcomp.total_in))).1 := rfl
    have hpl := pulled_append libcomp.base.2 (min 32767 (K - libcomp.total_in))
      (B.mz_stream_read libcomp.base.1 (min 32767 (K - libcomp.total_in))).1
    rw [hr1]
    by_cases hneg : (B.mz_stream_read libcomp.base.1 (min 32767 (K - libcomp.total_in))).1 < 0
    · rw [if_pos hneg]
      refine ⟨⟨hm, ?_, ?_, ht, hn⟩, fun _ => hb, fun h => absurd h0 h⟩
      · show pulled ((logged B).mz_stream_read libcomp.base
            (min 32767 (K - libcomp.total_in))).2.2.2 = _
        rw [hb, hpl]
        show _ = libcomp.total_in + (libcomp.cstream.src_size : Int)
        omega
      · show pulled ((logged B).mz_stream_read libcomp.base
            (min 32767 (K - libcomp.total_in))).2.2.2 ≤ K
        rw [hb, hpl]
        omega
    · rw [if_neg hneg]
      by_cases hz : (B.mz_stream_read libcomp.base.1 (min 32767 (K - libcomp.total_in))).1 = 0
      · rw [if_pos hz]
        refine ⟨⟨hm, ?_, ?_, ht, hn⟩, fun _ => hb, fun h => absurd h0 h⟩
        · show pulled ((logged B).mz_stream_read libcomp.base
              (min 32767 (K - libcomp.total_in))).2.2.2 = _
          rw [hb, hpl]
          show _ = libcomp.total_in + (libcomp.cstream.src_size : Int)
          omega
        · show pulled ((logged B).mz_stream_read libcomp.base
              (min 32767 (K - libcomp.total_in))).2.2.2 ≤ K
          rw [hb, hpl]
          omega
      · rw [if_neg hz]
        have hu : toU64 (B.mz_stream_read libcomp.base.1
            (min 32767 (K - libcomp.total_in))).1
            = (B.mz_stream_read libcomp.base.1
              (min 32767 (K - libcomp.total_in))).1.toNat :=
          toU64_of_lt _ (by omega) (by omega)
        have hatt : PullInv K T0
            (read_attach
              (read_refill libcomp
                ((logged B).mz_stream_read libcomp.base (min 32767 (K - libcomp.total_in))))
              (B.mz_stream_read libcomp.base.1 (min 32767 (K - libcomp.total_in))).1) := by
          refine ⟨hm, ?_, ?_, ht, ?_⟩
          · show pulled ((logged B).mz_stream_read libcomp.base
                (min 32767 (K - libcomp.total_in))).2.2.2
              = libcomp.total_in + ((toU64 (B.mz_stream_read libcomp.base.1
                (min 32767 (K - libcomp.total_in))).1 : Nat) : Int)
            rw [hb, hpl, hu]
            omega
          · show pulled ((logged B).mz_stream_read libcomp.base
                (min 32767 (K - libcomp.total_in))).2.2.2 ≤ K
            rw [hb, hpl]
            omega
          · show toU64 (B.mz_stream_read libcomp.base.1
                (min 32767 (K - libcomp.total_in))).1 ≤ 32767
            rw [hu]
            omega
        obtain ⟨q1, q2⟩ := read_step_quota E hE1 hE2 K T0 _ total_out out hatt
        refine ⟨q1, fun _ => ?_, fun h => absurd h0 h⟩
        rw [q2]
        exact hb
  · rw [if_neg h0]
    obtain ⟨q1, q2⟩ := read_step_quota E hE1 hE2 K T0 libcomp total_out out hs0
    exact ⟨q1, fun h => absurd h h0, fun _ => by rw [q2]⟩

/-- The read loop keeps the input quota accounting. -/
theorem read_loop_quota {β ε : Type} (B : Base β) (E : Engine ε)
    (hB : ReturnsAtMostAsked B) (hE1 : InputBounded E) (hE2 : FailedStepTakesNothing E)
    (K T0 : Int) (hK : 0 < K) (fuel : Nat)
    (libcomp : mz_stream_libcomp (β × List (Int × Int)) ε) (total_out : Int)
    (out : List Nat) (r : mz_stream_libcomp (β × List (Int × Int)) ε × Int × List Nat)
    (hs : PullInv K T0 libcomp)
    (h : read_loop (logged B) E fuel libcomp total_out out = some r) :
    PullInv K T0 r.1 := by
  induction fuel generalizing libcomp total_out out with
  | zero => simp [read_loop] at h
  | succ k ih =>
    have hb := (read_body_quota B E hB hE1 hE2 K T0 hK libcomp total_out out hs).1
    unfold read_loop at h
    simp only at h
    split_ifs at h with hc
    · exact ih _ _ _ hb h
    · simp only [Option.some.injEq] at h
      rw [← h]
      exact hb

/-- A `read` keeps the input quota accounting. -/
theorem read_quota {β ε : Type} (B : Base β) (E : Engine ε)
    (hB : ReturnsAtMostAsked B) (hE1 : InputBounded E) (hE2 : FailedStepTakesNothing E)
    (K T0 : Int) (hK : 0 < K) (fuel : Nat)
    (libcomp : mz_stream_libcomp (β × List (Int × Int)) ε) (size : Int)
    (r : Int × List Nat × mz_stream_libcomp (β × List (Int × Int)) ε)
    (hs : PullInv K T0 libcomp)
    (h : mz_stream_libcomp_read (logged B) E fuel libcomp size = some r) :
    PullInv K T0 r.2.2 := by
  unfold mz_stream_libcomp_read at h
  simp only at h
  have hs2 : PullInv K T0
      { libcomp with cstream := { libcomp.cstream with dst_ptr := Ptr.buf 0
                                                       dst_size := toU64 size } } := hs
  cases hd : read_loop (logged B) E fuel
      { libcomp with cstream := { libcomp.cstream with dst_ptr := Ptr.buf 0
                                                       dst_size := toU64 size } } 0 [] with
  | none => simp [hd] at h
  | some p =>
    rw [hd] at h
    have hp := read_loop_quota B E hB hE1 hE2 K T0 hK fuel
      { libcomp with cstream := { libcomp.cstream with dst_ptr := Ptr.buf 0
                                                       dst_size := toU64 size } }
      0 [] p hs2 hd
    simp only at h
    split_ifs at h <;>
    · simp only [Option.some.injEq] at h
      rw [← h]
      exact hp

/-- A sequence of `read` calls keeps the input quota accounting. -/
theorem read_all_quota {β ε : Type} (B : Base β) (E : Engine ε)
    (hB : ReturnsAtMostAsked B) (hE1 : InputBounded E) (hE2 : FailedStepTakesNothing E)
    (K T0 : Int) (hK : 0 < K) (fuel : Nat) (sizes : List Int)
    (libcomp : mz_stream_libcomp (β × List (Int × Int)) ε)
    (r : List (Int × List Nat) × mz_stream_libcomp (β × List (Int × Int)) ε)
    (hs : PullInv K T0 libcomp)
    (h : read_all (logged B) E fuel libcomp sizes = some r) : PullInv K T0 r.2 := by
  induction sizes generalizing libcomp r with
  | nil =>
    simp only [read_all, Option.some.injEq] at h
    rw [← h]; exact hs
  | cons w rest ih =>
    unfold read_all at h
    cases hw : mz_stream_libcomp_read (logged B) E fuel libcomp w with
    | none => simp [hw] at h
    | some p =>
      rw [hw] at h
      simp only at h
      have hp := read_quota B E hB hE1 hE2 K T0 hK fuel libcomp w p hs hw
      cases hr : read_all (logged B) E fuel p.2.2 rest with
      | none => simp [hr] at h
      | some q =>
        rw [hr] at h
        simp only [Option.some.injEq] at h
        rw [← h]
        exact ih p.2.2 q hp hr

/-- C11 as stated fails: the engine `eat_fail_engine` consumes no more input than it is
given and the memory stream returns no more bytes than requested, yet on the DECODE
session with `TOTAL_IN_MAX` set to 4 before the first read, two `read` calls of 4 bytes
(each returns `MZ_STREAM_ERROR`) pull 4 bytes each from the upstream, 8 in all: the
bytes a failed step consumed are not counted in `total_in`, which stays 0. -/
theorem read_failed_steps_exceed_quota :
    InputBounded eat_fail_engine ∧ ReturnsAtMostAsked mem_base ∧
    (read_all (logged mem_base) eat_fail_engine 1 (limited_decoder eat_fail_engine 4)
        [4, 4]).map
      (fun r => (r.1.map Prod.fst, r.2.base.2, pulled r.2.base.2, r.2.total_in))
      = some ([-1, -1], [(4, 4), (4, 4)], 8, 0) := by
  refine ⟨?_, ?_, by decide⟩
  · intro st src n d fl
    exact Nat.zero_le _
  · intro st req
    simp only [mem_base]
    omega

/-- C11 amended: take an upstream that returns no more bytes than requested and an engine
that consumes no more input than it is given and whose failed steps consume none. On a
freshly created session that is opened and given `TOTAL_IN_MAX = K > 0` before the first
read, after any sequence of `read` calls the bytes pulled from the upstream (over the
recording base stream `logged B`) are those counted in `total_in` plus those pending at
the engine's input cursor, and at most `K`; once `total_in` has reached `K` no later
sequence of `read` calls pulls a byte; every iteration of the read loop keeps this
accounting, and the refill it makes when no input is pending asks for
`min(32767, K - total_in)` bytes. When the read loop makes progress the calls return. -/
theorem upstream_quota {β ε : Type} (B : Base β) (E : Engine ε)
    (hB : ReturnsAtMostAsked B) (hE1 : InputBounded E) (hE2 : FailedStepTakesNothing E)
    (K : Int) (hK : 0 < K) (source : β) (algorithm mode : Int)
    (hopen : (mz_stream_libcomp_open E
      (fresh_session E (source, ([] : List (Int × Int))) algorithm) mode).1 = MZ_OK) :
    (∀ fuel sizes r,
      read_all (logged B) E fuel
        (mz_stream_libcomp_set_prop_int64
          (mz_stream_libcomp_open E
            (fresh_session E (source, ([] : List (Int × Int))) algorithm) mode).2
          MZ_STREAM_PROP_TOTAL_IN_MAX K).2 sizes = some r →
      pulled r.2.base.2 ≤ K ∧
      pulled r.2.base.2 = r.2.total_in + r.2.cstream.src_size ∧
      PullInv K 0 r.2 ∧
      (r.2.total_in = K → ∀ fuel2 sizes2 r2,
        read_all (logged B) E fuel2 r.2 sizes2 = some r2 →
        pulled r2.2.base.2 = pulled r.2.base.2)) ∧
    (∀ (libcomp : mz_stream_libcomp (β × List (Int × Int)) ε) (total_out : Int)
      (out : List Nat), PullInv K 0 libcomp →
      PullInv K 0 (read_body (logged B) E libcomp total_out out).2.1 ∧
      (libcomp.cstream.src_size = 0 →
        (read_body (logged B) E libcomp total_out out).2.1.base.2 =
          libcomp.base.2 ++ [(min 32767 (K - libcomp.total_in),
            (B.mz_stream_read libcomp.base.1 (min 32767 (K - libcomp.total_in))).1)]) ∧
      (libcomp.cstream.src_size ≠ 0 →
        (read_body (logged B) E libcomp total_out out).2.1.base.2 = libcomp.base.2)) ∧
    (∀ μ, ReadProgress (logged B) E μ → ∀ sizes, ∃ N r, ∀ fuel, N ≤ fuel →
      read_all (logged B) E fuel
        (mz_stream_libcomp_set_prop_int64
          (mz_stream_libcomp_open E
            (fresh_session E (source, ([] : List (Int × Int))) algorithm) mode).2
          MZ_STREAM_PROP_TOTAL_IN_MAX K).2 sizes = some r) := by
  have hinv : PullInv K 0
      (mz_stream_libcomp_set_prop_int64
        (mz_stream_libcomp_open E
          (fresh_session E (source, ([] : List (Int × Int))) algorithm) mode).2
        MZ_STREAM_PROP_TOTAL_IN_MAX K).2 := by
    unfold mz_stream_libcomp_set_prop_int64
    rw [if_neg (by decide), if_pos rfl]
    unfold mz_stream_libcomp_open at hopen ⊢
    simp only at hopen ⊢
    split_ifs at hopen ⊢ with h1 h2
    · have h : MZ_PARAM_ERROR = MZ_OK := hopen
      exact absurd h (by decide)
    · have h : MZ_STREAM_ERROR = MZ_OK := hopen
      exact absurd h (by decide)
    · have h32 : (0 : Nat) ≤ 32767 := Nat.zero_le _
      exact ⟨rfl, rfl, le_of_lt hK, le_refl _, h32⟩
  refine ⟨?_, ?_, ?_⟩
  · intro fuel sizes r h
    have hr := read_all_quota B E hB hE1 hE2 K 0 hK fuel sizes _ r hinv h
    refine ⟨hr.2.2.1, hr.2.1, hr, ?_⟩
    intro htk fuel2 sizes2 r2 h2
    have hr0 : PullInv K K r.2 := ⟨hr.1, hr.2.1, hr.2.2.1, le_of_eq htk.symm, hr.2.2.2.2⟩
    obtain ⟨_, p2, p3, p4, _⟩ := read_all_quota B E hB hE1 hE2 K K hK fuel2 sizes2 r.2 r2 hr0 h2
    have q2 := hr.2.1
    have q3 := hr.2.2.1
    omega
  · intro libcomp total_out out hs
    exact read_body_quota B E hB hE1 hE2 K 0 hK libcomp total_out out hs
  · intro μ hp sizes
    exact read_all_terminates (logged B) E μ hp _ sizes

/-- The memory stream returns no more bytes than it is asked for. -/
theorem mem_returns_at_most_asked : ReturnsAtMostAsked mem_base := by
  intro st req
  simp only [mem_base]
  omega

/-- The copying engine consumes no more input than it is given. -/
theorem copy_input_bounded : InputBounded copy_engine := by
  intro st src n d fl
  simp only [copy_engine]
  omega

/-- The copying engine never reports failure. -/
theorem copy_failed_step_takes_nothing : FailedStepTakesNothing copy_engine := by
  intro st src n d fl h
  simp only [copy_engine] at h
  split_ifs at h <;> exact absurd h (by decide)

/-- C11 amended, on the memory stream that feeds ten bytes and the copying engine, with
the limit 4: whatever `read` calls are made, at most 4 bytes are pulled. -/
theorem upstream_quota_witness :
    (0 : Int) < 4 ∧
    (mz_stream_libcomp_open copy_engine
      (fresh_session copy_engine
        (({ input := [1, 2, 3, 4, 5, 6, 7, 8, 9, 10], output := [] } : mem_stream),
          ([] : List (Int × Int))) COMPRESSION_ZLIB) MZ_OPEN_MODE_READ).1 = MZ_OK ∧
    ∀ fuel sizes r,
      read_all (logged mem_base) copy_engine fuel
        (mz_stream_libcomp_set_prop_int64
          (mz_stream_libcomp_open copy_engine
            (fresh_session copy_engine
              (({ input := [1, 2, 3, 4, 5, 6, 7, 8, 9, 10], output := [] } : mem_stream),
                ([] : List (Int × Int))) COMPRESSION_ZLIB) MZ_OPEN_MODE_READ).2
          MZ_STREAM_PROP_TOTAL_IN_MAX 4).2 sizes = some r →
      pulled r.2.base.2 ≤ 4 ∧
      pulled r.2.base.2 = r.2.total_in + r.2.cstream.src_size ∧
      PullInv 4 0 r.2 ∧
      (r.2.total_in = 4 → ∀ fuel2 sizes2 r2,
        read_all (logged mem_base) copy_engine fuel2 r.2 sizes2 = some r2 →
        pulled r2.2.base.2 = pulled r.2.base.2) :=
  ⟨by decide, rfl, (upstream_quota mem_base copy_engine mem_returns_at_most_asked
    copy_input_bounded copy_failed_step_takes_nothing 4 (by decide)
    { input := [1, 2, 3, 4, 5, 6, 7, 8, 9, 10], output := [] } COMPRESSION_ZLIB
    MZ_OPEN_MODE_READ rfl).1⟩

end StrmLibcomp
